import Mathlib

/-! DBC parser (cpp-can-parser): shallow embedding and verified properties

The section parsers of `src/parsing/DBCParser.cpp` are embedded as pure
functions that thread the tokenizer and the database explicitly and return
`Except Exn _` where the C++ code can throw.  `while` loops are recursive
functions on a fuel argument; every loop is entered with fuel
`remaining + 1`, which is more than the number of iterations any loop can
make, because each iteration consumes at least one token.

`warning(...)` only prints to the console: it changes neither the tokenizer
nor the database and is left out of the embedding.  The line counter is used
only inside diagnostics and error messages and is left out as well.
-/

namespace DBCParser

/-! ## Tokens and the token source (Tokenizer.h, not part of the sources) -/

/-- Modelled from the spec: the kinds of a token (`Token::Type`, Tokenizer.h is
absent): Identifier, Number, PositiveNumber, NegativeNumber, StringLiteral,
ArithmeticSign, punctuation literals (`Separator`) and end-of-input. -/
inductive TokenType where
  | Identifier
  | Number
  | PositiveNumber
  | NegativeNumber
  | StringLiteral
  | ArithmeticSign
  | Separator
  | Eof
  deriving DecidableEq, Repr

/-- Modelled from the spec: the result of the real-number conversion of a
lexeme (`Token::toDouble`, `CANSignal::Range::fromString`; both absent).
Floating point is not interpreted: a value is represented by the lexeme it is
converted from. -/
structure Double where
  lexeme : String
  deriving DecidableEq, Repr

/-- Modelled from the spec: a token has an image (raw lexeme) and a kind
(`Token`, Tokenizer.h is absent). -/
structure Token where
  image : String
  type : TokenType
  deriving DecidableEq, Repr

/-- Value of the longest prefix of decimal digits, most significant first. -/
def digitsToNat : List Char → Nat → Nat
  | [], acc => acc
  | c :: cs, acc => if c.isDigit then digitsToNat cs (acc * 10 + (c.toNat - 48)) else acc

/-- Modelled from the spec: numeric conversion of a token to an unsigned
integer (`Token::toUInt`, absent): the value of the leading decimal digits of
the image. -/
def Token.toUInt (t : Token) : Nat := digitsToNat t.image.data 0

/-- Modelled from the spec: numeric conversion of a token to a real number
(`Token::toDouble`, absent). -/
def Token.toDouble (t : Token) : Double := ⟨t.image⟩

/-- Modelled from the spec: comparison of a token with a token kind
(`Token::operator==(Token::Type)`, absent).  `Number` is the generic numeric
kind: `addBADirective` reads a token as `Number` and then asks whether it is a
`NegativeNumber`, so signed numbers are accepted where a `Number` is
expected. -/
def Token.isType (t : Token) (ty : TokenType) : Bool :=
  t.type == ty ||
    (ty == TokenType.Number &&
      (t.type == TokenType.PositiveNumber || t.type == TokenType.NegativeNumber))

/-- The target of a lookahead primitive: a token kind or a literal lexeme (the
two overloads of every function of ParsingUtils.h). -/
inductive Target where
  | type (ty : TokenType)
  | image (s : String)
  deriving DecidableEq, Repr

/-- Modelled from the spec: `token == target` for either overload; a literal
lexeme is compared with the image of the token. -/
def Token.matchesTarget (t : Token) : Target → Bool
  | Target.type ty => t.isType ty
  | Target.image s => t.image == s

/-- The token delivered at end-of-input. -/
def Token.eof : Token := ⟨"", TokenType.Eof⟩

/-- Modelled from the spec: the token source (`Tokenizer`, absent): a
pull-based stream of tokens (`input`, the tokens not yet fetched) with
exactly one token of pushback buffering (`saved`) and the most recently
fetched token (`current`). -/
structure Tokenizer where
  input : List Token
  saved : Option Token
  current : Token
  deriving DecidableEq, Repr

/-- The tokens that successive fetches will deliver, in order. -/
def Tokenizer.stream (tk : Tokenizer) : List Token :=
  tk.saved.toList ++ tk.input

/-- Number of tokens still to be delivered before end-of-input. -/
def Tokenizer.remaining (tk : Tokenizer) : Nat := tk.stream.length

/-- Modelled from the spec: fetch-next (`Tokenizer::getNextToken`, absent).
A pushed-back token is delivered first; at end-of-input the end-of-input token
is delivered, again and again. -/
def Tokenizer.getNextToken (tk : Tokenizer) : Token × Tokenizer :=
  match tk.saved with
  | some t => (t, { tk with saved := none, current := t })
  | none =>
    match tk.input with
    | [] => (Token.eof, { tk with current := Token.eof })
    | t :: rest => (t, { input := rest, saved := none, current := t })

/-- Modelled from the spec: inspect-current (`Tokenizer::getCurrentToken`,
absent). -/
def Tokenizer.getCurrentToken (tk : Tokenizer) : Token := tk.current

/-- Modelled from the spec: push-back-if-not-end-of-input
(`Tokenizer::saveTokenIfNotEof`, absent). -/
def Tokenizer.saveTokenIfNotEof (tk : Tokenizer) (t : Token) : Tokenizer :=
  if t.type = TokenType.Eof then tk else { tk with saved := some t }

/-- Loop of `skipUntil`: fetch tokens until one with the given image has been
consumed or end-of-input is reached. -/
def Tokenizer.skipUntilLoop (token : String) : Nat → Tokenizer → Tokenizer
  | 0, tk => tk
  | fuel + 1, tk =>
    let r := tk.getNextToken
    if r.1.type = TokenType.Eof ∨ r.1.image = token then r.2
    else Tokenizer.skipUntilLoop token fuel r.2

/-- Modelled from the spec: skip-forward-until a given literal is consumed
(`Tokenizer::skipUntil`, absent). -/
def Tokenizer.skipUntil (tk : Tokenizer) (token : String) : Tokenizer :=
  Tokenizer.skipUntilLoop token (tk.remaining + 1) tk

/-! ## Errors -/

/-- What the parser can throw.  `SyntaxError` is what `throw_error` raises at
an `assert_*` call site, `CANDatabaseException` is the hard reference error,
`out_of_range` is `std::out_of_range` of a failed lookup, and `FuelExhausted`
marks a loop of the embedding that ran out of fuel (it is never produced when
loops are entered through the section parsers below). -/
inductive Exn where
  | SyntaxError
  | CANDatabaseException
  | out_of_range
  | FuelExhausted
  deriving DecidableEq, Repr

/-! ## Lookahead primitives (ParsingUtils.h; the definitions are absent) -/

/-- Modelled from the spec: `assert_next(target)` (`assert_token`, declared in
ParsingUtils.h, body absent): always consumes one token; returns it on a
match and fails with a `SyntaxError` otherwise. -/
def assert_token (tk : Tokenizer) (target : Target) : Except Exn (Token × Tokenizer) :=
  let r := tk.getNextToken
  if r.1.matchesTarget target then Except.ok r else Except.error Exn.SyntaxError

/-- Modelled from the spec: `assert_current(target)` (`assert_current_token`,
body absent): never advances; validates the token most recently consumed and
fails with a `SyntaxError` on a mismatch. -/
def assert_current_token (tk : Tokenizer) (target : Target) : Except Exn Token :=
  if tk.getCurrentToken.matchesTarget target then Except.ok tk.getCurrentToken
  else Except.error Exn.SyntaxError

/-- Modelled from the spec: `is_current(target)` (`is_current_token`, body
absent): never advances, never throws. -/
def is_current_token (tk : Tokenizer) (target : Target) : Bool :=
  tk.getCurrentToken.matchesTarget target

/-- Modelled from the spec: `is_next(target)` (`is_token`, body absent):
fetches one token, then pushes it back unconditionally. -/
def is_token (tk : Tokenizer) (target : Target) : Bool × Tokenizer :=
  let r := tk.getNextToken
  (r.1.matchesTarget target, r.2.saveTokenIfNotEof r.1)

/-- Modelled from the spec: `peek_consume(target)` (`peek_token`, declared in
ParsingUtils.h, body absent): fetches one token; consumes it only if it
matches, otherwise pushes it back. -/
def peek_token (tk : Tokenizer) (target : Target) : Bool × Tokenizer :=
  let r := tk.getNextToken
  if r.1.matchesTarget target then (true, r.2) else (false, r.2.saveTokenIfNotEof r.1)

/-! ## Database model (CANDatabase.h, CANFrame.h, CANSignal.h; absent) -/

/-- Signedness of a signal (`CANSignal::Signedness`). -/
inductive Signedness where
  | Signed
  | Unsigned
  deriving DecidableEq, Repr

/-- Byte order of a signal (`CANSignal::Endianness`). -/
inductive Endianness where
  | BigEndian
  | LittleEndian
  deriving DecidableEq, Repr

/-- Modelled from the spec: the physical range of a signal
(`CANSignal::Range`, absent): minimum and maximum, stored as given. -/
structure Range where
  min : Double
  max : Double
  deriving DecidableEq, Repr

/-- Modelled from the spec: `CANSignal::Range::fromString` (absent). -/
def Range.fromString (min max : String) : Range := ⟨⟨min⟩, ⟨max⟩⟩

/-- Modelled from the spec: a signal (`CANSignal`, absent) with the
attributes of the data model; the comment is optional and the value table
(`choices`) is a mapping from raw value to description kept as an association
list with at most one entry per value. -/
structure CANSignal where
  name : String
  start_bit : Nat
  length : Nat
  scale : Double
  offset : Double
  signedness : Signedness
  endianness : Endianness
  range : Range
  unit : String
  comment : Option String
  choices : List (Nat × String)
  deriving DecidableEq, Repr

/-- The eight-argument constructor `CANSignal(name, start_bit, length, scale,
offset, signedness, endianness, range)` used by `parseSigDefInstruction`; the
attributes it does not receive start out empty. -/
def CANSignal.new (name : String) (start_bit length : Nat) (scale offset : Double)
    (signedness : Signedness) (endianness : Endianness) (range : Range) : CANSignal :=
  { name := name, start_bit := start_bit, length := length, scale := scale,
    offset := offset, signedness := signedness, endianness := endianness,
    range := range, unit := "", comment := none, choices := [] }

/-- Modelled from the spec: `CANSignal::setComment` (absent). -/
def CANSignal.setComment (s : CANSignal) (comment : String) : CANSignal :=
  { s with comment := some comment }

/-- Modelled from the spec: `CANSignal::setChoices` (absent): the mapping
replaces the value table of the signal. -/
def CANSignal.setChoices (s : CANSignal) (choices : List (Nat × String)) : CANSignal :=
  { s with choices := choices }

/-- Modelled from the spec: a frame (`CANFrame`, absent): id, name,
data-length code, optional period, optional comment and the owned signals,
keyed by name. -/
structure CANFrame where
  name : String
  can_id : Nat
  dlc : Nat
  period : Option Nat
  comment : Option String
  signals : List CANSignal
  deriving DecidableEq, Repr

/-- The constructor `CANFrame(name, can_id, dlc)` used by
`parseMsgDefSection`. -/
def CANFrame.new (name : String) (can_id dlc : Nat) : CANFrame :=
  { name := name, can_id := can_id, dlc := dlc, period := none, comment := none,
    signals := [] }

/-- Modelled from the spec: `CANFrame::contains(name)` (absent). -/
def CANFrame.contains (f : CANFrame) (name : String) : Bool :=
  f.signals.any (fun s => s.name == name)

/-- Modelled from the spec: `CANFrame::addSignal` (absent): the signal is
appended to the frame; signals are keyed by unique name, so a signal whose
name is already present is not inserted (as with `std::map::insert`). -/
def CANFrame.addSignal (f : CANFrame) (s : CANSignal) : CANFrame :=
  if f.contains s.name then f else { f with signals := f.signals ++ [s] }

/-- Replace by `g s` the first element `s` that satisfies `p`. -/
def modifyFirst {α : Type} (p : α → Bool) (g : α → α) : List α → List α
  | [] => []
  | x :: xs => if p x then g x :: xs else x :: modifyFirst p g xs

/-- Modelled from the spec: mutation through the reference returned by
`CANFrame::operator[](name)` (absent): the signal of that name is replaced
by its image under `g`. -/
def CANFrame.modifySignal (f : CANFrame) (name : String) (g : CANSignal → CANSignal) :
    CANFrame :=
  { f with signals := modifyFirst (fun s => s.name == name) g f.signals }

/-- Modelled from the spec: `CANFrame::setPeriod` (absent). -/
def CANFrame.setPeriod (f : CANFrame) (period : Nat) : CANFrame :=
  { f with period := some period }

/-- Modelled from the spec: `CANFrame::setComment` (absent). -/
def CANFrame.setComment (f : CANFrame) (comment : String) : CANFrame :=
  { f with comment := some comment }

/-- Modelled from the spec: the database (`CANDatabase`, absent): a name and
the frames, keyed by id. -/
structure CANDatabase where
  name : String
  frames : List CANFrame
  deriving DecidableEq, Repr

/-- The constructor `CANDatabase(name)`. -/
def CANDatabase.new (name : String) : CANDatabase := { name := name, frames := [] }

/-- Modelled from the spec: the non-throwing `CANDatabase::contains(id)`
(absent). -/
def CANDatabase.contains (db : CANDatabase) (id : Nat) : Bool :=
  db.frames.any (fun f => f.can_id == id)

/-- Modelled from the spec: indexed lookup by frame id (`CANDatabase::at` and
`CANDatabase::operator[]`, absent): fails with `std::out_of_range` if the id
is absent. -/
def CANDatabase.at_ (db : CANDatabase) (id : Nat) : Except Exn CANFrame :=
  match db.frames.find? (fun f => f.can_id == id) with
  | some f => Except.ok f
  | none => Except.error Exn.out_of_range

/-- Modelled from the spec: in-place mutation through the reference returned
by `CANDatabase::at` or `CANDatabase::operator[]` (absent): the frame of that
id is replaced by its image under `g`. -/
def CANDatabase.modifyFrame (db : CANDatabase) (id : Nat) (g : CANFrame → CANFrame) :
    CANDatabase :=
  { db with frames := modifyFirst (fun f => f.can_id == id) g db.frames }

/-- Modelled from the spec: insertion of a new frame (`CANDatabase::addFrame`,
absent): fails if the id already exists. -/
def CANDatabase.addFrame (db : CANDatabase) (f : CANFrame) : Except Exn CANDatabase :=
  if db.contains f.can_id then Except.error Exn.CANDatabaseException
  else Except.ok { db with frames := db.frames ++ [f] }

/-! ## DBCParser.cpp -/

def VERSION_TOKEN : String := "VERSION"
def NS_SECTION_TOKEN : String := "NS_"
def BIT_TIMING_TOKEN : String := "BS_"
def NODE_DEF_TOKEN : String := "BU_"
def MESSAGE_DEF_TOKEN : String := "BO_"
def SIG_DEF_TOKEN : String := "SG_"
def SIG_VAL_DEF_TOKEN : String := "VAL_"
def ENV_VAR_TOKEN : String := "EV_"
def COMMENT_TOKEN : String := "CM_"
def ATTR_DEF_TOKEN : String := "BA_DEF_"
def ATTR_DEF_DEFAULT_TOKEN : String := "BA_DEF_DEF_"
def ATTR_VAL_TOKEN : String := "BA_"

def SUPPORTED_DBC_TOKENS : List String :=
  [VERSION_TOKEN, BIT_TIMING_TOKEN, NODE_DEF_TOKEN, MESSAGE_DEF_TOKEN,
   SIG_DEF_TOKEN, SIG_VAL_DEF_TOKEN, ENV_VAR_TOKEN, COMMENT_TOKEN,
   ATTR_DEF_TOKEN, ATTR_DEF_DEFAULT_TOKEN, ATTR_VAL_TOKEN]

def NS_TOKENS : List String :=
  ["CM_", "BA_DEF_", "BA_", "VAL_", "CAT_DEF_", "CAT_", "FILTER", "BA_DEF_DEF_",
   "EV_DATA_", "ENVVAR_DATA", "SGTYPE_", "SGTYPE_VAL_", "BA_DEF_SGTYPE_", "BA_SGTYPE_",
   "SIG_TYPE_DEF_"]

def UNSUPPORTED_DBC_TOKENS : List String :=
  ["VAL_TABLE_", "BO_TX_BU_", "ENVVAR_DATA_", "SGTYPE_", "SIG_GROUP_"]

/-- Function `is_dbc_token`. -/
def is_dbc_token (token : Token) : Bool :=
  SUPPORTED_DBC_TOKENS.contains token.image ||
    NS_TOKENS.contains token.image ||
    UNSUPPORTED_DBC_TOKENS.contains token.image

/-- Conversion of an unsigned value to the 32-bit type `unsigned int`: the
value modulo `2 ^ 32`. -/
def toUnsignedInt (n : Nat) : Nat := n % 2 ^ 32

/-- Function `addBADirective`; `iFrameId` and `iPeriod` are declared
`unsigned int`, so the converted values are reduced modulo `2 ^ 32`. -/
def addBADirective (tk : Tokenizer) (db : CANDatabase) :
    Except Exn (Tokenizer × CANDatabase) := do
  let _ ← assert_current_token tk (Target.image "BA_")
  let (infoType, tk) ← assert_token tk (Target.type TokenType.StringLiteral)
  if infoType.matchesTarget (Target.image "GenMsgCycleTime") ||
      infoType.matchesTarget (Target.image "CycleTime") then
    let (_, tk) ← assert_token tk (Target.image "BO_")
    let (frameId, tk) ← assert_token tk (Target.type TokenType.Number)
    let (period, tk) ← assert_token tk (Target.type TokenType.Number)
    let (_, tk) ← assert_token tk (Target.image ";")
    if period.matchesTarget (Target.type TokenType.NegativeNumber) then
      Except.ok (tk, db)
    else if frameId.matchesTarget (Target.type TokenType.NegativeNumber) then
      Except.ok (tk, db)
    else
      let iFrameId := toUnsignedInt frameId.toUInt
      let iPeriod := toUnsignedInt period.toUInt
      match db.at_ iFrameId with
      | Except.ok _ => Except.ok (tk, db.modifyFrame iFrameId (fun f => f.setPeriod iPeriod))
      | Except.error Exn.out_of_range => Except.error Exn.CANDatabaseException
      | Except.error e => Except.error e
  else
    Except.ok (tk.skipUntil ";", db)

/-- Function `parseVersionSection`. -/
def parseVersionSection (tk : Tokenizer) : Except Exn (String × Tokenizer) :=
  let p := peek_token tk (Target.image VERSION_TOKEN)
  if p.1 then do
    let (candb_version, tk) ← assert_token p.2 (Target.type TokenType.StringLiteral)
    Except.ok (candb_version.image, tk)
  else
    Except.ok ("", p.2)

/-- The `while` loop of `parseNSSection`. -/
def parseNSSection_loop : Nat → Token → Tokenizer → Token × Tokenizer
  | 0, token, tk => (token, tk)
  | fuel + 1, token, tk =>
    if NS_TOKENS.contains token.image then
      let r := tk.getNextToken
      parseNSSection_loop fuel r.1 r.2
    else (token, tk)

/-- Function `parseNSSection`. -/
def parseNSSection (tk : Tokenizer) : Except Exn Tokenizer :=
  let p := peek_token tk (Target.image NS_SECTION_TOKEN)
  if !p.1 then Except.ok p.2
  else do
    let (_, tk) ← assert_token p.2 (Target.image ":")
    let r := tk.getNextToken
    let l := parseNSSection_loop (r.2.remaining + 1) r.1 r.2
    Except.ok (l.2.saveTokenIfNotEof l.1)

/-- Function `parseBitTimingSection`. -/
def parseBitTimingSection (tk : Tokenizer) : Except Exn Tokenizer := do
  let (_, tk) ← assert_token tk (Target.image BIT_TIMING_TOKEN)
  let (_, tk) ← assert_token tk (Target.image ":")
  let p := peek_token tk (Target.type TokenType.PositiveNumber)
  if p.1 then
    let _ ← assert_current_token p.2 (Target.type TokenType.PositiveNumber)
    let (_, tk) ← assert_token p.2 (Target.image ":")
    let (_, tk) ← assert_token tk (Target.type TokenType.PositiveNumber)
    let (_, tk) ← assert_token tk (Target.image ",")
    let (_, tk) ← assert_token tk (Target.type TokenType.PositiveNumber)
    Except.ok tk
  else
    Except.ok p.2

/-- The `while` loop of `parseNodesSection`; `nodes` is the local set of node
names. -/
def parseNodesSection_loop :
    Nat → Token → List String → Tokenizer → Except Exn (Token × Tokenizer)
  | 0, _, _, _ => Except.error Exn.FuelExhausted
  | fuel + 1, currentToken, nodes, tk =>
    if !currentToken.matchesTarget (Target.type TokenType.Eof) &&
        !is_dbc_token currentToken then do
      let r ← assert_token tk (Target.type TokenType.Identifier)
      parseNodesSection_loop fuel r.1 (nodes.insert currentToken.image) r.2
    else Except.ok (currentToken, tk)

/-- Function `parseNodesSection`; the database is passed but not touched. -/
def parseNodesSection (tk : Tokenizer) (db : CANDatabase) :
    Except Exn (Tokenizer × CANDatabase) := do
  let (_, tk) ← assert_token tk (Target.image NODE_DEF_TOKEN)
  let (_, tk) ← assert_token tk (Target.image ":")
  let p := peek_token tk (Target.type TokenType.Identifier)
  if !p.1 then Except.ok (p.2, db)
  else
    let (currentToken, tk) ← assert_token p.2 (Target.type TokenType.Identifier)
    let (currentToken, tk) ← parseNodesSection_loop (tk.remaining + 1) currentToken [] tk
    Except.ok (tk.saveTokenIfNotEof currentToken, db)

/-- The `while` loop of `parseUnsupportedCommandSection`. -/
def parseUnsupportedCommandSection_loop (command : String) : Nat → Tokenizer → Tokenizer
  | 0, tk => tk
  | fuel + 1, tk =>
    let p := peek_token tk (Target.image command)
    if p.1 then parseUnsupportedCommandSection_loop command fuel (p.2.skipUntil ";")
    else p.2

/-- Function `parseUnsupportedCommandSection`. -/
def parseUnsupportedCommandSection (tk : Tokenizer) (command : String) : Tokenizer :=
  parseUnsupportedCommandSection_loop command (tk.remaining + 1) tk

/-- The `while (peek_token(tokenizer, ","))` loop of `parseSigDefInstruction`
over the receiving nodes. -/
def parseSigDefInstruction_loop : Nat → Tokenizer → Except Exn Tokenizer
  | 0, _ => Except.error Exn.FuelExhausted
  | fuel + 1, tk =>
    let p := peek_token tk (Target.image ",")
    if p.1 then do
      let (_, tk) ← assert_token p.2 (Target.type TokenType.Identifier)
      parseSigDefInstruction_loop fuel tk
    else Except.ok p.2

/-- Function `parseSigDefInstruction`. -/
def parseSigDefInstruction (tk : Tokenizer) (frame : CANFrame) :
    Except Exn (Tokenizer × CANFrame) := do
  let _ ← assert_current_token tk (Target.image SIG_DEF_TOKEN)
  let (name, tk) ← assert_token tk (Target.type TokenType.Identifier)
  let (_, tk) ← assert_token tk (Target.image ":")
  let (startBit, tk) ← assert_token tk (Target.type TokenType.PositiveNumber)
  let (_, tk) ← assert_token tk (Target.image "|")
  let (length, tk) ← assert_token tk (Target.type TokenType.PositiveNumber)
  let (_, tk) ← assert_token tk (Target.image "@")
  let (endianess, tk) ← assert_token tk (Target.type TokenType.PositiveNumber)
  let (signedness, tk) ← assert_token tk (Target.type TokenType.ArithmeticSign)
  let (_, tk) ← assert_token tk (Target.image "(")
  let (scale, tk) ← assert_token tk (Target.type TokenType.Number)
  let (_, tk) ← assert_token tk (Target.image ",")
  let (offset, tk) ← assert_token tk (Target.type TokenType.Number)
  let (_, tk) ← assert_token tk (Target.image ")")
  let (_, tk) ← assert_token tk (Target.image "[")
  let (min, tk) ← assert_token tk (Target.type TokenType.Number)
  let (_, tk) ← assert_token tk (Target.image "|")
  let (max, tk) ← assert_token tk (Target.type TokenType.Number)
  let (_, tk) ← assert_token tk (Target.image "]")
  let (_, tk) ← assert_token tk (Target.type TokenType.StringLiteral)
  let (_, tk) ← assert_token tk (Target.type TokenType.Identifier)
  let tk ← parseSigDefInstruction_loop (tk.remaining + 1) tk
  Except.ok (tk, frame.addSignal
    (CANSignal.new name.image startBit.toUInt length.toUInt scale.toDouble offset.toDouble
      (if signedness.matchesTarget (Target.image "-") then Signedness.Signed
        else Signedness.Unsigned)
      (if endianess.matchesTarget (Target.image "0") then Endianness.BigEndian
        else Endianness.LittleEndian)
      (Range.fromString min.image max.image)))

/-- The inner `while (peek_token(tokenizer, SIG_DEF_TOKEN))` loop of
`parseMsgDefSection`. -/
def parseMsgDefSection_sigLoop : Nat → Tokenizer → CANFrame → Except Exn (Tokenizer × CANFrame)
  | 0, _, _ => Except.error Exn.FuelExhausted
  | fuel + 1, tk, new_frame =>
    let p := peek_token tk (Target.image SIG_DEF_TOKEN)
    if p.1 then do
      let (tk, new_frame) ← parseSigDefInstruction p.2 new_frame
      parseMsgDefSection_sigLoop fuel tk new_frame
    else Except.ok (p.2, new_frame)

/-- The outer `while` loop of `parseMsgDefSection`. -/
def parseMsgDefSection_loop : Nat → Tokenizer → CANDatabase → Except Exn (Tokenizer × CANDatabase)
  | 0, _, _ => Except.error Exn.FuelExhausted
  | fuel + 1, tk, db =>
    let p := peek_token tk (Target.image MESSAGE_DEF_TOKEN)
    if p.1 then do
      let (id, tk) ← assert_token p.2 (Target.type TokenType.PositiveNumber)
      let (name, tk) ← assert_token tk (Target.type TokenType.Identifier)
      let (_, tk) ← assert_token tk (Target.image ":")
      let (dlc, tk) ← assert_token tk (Target.type TokenType.PositiveNumber)
      let (_, tk) ← assert_token tk (Target.type TokenType.Identifier)
      let new_frame := CANFrame.new name.image id.toUInt dlc.toUInt
      let (tk, new_frame) ← parseMsgDefSection_sigLoop (tk.remaining + 1) tk new_frame
      let db ← db.addFrame new_frame
      parseMsgDefSection_loop fuel tk db
    else Except.ok (p.2, db)

/-- Function `parseMsgDefSection`. -/
def parseMsgDefSection (tk : Tokenizer) (db : CANDatabase) :
    Except Exn (Tokenizer × CANDatabase) :=
  parseMsgDefSection_loop (tk.remaining + 1) tk db

/-- The statements of one iteration of the outer loop of `parseMsgDefSection`
between the loop test and `db.addFrame(new_frame)`: the header of a block and
its signal productions, giving the frame that has been built. -/
def parseMsgDefSection_block (tk : Tokenizer) : Except Exn (Tokenizer × CANFrame) := do
  let (id, tk) ← assert_token tk (Target.type TokenType.PositiveNumber)
  let (name, tk) ← assert_token tk (Target.type TokenType.Identifier)
  let (_, tk) ← assert_token tk (Target.image ":")
  let (dlc, tk) ← assert_token tk (Target.type TokenType.PositiveNumber)
  let (_, tk) ← assert_token tk (Target.type TokenType.Identifier)
  let new_frame := CANFrame.new name.image id.toUInt dlc.toUInt
  parseMsgDefSection_sigLoop (tk.remaining + 1) tk new_frame

/-- The outer loop of `parseMsgDefSection` with the database as the C++ code
has it, passed by reference: the first component is the database at the
moment the loop returns or throws. -/
def parseMsgDefSection_loopRef : Nat → Tokenizer → CANDatabase → CANDatabase × Except Exn Tokenizer
  | 0, _, db => (db, Except.error Exn.FuelExhausted)
  | fuel + 1, tk, db =>
    let p := peek_token tk (Target.image MESSAGE_DEF_TOKEN)
    if p.1 then
      match parseMsgDefSection_block p.2 with
      | Except.error e => (db, Except.error e)
      | Except.ok (tk, new_frame) =>
        match db.addFrame new_frame with
        | Except.error e => (db, Except.error e)
        | Except.ok db => parseMsgDefSection_loopRef fuel tk db
    else (db, Except.ok p.2)

/-- Function `parseMsgDefSection`, with the database at the moment it returns
or throws. -/
def parseMsgDefSection_ref (tk : Tokenizer) (db : CANDatabase) :
    CANDatabase × Except Exn Tokenizer :=
  parseMsgDefSection_loopRef (tk.remaining + 1) tk db

/-- The result of a by-reference run as a value: the final tokenizer and
database on return, the exception otherwise. -/
def outcomeOfRef (r : CANDatabase × Except Exn Tokenizer) : Except Exn (Tokenizer × CANDatabase) :=
  match r.2 with
  | Except.ok tk => Except.ok (tk, r.1)
  | Except.error e => Except.error e

/-- Function `parseMsgCommentInstruction`. -/
def parseMsgCommentInstruction (tk : Tokenizer) (db : CANDatabase) :
    Except Exn (Tokenizer × CANDatabase) := do
  let (targetFrame, tk) ← assert_token tk (Target.type TokenType.PositiveNumber)
  let (comment, tk) ← assert_token tk (Target.type TokenType.StringLiteral)
  let (_, tk) ← assert_token tk (Target.image ";")
  let frame_id := targetFrame.toUInt
  if db.contains frame_id then
    let _ ← db.at_ frame_id
    Except.ok (tk, db.modifyFrame frame_id (fun f => f.setComment comment.image))
  else
    Except.ok (tk, db)

/-- Function `parseSigCommentInstruction`. -/
def parseSigCommentInstruction (tk : Tokenizer) (db : CANDatabase) :
    Except Exn (Tokenizer × CANDatabase) := do
  let (targetFrame, tk) ← assert_token tk (Target.type TokenType.PositiveNumber)
  let (targetSignal, tk) ← assert_token tk (Target.type TokenType.Identifier)
  let (comment, tk) ← assert_token tk (Target.type TokenType.StringLiteral)
  let (_, tk) ← assert_token tk (Target.image ";")
  if !db.contains targetFrame.toUInt then
    Except.ok (tk, db)
  else
    let frame ← db.at_ targetFrame.toUInt
    if !frame.contains targetSignal.image then
      Except.ok (tk, db)
    else
      Except.ok (tk, db.modifyFrame targetFrame.toUInt (fun f =>
        f.modifySignal targetSignal.image (fun s => s.setComment comment.image)))

/-- The `while` loop of `parseCommentSection`. -/
def parseCommentSection_loop :
    Nat → Tokenizer → CANDatabase → Except Exn (Tokenizer × CANDatabase)
  | 0, _, _ => Except.error Exn.FuelExhausted
  | fuel + 1, tk, db =>
    let p := peek_token tk (Target.image COMMENT_TOKEN)
    if p.1 then
      let q := peek_token p.2 (Target.type TokenType.StringLiteral)
      if q.1 then do
        let (_, tk) ← assert_token q.2 (Target.image ";")
        parseCommentSection_loop fuel tk db
      else do
        let (commentType, tk) ← assert_token q.2 (Target.type TokenType.Identifier)
        if commentType.matchesTarget (Target.image MESSAGE_DEF_TOKEN) then
          let (tk, db) ← parseMsgCommentInstruction tk db
          parseCommentSection_loop fuel tk db
        else if commentType.matchesTarget (Target.image SIG_DEF_TOKEN) then
          let (tk, db) ← parseSigCommentInstruction tk db
          parseCommentSection_loop fuel tk db
        else
          parseCommentSection_loop fuel (tk.skipUntil ";") db
    else Except.ok (p.2, db)

/-- Function `parseCommentSection`. -/
def parseCommentSection (tk : Tokenizer) (db : CANDatabase) :
    Except Exn (Tokenizer × CANDatabase) :=
  parseCommentSection_loop (tk.remaining + 1) tk db

/-- The `while` loop of `parseAttrValSection`. -/
def parseAttrValSection_loop :
    Nat → Tokenizer → CANDatabase → Except Exn (Tokenizer × CANDatabase)
  | 0, _, _ => Except.error Exn.FuelExhausted
  | fuel + 1, tk, db =>
    let p := peek_token tk (Target.image ATTR_VAL_TOKEN)
    if p.1 then do
      let (attrType, tk) ← assert_token p.2 (Target.type TokenType.StringLiteral)
      if !attrType.matchesTarget (Target.image "GenMsgCycleTime") &&
          !attrType.matchesTarget (Target.image "CycleTime") then
        parseAttrValSection_loop fuel (tk.skipUntil ";") db
      else
        let (_, tk) ← assert_token tk (Target.image "BO_")
        let (frameId, tk) ← assert_token tk (Target.type TokenType.PositiveNumber)
        let (period, tk) ← assert_token tk (Target.type TokenType.PositiveNumber)
        let (_, tk) ← assert_token tk (Target.image ";")
        match db.at_ frameId.toUInt with
        | Except.ok _ =>
          parseAttrValSection_loop fuel tk
            (db.modifyFrame frameId.toUInt (fun f => f.setPeriod period.toUInt))
        | Except.error Exn.out_of_range => parseAttrValSection_loop fuel tk db
        | Except.error e => Except.error e
    else Except.ok (p.2, db)

/-- Function `parseAttrValSection`. -/
def parseAttrValSection (tk : Tokenizer) (db : CANDatabase) :
    Except Exn (Tokenizer × CANDatabase) :=
  parseAttrValSection_loop (tk.remaining + 1) tk db

/-- The call `targetChoices.insert(std::make_pair(value, desc))` on the
`std::map<unsigned int, std::string>`: the value is converted to the key type
`unsigned int`, and a pair whose key is already present is not inserted. -/
def choicesInsert (m : List (Nat × String)) (value : Nat) (desc : String) :
    List (Nat × String) :=
  if m.any (fun p => p.1 == toUnsignedInt value) then m
  else m ++ [(toUnsignedInt value, desc)]

/-- The inner `while (!peek_token(tokenizer, ";"))` loop of
`parseValDescSection`; `targetChoices` is keyed by `unsigned int`, the
insertion reduces `value.toUInt()` modulo `2 ^ 32`. -/
def parseValDescSection_pairLoop :
    Nat → Tokenizer → List (Nat × String) → Except Exn (Tokenizer × List (Nat × String))
  | 0, _, _ => Except.error Exn.FuelExhausted
  | fuel + 1, tk, targetChoices =>
    let p := peek_token tk (Target.image ";")
    if !p.1 then do
      let (value, tk) ← assert_token p.2 (Target.type TokenType.Number)
      let (desc, tk) ← assert_token tk (Target.type TokenType.StringLiteral)
      parseValDescSection_pairLoop fuel tk (choicesInsert targetChoices value.toUInt desc.image)
    else Except.ok (p.2, targetChoices)

/-- The outer `while` loop of `parseValDescSection`. -/
def parseValDescSection_loop :
    Nat → Tokenizer → CANDatabase → Except Exn (Tokenizer × CANDatabase)
  | 0, _, _ => Except.error Exn.FuelExhausted
  | fuel + 1, tk, db =>
    let p := peek_token tk (Target.image SIG_VAL_DEF_TOKEN)
    if p.1 then do
      let (targetFrame, tk) ← assert_token p.2 (Target.type TokenType.PositiveNumber)
      let (targetSignal, tk) ← assert_token tk (Target.type TokenType.Identifier)
      let (tk, targetChoices) ← parseValDescSection_pairLoop (tk.remaining + 1) tk []
      if !db.contains targetFrame.toUInt then
        parseValDescSection_loop fuel tk db
      else
        let frame ← db.at_ targetFrame.toUInt
        if !frame.contains targetSignal.image then
          parseValDescSection_loop fuel tk db
        else
          parseValDescSection_loop fuel tk
            (db.modifyFrame targetFrame.toUInt (fun f =>
              f.modifySignal targetSignal.image (fun s => s.setChoices targetChoices)))
    else Except.ok (p.2, db)

/-- Function `parseValDescSection`. -/
def parseValDescSection (tk : Tokenizer) (db : CANDatabase) :
    Except Exn (Tokenizer × CANDatabase) :=
  parseValDescSection_loop (tk.remaining + 1) tk db

/-- The loop of `parseCommentSection` with the database passed by reference:
the first component is the database at the moment the loop returns or throws.
An instruction mutates the database in its last statement only, so when an
instruction throws the database is the one the instruction started with. -/
def parseCommentSection_loopRef :
    Nat → Tokenizer → CANDatabase → CANDatabase × Except Exn Tokenizer
  | 0, _, db => (db, Except.error Exn.FuelExhausted)
  | fuel + 1, tk, db =>
    let p := peek_token tk (Target.image COMMENT_TOKEN)
    if p.1 then
      let q := peek_token p.2 (Target.type TokenType.StringLiteral)
      if q.1 then
        match assert_token q.2 (Target.image ";") with
        | Except.error e => (db, Except.error e)
        | Except.ok (_, tk) => parseCommentSection_loopRef fuel tk db
      else
        match assert_token q.2 (Target.type TokenType.Identifier) with
        | Except.error e => (db, Except.error e)
        | Except.ok (commentType, tk) =>
          if commentType.matchesTarget (Target.image MESSAGE_DEF_TOKEN) then
            match parseMsgCommentInstruction tk db with
            | Except.error e => (db, Except.error e)
            | Except.ok (tk, db) => parseCommentSection_loopRef fuel tk db
          else if commentType.matchesTarget (Target.image SIG_DEF_TOKEN) then
            match parseSigCommentInstruction tk db with
            | Except.error e => (db, Except.error e)
            | Except.ok (tk, db) => parseCommentSection_loopRef fuel tk db
          else
            parseCommentSection_loopRef fuel (tk.skipUntil ";") db
    else (db, Except.ok p.2)

/-- Function `parseCommentSection`, with the database at the moment it returns
or throws. -/
def parseCommentSection_ref (tk : Tokenizer) (db : CANDatabase) :
    CANDatabase × Except Exn Tokenizer :=
  parseCommentSection_loopRef (tk.remaining + 1) tk db

/-- The loop of `parseAttrValSection` with the database passed by
reference. -/
def parseAttrValSection_loopRef :
    Nat → Tokenizer → CANDatabase → CANDatabase × Except Exn Tokenizer
  | 0, _, db => (db, Except.error Exn.FuelExhausted)
  | fuel + 1, tk, db =>
    let p := peek_token tk (Target.image ATTR_VAL_TOKEN)
    if p.1 then
      match assert_token p.2 (Target.type TokenType.StringLiteral) with
      | Except.error e => (db, Except.error e)
      | Except.ok (attrType, tk) =>
        if !attrType.matchesTarget (Target.image "GenMsgCycleTime") &&
            !attrType.matchesTarget (Target.image "CycleTime") then
          parseAttrValSection_loopRef fuel (tk.skipUntil ";") db
        else
          match assert_token tk (Target.image "BO_") with
          | Except.error e => (db, Except.error e)
          | Except.ok (_, tk) =>
            match assert_token tk (Target.type TokenType.PositiveNumber) with
            | Except.error e => (db, Except.error e)
            | Except.ok (frameId, tk) =>
              match assert_token tk (Target.type TokenType.PositiveNumber) with
              | Except.error e => (db, Except.error e)
              | Except.ok (period, tk) =>
                match assert_token tk (Target.image ";") with
                | Except.error e => (db, Except.error e)
                | Except.ok (_, tk) =>
                  match db.at_ frameId.toUInt with
                  | Except.ok _ =>
                    parseAttrValSection_loopRef fuel tk
                      (db.modifyFrame frameId.toUInt (fun f => f.setPeriod period.toUInt))
                  | Except.error Exn.out_of_range => parseAttrValSection_loopRef fuel tk db
                  | Except.error e => (db, Except.error e)
    else (db, Except.ok p.2)

/-- Function `parseAttrValSection`, with the database at the moment it returns
or throws. -/
def parseAttrValSection_ref (tk : Tokenizer) (db : CANDatabase) :
    CANDatabase × Except Exn Tokenizer :=
  parseAttrValSection_loopRef (tk.remaining + 1) tk db

/-- The outer loop of `parseValDescSection` with the database passed by
reference. -/
def parseValDescSection_loopRef :
    Nat → Tokenizer → CANDatabase → CANDatabase × Except Exn Tokenizer
  | 0, _, db => (db, Except.error Exn.FuelExhausted)
  | fuel + 1, tk, db =>
    let p := peek_token tk (Target.image SIG_VAL_DEF_TOKEN)
    if p.1 then
      match assert_token p.2 (Target.type TokenType.PositiveNumber) with
      | Except.error e => (db, Except.error e)
      | Except.ok (targetFrame, tk) =>
        match assert_token tk (Target.type TokenType.Identifier) with
        | Except.error e => (db, Except.error e)
        | Except.ok (targetSignal, tk) =>
          match parseValDescSection_pairLoop (tk.remaining + 1) tk [] with
          | Except.error e => (db, Except.error e)
          | Except.ok (tk, targetChoices) =>
            if !db.contains targetFrame.toUInt then
              parseValDescSection_loopRef fuel tk db
            else
              match db.at_ targetFrame.toUInt with
              | Except.error e => (db, Except.error e)
              | Except.ok frame =>
                if !frame.contains targetSignal.image then
                  parseValDescSection_loopRef fuel tk db
                else
                  parseValDescSection_loopRef fuel tk
                    (db.modifyFrame targetFrame.toUInt (fun f =>
                      f.modifySignal targetSignal.image (fun s => s.setChoices targetChoices)))
    else (db, Except.ok p.2)

/-- Function `parseValDescSection`, with the database at the moment it returns
or throws. -/
def parseValDescSection_ref (tk : Tokenizer) (db : CANDatabase) :
    CANDatabase × Except Exn Tokenizer :=
  parseValDescSection_loopRef (tk.remaining + 1) tk db

/-- The final drain loop `while (!is_token(tokenizer, Token::Eof))` of
`DBCParser::fromTokenizer`. -/
def fromTokenizer_drainLoop : Nat → Tokenizer → Tokenizer
  | 0, tk => tk
  | fuel + 1, tk =>
    let p := is_token tk (Target.type TokenType.Eof)
    if !p.1 then fromTokenizer_drainLoop fuel (p.2.skipUntil ";")
    else p.2

/-- The drain loop entered with enough fuel. -/
def fromTokenizer_drain (tk : Tokenizer) : Tokenizer :=
  fromTokenizer_drainLoop (tk.remaining + 1) tk

/-- The section calls of `DBCParser::fromTokenizer(name, tokenizer)`, from
`parseVersionSection` to `parseValDescSection`. -/
def fromTokenizer_sections (name : String) (tk : Tokenizer) :
    Except Exn (Tokenizer × CANDatabase) := do
  let result := CANDatabase.new name
  let (_, tk) ← parseVersionSection tk
  let tk ← parseNSSection tk
  let tk ← parseBitTimingSection tk
  let (tk, result) ← parseNodesSection tk result
  let tk := parseUnsupportedCommandSection tk "VAL_TABLE_"
  let (tk, result) ← parseMsgDefSection tk result
  let tk := parseUnsupportedCommandSection tk "BO_TX_BU_"
  let tk := parseUnsupportedCommandSection tk "EV_"
  let tk := parseUnsupportedCommandSection tk "SGTYPE_"
  let (tk, result) ← parseCommentSection tk result
  let tk := parseUnsupportedCommandSection tk "BA_DEF_"
  let tk := parseUnsupportedCommandSection tk "SIG_VALTYPE_"
  let tk := parseUnsupportedCommandSection tk "BA_DEF_DEF_"
  let (tk, result) ← parseAttrValSection tk result
  parseValDescSection tk result

/-- Function `DBCParser::fromTokenizer(name, tokenizer)`: the sections, then
the drain loop; the tokenizer is passed by reference, so its final state is
returned next to the database. -/
def fromTokenizer (name : String) (tk : Tokenizer) : Except Exn (CANDatabase × Tokenizer) := do
  let (tk, result) ← fromTokenizer_sections name tk
  let tk := fromTokenizer_drain tk
  Except.ok (result, tk)

/-- A tokenizer that has not fetched anything yet. -/
def Tokenizer.ofList (input : List Token) : Tokenizer :=
  { input := input, saved := none, current := Token.eof }

/-- State of the tokenizer after a lookahead has fetched the first token of
`rest` and pushed it back (or has met end-of-input). -/
def Tokenizer.rejected : List Token → Tokenizer
  | [] => { input := [], saved := none, current := Token.eof }
  | t :: r => { input := r, saved := some t, current := t }

/-- A keyword token: an identifier with the given image. -/
def kw (s : String) : Token := ⟨s, TokenType.Identifier⟩

/-- A punctuation token with the given image. -/
def sep (s : String) : Token := ⟨s, TokenType.Separator⟩

/-- The database `db2` is `db1` with the (first) frame of id `id` replaced by
its image under `g`, and with nothing else changed: the name of the database
and every other frame, in the same order, are the same. -/
def UpdatesOnlyFrame (db1 db2 : CANDatabase) (id : Nat) (g : CANFrame → CANFrame) : Prop :=
  db2.name = db1.name ∧
  ∃ pre f post, db1.frames = pre ++ f :: post ∧ (∀ x ∈ pre, x.can_id ≠ id) ∧ f.can_id = id ∧
    db2.frames = pre ++ g f :: post

/-- The frame `f2` is `f1` with the (first) signal named `name` replaced by
its image under `g`, and with nothing else changed: id, name, data-length
code, period, comment and every other signal, in the same order, are the
same. -/
def UpdatesOnlySignal (f1 f2 : CANFrame) (name : String) (g : CANSignal → CANSignal) : Prop :=
  ∃ spre s spost, f1.signals = spre ++ s :: spost ∧ (∀ x ∈ spre, x.name ≠ name) ∧
    s.name = name ∧ f2 = { f1 with signals := spre ++ g s :: spost }

/-- The first token of `rest`, if there is one, is a real token (not
end-of-input) whose image is none of `images`. -/
def NextIsNot : List Token → List String → Prop
  | [], _ => True
  | t :: _, images => t.type ≠ TokenType.Eof ∧ t.image ∉ images

instance NextIsNot.decidable (rest : List Token) (images : List String) :
    Decidable (NextIsNot rest images) :=
  match rest with
  | [] => isTrue trivial
  | t :: _ => inferInstanceAs (Decidable (t.type ≠ TokenType.Eof ∧ t.image ∉ images))

/-- A non-negative integer token with the given image. -/
def num (s : String) : Token := ⟨s, TokenType.PositiveNumber⟩

/-- A string-literal token with the given image (the text between the
quotes). -/
def str (s : String) : Token := ⟨s, TokenType.StringLiteral⟩

/-- A database with the single frame 100 `Engine`, which has the single
signal `EngineSpeed`. -/
def engineDb : CANDatabase :=
  { name := "",
    frames := [{ CANFrame.new "Engine" 100 8 with
      signals := [CANSignal.new "EngineSpeed" 0 16 ⟨"0.25"⟩ ⟨"0"⟩ Signedness.Unsigned
        Endianness.LittleEndian (Range.fromString "0" "16383.75")] }] }

/-- The tokens of the signal production
`SG_ EngineSpeed : 0|16@1+ (0.25,0) [0|16383.75] "rpm" ECU`, after `SG_`. -/
def engineSpeedTokens : List Token :=
  [kw "EngineSpeed", sep ":", num "0", sep "|", num "16", sep "@", num "1",
   ⟨"+", TokenType.ArithmeticSign⟩, sep "(", ⟨"0.25", TokenType.Number⟩, sep ",", num "0",
   sep ")", sep "[", num "0", sep "|", ⟨"16383.75", TokenType.Number⟩, sep "]", str "rpm",
   kw "ECU"]

/-- The tokens of a list of (value, description) pairs of a `VAL_`
instruction. -/
def pairTokens : List (Token × Token) → List Token
  | [] => []
  | p :: ps => p.1 :: p.2 :: pairTokens ps

/-- The pairs are well formed: each value is a non-negative integer token
(which is not the lexeme `;`) and each description is a string literal. -/
def PairsWellFormed (pairs : List (Token × Token)) : Prop :=
  ∀ p ∈ pairs, p.1.type = TokenType.PositiveNumber ∧ p.1.image ≠ ";" ∧
    p.2.type = TokenType.StringLiteral

/-- The pairs are accepted by the grammar: each value is a number token of any
sign (which is not the lexeme `;`) and each description is a string
literal. -/
def PairsAccepted (pairs : List (Token × Token)) : Prop :=
  ∀ p ∈ pairs, p.1.isType TokenType.Number = true ∧ p.1.image ≠ ";" ∧
    p.2.type = TokenType.StringLiteral

/-- The value table that the pairs denote, in the order of the instruction;
the keys are the values as `unsigned int`. -/
def pairTable (pairs : List (Token × Token)) : List (Nat × String) :=
  pairs.map (fun p => (toUnsignedInt p.1.toUInt, p.2.image))

/-! ### Description of well-formed message-definition blocks

The structures below describe the input of `parseMsgDefSection`: the tokens
of a signal production and of a message block, and the signal and frame that
they describe.  They are not part of the code. -/

/-- The tokens of a signal-definition production
`SG_ name : startBit|length@endianess signedness (scale,offset) [min|max]
"unit" targetECU {, ecu}`. -/
structure SigDef where
  name : Token
  startBit : Token
  length : Token
  endianess : Token
  signedness : Token
  scale : Token
  offset : Token
  min : Token
  max : Token
  unit : Token
  targetECU : Token
  moreECUs : List Token
  deriving DecidableEq, Repr

/-- The tokens `, ecu` of the further receiving nodes. -/
def ecuTokens : List Token → List Token
  | [] => []
  | e :: es => sep "," :: e :: ecuTokens es

/-- The tokens of a signal production after the keyword `SG_`. -/
def SigDef.body (s : SigDef) : List Token :=
  s.name :: sep ":" :: s.startBit :: sep "|" :: s.length :: sep "@" :: s.endianess ::
    s.signedness :: sep "(" :: s.scale :: sep "," :: s.offset :: sep ")" :: sep "[" ::
    s.min :: sep "|" :: s.max :: sep "]" :: s.unit :: s.targetECU :: ecuTokens s.moreECUs

/-- The tokens of a signal production. -/
def SigDef.tokens (s : SigDef) : List Token := kw "SG_" :: s.body

/-- Every token of the production has the kind the grammar asks for. -/
def SigDef.WellFormed (s : SigDef) : Prop :=
  s.name.type = TokenType.Identifier ∧ s.startBit.type = TokenType.PositiveNumber ∧
  s.length.type = TokenType.PositiveNumber ∧ s.endianess.type = TokenType.PositiveNumber ∧
  s.signedness.type = TokenType.ArithmeticSign ∧
  s.scale.isType TokenType.Number = true ∧ s.offset.isType TokenType.Number = true ∧
  s.min.isType TokenType.Number = true ∧ s.max.isType TokenType.Number = true ∧
  s.unit.type = TokenType.StringLiteral ∧ s.targetECU.type = TokenType.Identifier ∧
  ∀ e ∈ s.moreECUs, e.type = TokenType.Identifier

/-- The signal that the production describes. -/
def SigDef.signal (s : SigDef) : CANSignal :=
  CANSignal.new s.name.image s.startBit.toUInt s.length.toUInt s.scale.toDouble
    s.offset.toDouble
    (if s.signedness.image = "-" then Signedness.Signed else Signedness.Unsigned)
    (if s.endianess.image = "0" then Endianness.BigEndian else Endianness.LittleEndian)
    (Range.fromString s.min.image s.max.image)

/-- The tokens of a message block `BO_ id name : dlc ecu` followed by its
signal productions. -/
structure MsgDef where
  id : Token
  name : Token
  dlc : Token
  ecu : Token
  sigs : List SigDef
  deriving DecidableEq, Repr

/-- The tokens of a sequence of signal productions. -/
def sigsTokens : List SigDef → List Token
  | [] => []
  | s :: ss => s.tokens ++ sigsTokens ss

/-- The tokens of a message block. -/
def MsgDef.tokens (m : MsgDef) : List Token :=
  kw "BO_" :: m.id :: m.name :: sep ":" :: m.dlc :: m.ecu :: sigsTokens m.sigs

/-- The tokens of a sequence of message blocks. -/
def msgsTokens : List MsgDef → List Token
  | [] => []
  | m :: ms => m.tokens ++ msgsTokens ms

/-- Every token of the block has the kind the grammar asks for. -/
def MsgDef.WellFormed (m : MsgDef) : Prop :=
  m.id.type = TokenType.PositiveNumber ∧ m.name.type = TokenType.Identifier ∧
  m.dlc.type = TokenType.PositiveNumber ∧ m.ecu.type = TokenType.Identifier ∧
  ∀ s ∈ m.sigs, s.WellFormed

/-- The frame built from the block alone: the signals of its own productions
are added, in order, to a fresh frame with the header of the block. -/
def MsgDef.built (m : MsgDef) : CANFrame :=
  m.sigs.foldl (fun f s => f.addSignal s.signal)
    (CANFrame.new m.name.image m.id.toUInt m.dlc.toUInt)

/-- The frame that the block describes: its header and exactly the signals
of its productions, in order. -/
def MsgDef.frame (m : MsgDef) : CANFrame :=
  { CANFrame.new m.name.image m.id.toUInt m.dlc.toUInt with
    signals := m.sigs.map SigDef.signal }

instance SigDef.WellFormed.decidable (s : SigDef) : Decidable s.WellFormed := by
  delta SigDef.WellFormed
  infer_instance

instance MsgDef.WellFormed.decidable (m : MsgDef) : Decidable m.WellFormed := by
  delta MsgDef.WellFormed
  infer_instance

/-- The production `SG_ EngineSpeed : 0|16@1+ (0.25,0) [0|16383.75] "rpm" ECU`. -/
def engineSpeedDef : SigDef :=
  { name := kw "EngineSpeed", startBit := num "0", length := num "16", endianess := num "1",
    signedness := ⟨"+", TokenType.ArithmeticSign⟩, scale := ⟨"0.25", TokenType.Number⟩,
    offset := num "0", min := num "0", max := ⟨"16383.75", TokenType.Number⟩,
    unit := str "rpm", targetECU := kw "ECU", moreECUs := [] }

/-- The block `BO_ 100 Engine : 8 ECU` with the signal `EngineSpeed`. -/
def engineMsg : MsgDef :=
  { id := num "100", name := kw "Engine", dlc := num "8", ecu := kw "ECU",
    sigs := [engineSpeedDef] }

/-- The block `BO_ 200 Brake : 2 ABS` with the signals
`SG_ Pressure : 0|8@0- (1,-40) [-40|215] "bar" ECU,DASH` and
`SG_ Active : 8|1@1+ (1,0) [0|1] "" ECU`. -/
def brakeMsg : MsgDef :=
  { id := num "200", name := kw "Brake", dlc := num "2", ecu := kw "ABS",
    sigs := [
      { name := kw "Pressure", startBit := num "0", length := num "8", endianess := num "0",
        signedness := ⟨"-", TokenType.ArithmeticSign⟩, scale := num "1",
        offset := ⟨"-40", TokenType.NegativeNumber⟩, min := ⟨"-40", TokenType.NegativeNumber⟩,
        max := num "215", unit := str "bar", targetECU := kw "ECU", moreECUs := [kw "DASH"] },
      { name := kw "Active", startBit := num "8", length := num "1", endianess := num "1",
        signedness := ⟨"+", TokenType.ArithmeticSign⟩, scale := num "1", offset := num "0",
        min := num "0", max := num "1", unit := str "", targetECU := kw "ECU",
        moreECUs := [] }] }

/-- The tokens of a sequence of statements `K a ;` of an unsupported
instruction: each statement is the keyword, a run `a` of tokens and `;`. -/
def stmtsTokens (K : String) : List (List Token) → List Token
  | [] => []
  | a :: as => kw K :: (a ++ sep ";" :: stmtsTokens K as)

/-- The tokens of a message block that breaks off inside its first signal
production: `200 Brake : 2 ABS SG_ Pressure : 0 | 8` (after `BO_`). -/
def brokenBlockTokens : List Token :=
  [num "200", kw "Brake", sep ":", num "2", kw "ABS", kw "SG_", kw "Pressure", sep ":",
   num "0", sep "|", num "8"]

/-- The signal without what the post-message sections may set: the comment
and the value table are erased; name, start bit, length, scale, offset,
signedness, byte order, range and unit remain. -/
def CANSignal.skeleton (s : CANSignal) : CANSignal :=
  { s with comment := none, choices := [] }

/-- The frame without what the post-message sections may set: period and
comment are erased and every signal is reduced to its skeleton; id, name,
data-length code and the list of signals remain. -/
def CANFrame.skeleton (f : CANFrame) : CANFrame :=
  { f with period := none, comment := none, signals := f.signals.map CANSignal.skeleton }

/-- The database with every frame reduced to its skeleton. -/
def CANDatabase.skeleton (db : CANDatabase) : CANDatabase :=
  { db with frames := db.frames.map CANFrame.skeleton }

/-- What a run of a comment instruction does, whatever the database is: it
either raises a `SyntaxError`, or it returns with a tokenizer that does not
depend on the database and a database with the same skeleton. -/
def InstructionSpec (instr : Tokenizer → CANDatabase → Except Exn (Tokenizer × CANDatabase))
    (tk : Tokenizer) : Prop :=
  (∀ db, instr tk db = Except.error Exn.SyntaxError) ∨
  ∃ tk2, tk2.remaining ≤ tk.remaining ∧
    ∀ db, ∃ db2, instr tk db = Except.ok (tk2, db2) ∧ db2.skeleton = db.skeleton

/-- What a by-reference run of a section does, whatever the database is: the
tokenizer it returns, or the fact that it raises, does not depend on the
database; the only exception it raises is `SyntaxError`; and the database at
the moment it returns or raises has the same skeleton as the database
before. -/
def SectionSpec (run : Tokenizer → CANDatabase → CANDatabase × Except Exn Tokenizer)
    (tk : Tokenizer) : Prop :=
  ∃ out : Except Exn Tokenizer, (∀ e, out = Except.error e → e = Exn.SyntaxError) ∧
    ∀ db, (run tk db).2 = out ∧ (run tk db).1.skeleton = db.skeleton

/-- The token stream of the document
`BS_ : BU_ : ECU BO_ 100 Engine : 8 ECU SG_ EngineSpeed : 0|16@1+ (0.25,0)
[0|16383.75] "rpm" ECU CM_ SG_ 100 EngineSpeed "Speed" ;
BA_ "GenMsgCycleTime" BO_ 100 50 ; VAL_ 100 EngineSpeed 0 "Off" ;`. -/
def engineDocument : List Token :=
  [kw "BS_", sep ":", kw "BU_", sep ":", kw "ECU"] ++ engineMsg.tokens ++
  [kw "CM_", kw "SG_", num "100", kw "EngineSpeed", str "Speed", sep ";",
   kw "BA_", str "GenMsgCycleTime", kw "BO_", num "100", num "50", sep ";",
   kw "VAL_", num "100", kw "EngineSpeed", num "0", str "Off", sep ";"]

/-- The database that `fromTokenizer` builds from `engineDocument`. -/
def engineDocumentDb : CANDatabase :=
  { name := "",
    frames := [{ CANFrame.new "Engine" 100 8 with
      period := some 50,
      signals := [{ CANSignal.new "EngineSpeed" 0 16 ⟨"0.25"⟩ ⟨"0"⟩ Signedness.Unsigned
        Endianness.LittleEndian (Range.fromString "0" "16383.75") with
        comment := some "Speed", choices := [(0, "Off")] }] }] }

/-! ## Properties -/

/-! ### The token source and the lookahead primitives -/

@[simp] theorem Tokenizer.stream_mk_none (i : List Token) (c : Token) :
    Tokenizer.stream ⟨i, none, c⟩ = i := rfl

@[simp] theorem Tokenizer.stream_mk_some (i : List Token) (t c : Token) :
    Tokenizer.stream ⟨i, some t, c⟩ = t :: i := rfl

@[simp] theorem Tokenizer.stream_rejected (rest : List Token) :
    (Tokenizer.rejected rest).stream = rest := by
  cases rest <;> rfl

@[simp] theorem Tokenizer.remaining_mk_none (i : List Token) (c : Token) :
    Tokenizer.remaining ⟨i, none, c⟩ = i.length := rfl

@[simp] theorem Tokenizer.remaining_mk_some (i : List Token) (t c : Token) :
    Tokenizer.remaining ⟨i, some t, c⟩ = i.length + 1 := rfl

theorem Tokenizer.getNextToken_cons {tk : Tokenizer} {t : Token} {r : List Token}
    (h : tk.stream = t :: r) : tk.getNextToken = (t, ⟨r, none, t⟩) := by
  obtain ⟨i, s, c⟩ := tk
  cases s with
  | none => simp at h; subst h; rfl
  | some x => simp at h; obtain ⟨rfl, rfl⟩ := h; rfl

theorem Tokenizer.getNextToken_nil {tk : Tokenizer} (h : tk.stream = []) :
    tk.getNextToken = (Token.eof, ⟨[], none, Token.eof⟩) := by
  obtain ⟨i, s, c⟩ := tk
  cases s with
  | none => simp at h; subst h; rfl
  | some x => simp at h

theorem assert_token_cons {tk : Tokenizer} {t : Token} {r : List Token} (target : Target)
    (h : tk.stream = t :: r) :
    assert_token tk target =
      if t.matchesTarget target then Except.ok (t, ⟨r, none, t⟩)
      else Except.error Exn.SyntaxError := by
  simp [assert_token, Tokenizer.getNextToken_cons h]

theorem peek_token_cons {tk : Tokenizer} {t : Token} {r : List Token} (target : Target)
    (h : tk.stream = t :: r) :
    peek_token tk target =
      if t.matchesTarget target then (true, ⟨r, none, t⟩)
      else (false, if t.type = TokenType.Eof then ⟨r, none, t⟩ else ⟨r, some t, t⟩) := by
  simp [peek_token, Tokenizer.getNextToken_cons h, Tokenizer.saveTokenIfNotEof]

theorem peek_token_nil {tk : Tokenizer} (target : Target) (h : tk.stream = []) :
    peek_token tk target =
      if Token.eof.matchesTarget target then (true, ⟨[], none, Token.eof⟩)
      else (false, ⟨[], none, Token.eof⟩) := by
  simp [peek_token, Tokenizer.getNextToken_nil h, Tokenizer.saveTokenIfNotEof, Token.eof]

/-- A rejected lookahead leaves the tokenizer in the state `rejected`. -/
theorem peek_token_reject {tk : Tokenizer} (target : Target) (rest : List Token)
    (h : tk.stream = rest)
    (hrest : ∀ t ∈ rest.head?, t.matchesTarget target = false ∧ t.type ≠ TokenType.Eof)
    (heof : Token.eof.matchesTarget target = false) :
    peek_token tk target = (false, Tokenizer.rejected rest) := by
  cases rest with
  | nil => simp [peek_token_nil target h, heof, Tokenizer.rejected]
  | cons t r =>
    have ht := hrest t (by simp)
    simp [peek_token_cons target h, ht.1, ht.2, Tokenizer.rejected]

@[simp] theorem assert_token_mk_none (t : Token) (r : List Token) (c : Token) (target : Target) :
    assert_token ⟨t :: r, none, c⟩ target =
      if t.matchesTarget target then Except.ok (t, ⟨r, none, t⟩)
      else Except.error Exn.SyntaxError :=
  assert_token_cons target rfl

@[simp] theorem assert_token_mk_some (t : Token) (r : List Token) (c : Token) (target : Target) :
    assert_token ⟨r, some t, c⟩ target =
      if t.matchesTarget target then Except.ok (t, ⟨r, none, t⟩)
      else Except.error Exn.SyntaxError :=
  assert_token_cons target rfl

@[simp] theorem peek_token_mk_none (t : Token) (r : List Token) (c : Token) (target : Target) :
    peek_token ⟨t :: r, none, c⟩ target =
      if t.matchesTarget target then (true, ⟨r, none, t⟩)
      else (false, if t.type = TokenType.Eof then ⟨r, none, t⟩ else ⟨r, some t, t⟩) :=
  peek_token_cons target rfl

@[simp] theorem peek_token_mk_some (t : Token) (r : List Token) (c : Token) (target : Target) :
    peek_token ⟨r, some t, c⟩ target =
      if t.matchesTarget target then (true, ⟨r, none, t⟩)
      else (false, if t.type = TokenType.Eof then ⟨r, none, t⟩ else ⟨r, some t, t⟩) :=
  peek_token_cons target rfl

theorem Token.matchesTarget_type {t : Token} {ty : TokenType} (h : t.type = ty) :
    t.matchesTarget (Target.type ty) = true := by
  simp [Token.matchesTarget, Token.isType, h]

theorem Token.matchesTarget_number {t : Token} (h : t.type = TokenType.PositiveNumber) :
    t.matchesTarget (Target.type TokenType.Number) = true := by
  simp [Token.matchesTarget, Token.isType, h]

@[simp] theorem kw_image (a : String) : (kw a).image = a := rfl

@[simp] theorem kw_type (a : String) : (kw a).type = TokenType.Identifier := rfl

@[simp] theorem sep_image (a : String) : (sep a).image = a := rfl

@[simp] theorem sep_type (a : String) : (sep a).type = TokenType.Separator := rfl

@[simp] theorem Token.matchesTarget_image (t : Token) (s : String) :
    t.matchesTarget (Target.image s) = (t.image == s) := rfl

@[simp] theorem kw_matchesTarget_type (a : String) (ty : TokenType) :
    (kw a).matchesTarget (Target.type ty) = decide (ty = TokenType.Identifier) := by
  cases ty <;> rfl

@[simp] theorem sep_matchesTarget_type (a : String) (ty : TokenType) :
    (sep a).matchesTarget (Target.type ty) = decide (ty = TokenType.Separator) := by
  cases ty <;> rfl

/-! ### C10: lookahead with conditional consumption -/

/-- C10: `peek_token` never advances the stream when the lookahead does not
match.  For every tokenizer whose next token `t` is not end-of-input and every
target: if `t` does not match, `peek_token` returns false and the next direct
read (`getNextToken`) returns exactly `t`, the stream being the same as
before; if `t` matches, `peek_token` returns true and `t` has been consumed.
Consequently `parseVersionSection` on a stream whose next token is not
`VERSION` returns the empty string and leaves that token as the next one
read. -/
theorem peek_token_consumes_only_on_match (tk : Tokenizer) (target : Target) (t : Token)
    (rest : List Token) (h : tk.stream = t :: rest) (hne : t.type ≠ TokenType.Eof) :
    (t.matchesTarget target = false →
      (peek_token tk target).1 = false ∧
      (peek_token tk target).2.getNextToken.1 = t ∧
      (peek_token tk target).2.stream = t :: rest) ∧
    (t.matchesTarget target = true →
      (peek_token tk target).1 = true ∧
      (peek_token tk target).2.stream = rest ∧
      (peek_token tk target).2.getCurrentToken = t) ∧
    (t.image ≠ VERSION_TOKEN →
      ∃ tk1, parseVersionSection tk = Except.ok ("", tk1) ∧
        tk1.getNextToken.1 = t ∧ tk1.stream = t :: rest) := by
  refine ⟨?_, ?_, ?_⟩
  · intro hm
    simp [peek_token_cons target h, hm, hne, Tokenizer.getNextToken]
  · intro hm
    simp [peek_token_cons target h, hm, Tokenizer.getCurrentToken]
  · intro hv
    have hm : t.matchesTarget (Target.image VERSION_TOKEN) = false := by
      simpa [Token.matchesTarget] using hv
    refine ⟨⟨rest, some t, t⟩, ?_, ?_, ?_⟩
    · simp [parseVersionSection, peek_token_cons _ h, hm, hne]
    · rfl
    · rfl

/-- Witness for C10 on the stream `BS_ :` with target `VERSION`. -/
theorem peek_token_consumes_only_on_match_witness :
    (peek_token (Tokenizer.ofList [kw "BS_", sep ":"]) (Target.image VERSION_TOKEN)).1 = false ∧
    (peek_token (Tokenizer.ofList [kw "BS_", sep ":"])
      (Target.image VERSION_TOKEN)).2.getNextToken.1 = kw "BS_" ∧
    (peek_token (Tokenizer.ofList [kw "BS_", sep ":"])
      (Target.image VERSION_TOKEN)).2.stream = [kw "BS_", sep ":"] :=
  (peek_token_consumes_only_on_match (Tokenizer.ofList [kw "BS_", sep ":"])
    (Target.image VERSION_TOKEN) (kw "BS_") [sep ":"] rfl (by decide)).1 (by decide)

/-! ### The database model -/

theorem modifyFirst_decomp {α : Type} (p : α → Bool) (g : α → α) (l : List α)
    (h : l.any p = true) :
    ∃ pre x post, l = pre ++ x :: post ∧ (∀ y ∈ pre, p y = false) ∧ p x = true ∧
      l.find? p = some x ∧ modifyFirst p g l = pre ++ g x :: post := by
  induction l with
  | nil => simp at h
  | cons a l ih =>
    by_cases ha : p a = true
    · exact ⟨[], a, l, by simp, by simp, ha, by simp [ha], by simp [modifyFirst, ha]⟩
    · have hl : l.any p = true := by simpa [ha] using h
      obtain ⟨pre, x, post, h1, h2, h3, h4, h5⟩ := ih hl
      refine ⟨a :: pre, x, post, by simp [h1], ?_, h3, ?_, ?_⟩
      · intro y hy
        rcases List.mem_cons.mp hy with rfl | hy
        · simpa using ha
        · exact h2 y hy
      · simp [List.find?, ha, h4]
      · simp [modifyFirst, ha, h5]

theorem CANDatabase.at_of_not_contains {db : CANDatabase} {id : Nat}
    (h : db.contains id = false) : db.at_ id = Except.error Exn.out_of_range := by
  have : db.frames.find? (fun f => f.can_id == id) = none := by
    rw [List.find?_eq_none]
    intro x hx
    simp only [CANDatabase.contains, List.any_eq_false] at h
    exact h x hx
  simp [CANDatabase.at_, this]

theorem CANDatabase.at_of_contains {db : CANDatabase} {id : Nat}
    (h : db.contains id = true) : ∃ f, db.at_ id = Except.ok f ∧ f ∈ db.frames ∧ f.can_id = id := by
  obtain ⟨pre, x, post, h1, _, h3, h4, _⟩ :=
    modifyFirst_decomp (fun f : CANFrame => f.can_id == id) (fun f => f) db.frames h
  exact ⟨x, by simp [CANDatabase.at_, h4], by simp [h1], by simpa using h3⟩

/-- Mutating the frame of id `id` through `modifyFrame` changes that frame
only. -/
theorem CANDatabase.modifyFrame_updatesOnly {db : CANDatabase} {id : Nat}
    (g : CANFrame → CANFrame) (h : db.contains id = true) :
    UpdatesOnlyFrame db (db.modifyFrame id g) id g := by
  obtain ⟨pre, x, post, h1, h2, h3, _, h5⟩ :=
    modifyFirst_decomp (fun f : CANFrame => f.can_id == id) g db.frames h
  refine ⟨rfl, pre, x, post, h1, ?_, by simpa using h3, by simp [CANDatabase.modifyFrame, h5]⟩
  intro y hy
  simpa using h2 y hy

/-- Mutating the signal named `name` through `modifySignal` changes that
signal only. -/
theorem CANFrame.modifySignal_updatesOnly {f : CANFrame} {name : String}
    (g : CANSignal → CANSignal) (h : f.contains name = true) :
    UpdatesOnlySignal f (f.modifySignal name g) name g := by
  obtain ⟨pre, x, post, h1, h2, h3, _, h5⟩ :=
    modifyFirst_decomp (fun s : CANSignal => s.name == name) g f.signals h
  refine ⟨pre, x, post, h1, ?_, by simpa using h3, by simp [CANFrame.modifySignal, h5]⟩
  intro y hy
  simpa using h2 y hy

/-- Mutating a signal of the frame that the lookup of `id` returns changes
that signal only. -/
theorem CANDatabase.modifyFrame_modifySignal_updatesOnly {db : CANDatabase} {id : Nat}
    {f : CANFrame} {name : String} (g : CANSignal → CANSignal)
    (hf : db.at_ id = Except.ok f) (hs : f.contains name = true) :
    UpdatesOnlyFrame db (db.modifyFrame id (fun f => f.modifySignal name g)) id
      (fun _ => f.modifySignal name g) ∧
    UpdatesOnlySignal f (f.modifySignal name g) name g := by
  have hc : db.contains id = true := by
    by_contra hc
    rw [CANDatabase.at_of_not_contains (by simpa using hc)] at hf
    cases hf
  refine ⟨?_, CANFrame.modifySignal_updatesOnly _ hs⟩
  obtain ⟨hn, pre, x, post, h1, h2, h3, h4⟩ :=
    CANDatabase.modifyFrame_updatesOnly (fun f => f.modifySignal name g) hc
  refine ⟨hn, pre, x, post, h1, h2, h3, ?_⟩
  have hx : f = x := by
    have : db.frames.find? (fun f => f.can_id == id) = some x := by
      rw [h1, List.find?_append, List.find?_eq_none.mpr]
      · simp [h3]
      · intro y hy
        simpa using h2 y hy
    simp only [CANDatabase.at_, this] at hf
    cases hf
    rfl
  rw [h4, hx]

theorem bind_eq_ok {ε α β : Type} {x : Except ε α} {f : α → Except ε β} {b : β} :
    (x >>= f) = Except.ok b ↔ ∃ a, x = Except.ok a ∧ f a = Except.ok b := by
  cases x <;> simp [bind, Except.bind]

theorem peek_token_image_reject {tk : Tokenizer} {rest : List Token} {images : List String}
    (s : String) (h : tk.stream = rest) (hn : NextIsNot rest images) (hs : s ∈ images)
    (hne : s ≠ "") :
    peek_token tk (Target.image s) = (false, Tokenizer.rejected rest) := by
  apply peek_token_reject _ _ h
  · intro t ht
    obtain ⟨r, rfl⟩ : ∃ r, rest = t :: r := by
      cases rest with
      | nil => simp at ht
      | cons a r => exact ⟨r, by simp at ht; rw [ht]⟩
    obtain ⟨h1, h2⟩ := hn
    refine ⟨?_, h1⟩
    simp only [Token.matchesTarget, beq_eq_false_iff_ne]
    rintro rfl
    exact h2 hs
  · simp only [Token.matchesTarget, Token.eof, beq_eq_false_iff_ne]
    exact fun h => hne h.symm

/-! ### C4, C5: comment instructions -/

theorem parseCommentSection_loop_exit (fuel : Nat) (tk : Tokenizer) (db : CANDatabase)
    (rest : List Token) (h : tk.stream = rest) (hn : NextIsNot rest ["CM_"]) :
    parseCommentSection_loop (fuel + 1) tk db = Except.ok (Tokenizer.rejected rest, db) := by
  have hp := peek_token_image_reject "CM_" h hn (by simp) (by decide)
  simp [parseCommentSection_loop, COMMENT_TOKEN, hp]

theorem parseCommentSection_loop_msg (fuel : Nat) (tk : Tokenizer) (db : CANDatabase)
    (id text : Token) (rest : List Token)
    (h : tk.stream = kw "CM_" :: kw "BO_" :: id :: text :: sep ";" :: rest)
    (hid : id.type = TokenType.PositiveNumber) (htext : text.type = TokenType.StringLiteral) :
    parseCommentSection_loop (fuel + 1) tk db =
      parseCommentSection_loop fuel ⟨rest, none, sep ";"⟩
        (if db.contains id.toUInt then
          db.modifyFrame id.toUInt (fun f => f.setComment text.image) else db) := by
  have h1 := Token.matchesTarget_type hid
  have h2 := Token.matchesTarget_type htext
  rw [parseCommentSection_loop, peek_token_cons _ h]
  by_cases hc : db.contains id.toUInt = true
  · obtain ⟨f, hf, -⟩ := CANDatabase.at_of_contains hc
    simp [COMMENT_TOKEN, MESSAGE_DEF_TOKEN, parseMsgCommentInstruction, h1, h2, hc, hf, bind, Except.bind]
  · simp [COMMENT_TOKEN, MESSAGE_DEF_TOKEN, parseMsgCommentInstruction, h1, h2, hc, bind, Except.bind]

theorem parseCommentSection_loop_sig (fuel : Nat) (tk : Tokenizer) (db : CANDatabase)
    (id sig text : Token) (rest : List Token)
    (h : tk.stream = kw "CM_" :: kw "SG_" :: id :: sig :: text :: sep ";" :: rest)
    (hid : id.type = TokenType.PositiveNumber) (hsig : sig.type = TokenType.Identifier)
    (htext : text.type = TokenType.StringLiteral) :
    parseCommentSection_loop (fuel + 1) tk db =
      parseCommentSection_loop fuel ⟨rest, none, sep ";"⟩
        (match db.at_ id.toUInt with
          | Except.ok f =>
            if f.contains sig.image then
              db.modifyFrame id.toUInt (fun f =>
                f.modifySignal sig.image (fun s => s.setComment text.image))
            else db
          | Except.error _ => db) := by
  have h1 := Token.matchesTarget_type hid
  have h2 := Token.matchesTarget_type htext
  have h3 := Token.matchesTarget_type hsig
  rw [parseCommentSection_loop, peek_token_cons _ h]
  by_cases hc : db.contains id.toUInt = true
  · obtain ⟨f, hf, -⟩ := CANDatabase.at_of_contains hc
    by_cases hs : f.contains sig.image = true <;>
    simp [COMMENT_TOKEN, MESSAGE_DEF_TOKEN, SIG_DEF_TOKEN, parseSigCommentInstruction, h1, h2, h3, hc, hf, hs, bind, Except.bind]
  · have hf := CANDatabase.at_of_not_contains (by simpa using hc : db.contains id.toUInt = false)
    simp [COMMENT_TOKEN, MESSAGE_DEF_TOKEN, SIG_DEF_TOKEN, parseSigCommentInstruction, h1, h2, h3, hc, hf, bind, Except.bind]

/-- C4: a grammatically well-formed comment instruction `CM_ BO_ <id> "text" ;`
whose frame id is not in the database, or `CM_ SG_ <id> <signal> "text" ;`
whose frame id is not in the database or whose frame has no signal of that
name, makes `parseCommentSection` return normally with the database equal to
the database before (the instruction is followed by tokens `rest` that do not
start another comment instruction; they are left in the stream). -/
theorem parseCommentSection_unresolved_reference (tk : Tokenizer) (db : CANDatabase)
    (id sig text : Token) (rest : List Token)
    (hid : id.type = TokenType.PositiveNumber) (hsig : sig.type = TokenType.Identifier)
    (htext : text.type = TokenType.StringLiteral) (hrest : NextIsNot rest ["CM_"]) :
    (tk.stream = kw "CM_" :: kw "BO_" :: id :: text :: sep ";" :: rest →
      db.contains id.toUInt = false →
      parseCommentSection tk db = Except.ok (Tokenizer.rejected rest, db)) ∧
    (tk.stream = kw "CM_" :: kw "SG_" :: id :: sig :: text :: sep ";" :: rest →
      (db.contains id.toUInt = false ∨
        ∃ f, db.at_ id.toUInt = Except.ok f ∧ f.contains sig.image = false) →
      parseCommentSection tk db = Except.ok (Tokenizer.rejected rest, db)) := by
  constructor
  · intro h hc
    simp only [parseCommentSection, Tokenizer.remaining, h, List.length_cons]
    rw [parseCommentSection_loop_msg _ _ _ _ _ _ h hid htext,
      parseCommentSection_loop_exit _ ⟨rest, none, sep ";"⟩ _ rest rfl hrest]
    simp [hc]
  · intro h hc
    simp only [parseCommentSection, Tokenizer.remaining, h, List.length_cons]
    rw [parseCommentSection_loop_sig _ _ _ _ _ _ _ h hid hsig htext,
      parseCommentSection_loop_exit _ ⟨rest, none, sep ";"⟩ _ rest rfl hrest]
    rcases hc with hc | ⟨f, hf, hs⟩
    · simp [CANDatabase.at_of_not_contains hc]
    · simp [hf, hs]

/-- Witness for C4: on the database with frame 100 and signal `EngineSpeed`,
a frame comment for the unknown id 7 and a signal comment for the unknown
signal `Torque` of frame 100, each followed by a `VAL_` token. -/
theorem parseCommentSection_unresolved_reference_witness :
    parseCommentSection
        (Tokenizer.ofList [kw "CM_", kw "BO_", num "7", str "x", sep ";", kw "VAL_"]) engineDb
      = Except.ok (Tokenizer.rejected [kw "VAL_"], engineDb) ∧
    parseCommentSection
        (Tokenizer.ofList
          [kw "CM_", kw "SG_", num "100", kw "Torque", str "x", sep ";", kw "VAL_"]) engineDb
      = Except.ok (Tokenizer.rejected [kw "VAL_"], engineDb) :=
  ⟨(parseCommentSection_unresolved_reference
      (Tokenizer.ofList [kw "CM_", kw "BO_", num "7", str "x", sep ";", kw "VAL_"]) engineDb
      (num "7") (kw "Torque") (str "x") [kw "VAL_"] rfl rfl rfl (by decide)).1 rfl (by decide),
   (parseCommentSection_unresolved_reference
      (Tokenizer.ofList
        [kw "CM_", kw "SG_", num "100", kw "Torque", str "x", sep ";", kw "VAL_"]) engineDb
      (num "100") (kw "Torque") (str "x") [kw "VAL_"] rfl rfl rfl (by decide)).2 rfl
      (Or.inr ⟨_, rfl, by decide⟩)⟩

/-- C5: on a database that contains frame `id` with a signal named `sig`, the
comment instruction `CM_ SG_ <id> <sig> "text" ;` makes `parseCommentSection`
return a database in which the comment of that signal is `text` and nothing
else has changed: the database name, every other frame, the id, name,
data-length code, period and comment of the frame, every other signal of the
frame and every other attribute of the signal are the same as before. -/
theorem parseCommentSection_sets_signal_comment (tk : Tokenizer) (db : CANDatabase)
    (id sig text : Token) (rest : List Token)
    (hid : id.type = TokenType.PositiveNumber) (hsig : sig.type = TokenType.Identifier)
    (htext : text.type = TokenType.StringLiteral) (hrest : NextIsNot rest ["CM_"])
    (h : tk.stream = kw "CM_" :: kw "SG_" :: id :: sig :: text :: sep ";" :: rest)
    (f : CANFrame) (hf : db.at_ id.toUInt = Except.ok f) (hs : f.contains sig.image = true) :
    ∃ db2 f2, parseCommentSection tk db = Except.ok (Tokenizer.rejected rest, db2) ∧
      UpdatesOnlyFrame db db2 id.toUInt (fun _ => f2) ∧
      UpdatesOnlySignal f f2 sig.image (fun s => { s with comment := some text.image }) := by
  have hc : db.contains id.toUInt = true := by
    by_contra hc
    rw [CANDatabase.at_of_not_contains (by simpa using hc)] at hf
    cases hf
  refine ⟨db.modifyFrame id.toUInt (fun f =>
      f.modifySignal sig.image (fun s => s.setComment text.image)),
    f.modifySignal sig.image (fun s => s.setComment text.image), ?_, ?_, ?_⟩
  · simp only [parseCommentSection, Tokenizer.remaining, h, List.length_cons]
    rw [parseCommentSection_loop_sig _ _ _ _ _ _ _ h hid hsig htext,
      parseCommentSection_loop_exit _ ⟨rest, none, sep ";"⟩ _ rest rfl hrest]
    simp [hf, hs]
  · exact (CANDatabase.modifyFrame_modifySignal_updatesOnly _ hf hs).1
  · exact (CANDatabase.modifyFrame_modifySignal_updatesOnly _ hf hs).2

/-- Witness for C5: `CM_ SG_ 100 EngineSpeed "Speed" ;` on the database with
frame 100 and signal `EngineSpeed`. -/
theorem parseCommentSection_sets_signal_comment_witness :
    ∃ db2 f2,
      parseCommentSection
        (Tokenizer.ofList [kw "CM_", kw "SG_", num "100", kw "EngineSpeed", str "Speed", sep ";"])
        engineDb = Except.ok (Tokenizer.rejected [], db2) ∧
      UpdatesOnlyFrame engineDb db2 (num "100").toUInt (fun _ => f2) ∧
      UpdatesOnlySignal
        { CANFrame.new "Engine" 100 8 with
          signals := [CANSignal.new "EngineSpeed" 0 16 ⟨"0.25"⟩ ⟨"0"⟩ Signedness.Unsigned
            Endianness.LittleEndian (Range.fromString "0" "16383.75")] }
        f2 (kw "EngineSpeed").image (fun s => { s with comment := some (str "Speed").image }) :=
  parseCommentSection_sets_signal_comment
    (Tokenizer.ofList [kw "CM_", kw "SG_", num "100", kw "EngineSpeed", str "Speed", sep ";"])
    engineDb (num "100") (kw "EngineSpeed") (str "Speed") [] rfl rfl rfl (by decide) rfl
    _ rfl (by decide)

/-! ### C7: attribute values -/

theorem parseAttrValSection_loop_exit (fuel : Nat) (tk : Tokenizer) (db : CANDatabase)
    (rest : List Token) (h : tk.stream = rest) (hn : NextIsNot rest ["BA_"]) :
    parseAttrValSection_loop (fuel + 1) tk db = Except.ok (Tokenizer.rejected rest, db) := by
  have hp := peek_token_image_reject "BA_" h hn (by simp) (by decide)
  simp [parseAttrValSection_loop, ATTR_VAL_TOKEN, hp]

theorem parseAttrValSection_loop_period (fuel : Nat) (tk : Tokenizer) (db : CANDatabase)
    (attr id period : Token) (rest : List Token)
    (h : tk.stream = kw "BA_" :: attr :: kw "BO_" :: id :: period :: sep ";" :: rest)
    (hattr : attr.type = TokenType.StringLiteral)
    (hname : attr.image = "GenMsgCycleTime" ∨ attr.image = "CycleTime")
    (hid : id.type = TokenType.PositiveNumber) (hperiod : period.type = TokenType.PositiveNumber) :
    parseAttrValSection_loop (fuel + 1) tk db =
      parseAttrValSection_loop fuel ⟨rest, none, sep ";"⟩
        (if db.contains id.toUInt then
          db.modifyFrame id.toUInt (fun f => f.setPeriod period.toUInt) else db) := by
  have h1 := Token.matchesTarget_type hid
  have h2 := Token.matchesTarget_type hperiod
  have h3 := Token.matchesTarget_type hattr
  rw [parseAttrValSection_loop, peek_token_cons _ h]
  by_cases hc : db.contains id.toUInt = true
  · obtain ⟨f, hf, -⟩ := CANDatabase.at_of_contains hc
    rcases hname with hn | hn <;>
    simp [ATTR_VAL_TOKEN, h1, h2, h3, hc, hf, hn, bind, Except.bind]
  · have hf := CANDatabase.at_of_not_contains (by simpa using hc : db.contains id.toUInt = false)
    rcases hname with hn | hn <;>
    simp [ATTR_VAL_TOKEN, h1, h2, h3, hc, hf, hn, bind, Except.bind]

/-- C7: for every database and every well-formed attribute-value instruction
`BA_ "GenMsgCycleTime" BO_ <id> <period> ;` (or with `"CycleTime"`),
`parseAttrValSection` returns normally; if a frame with that id exists its
period becomes the given period and nothing else in the database changes; if
no frame with that id exists the database is unchanged. -/
theorem parseAttrValSection_period (tk : Tokenizer) (db : CANDatabase)
    (attr id period : Token) (rest : List Token)
    (h : tk.stream = kw "BA_" :: attr :: kw "BO_" :: id :: period :: sep ";" :: rest)
    (hattr : attr.type = TokenType.StringLiteral)
    (hname : attr.image = "GenMsgCycleTime" ∨ attr.image = "CycleTime")
    (hid : id.type = TokenType.PositiveNumber) (hperiod : period.type = TokenType.PositiveNumber)
    (hrest : NextIsNot rest ["BA_"]) :
    (db.contains id.toUInt = true →
      ∃ db2, parseAttrValSection tk db = Except.ok (Tokenizer.rejected rest, db2) ∧
        UpdatesOnlyFrame db db2 id.toUInt (fun f => { f with period := some period.toUInt })) ∧
    (db.contains id.toUInt = false →
      parseAttrValSection tk db = Except.ok (Tokenizer.rejected rest, db)) := by
  have key : parseAttrValSection tk db = Except.ok (Tokenizer.rejected rest,
      if db.contains id.toUInt then
        db.modifyFrame id.toUInt (fun f => f.setPeriod period.toUInt) else db) := by
    simp only [parseAttrValSection, Tokenizer.remaining, h, List.length_cons]
    rw [parseAttrValSection_loop_period _ _ _ _ _ _ _ h hattr hname hid hperiod,
      parseAttrValSection_loop_exit _ ⟨rest, none, sep ";"⟩ _ rest rfl hrest]
  constructor
  · intro hc
    refine ⟨_, key, ?_⟩
    simpa [hc] using
      CANDatabase.modifyFrame_updatesOnly (fun f => f.setPeriod period.toUInt) hc
  · intro hc
    simpa [hc] using key

/-- Witness for C7: the period 50 is set on the existing frame 100, and the
instruction for the unknown frame 7 changes nothing. -/
theorem parseAttrValSection_period_witness :
    (∃ db2,
      parseAttrValSection
        (Tokenizer.ofList [kw "BA_", str "GenMsgCycleTime", kw "BO_", num "100", num "50", sep ";"])
        engineDb = Except.ok (Tokenizer.rejected [], db2) ∧
      UpdatesOnlyFrame engineDb db2 (num "100").toUInt
        (fun f => { f with period := some (num "50").toUInt })) ∧
    parseAttrValSection
        (Tokenizer.ofList [kw "BA_", str "CycleTime", kw "BO_", num "7", num "50", sep ";"])
        engineDb = Except.ok (Tokenizer.rejected [], engineDb) :=
  ⟨(parseAttrValSection_period
      (Tokenizer.ofList [kw "BA_", str "GenMsgCycleTime", kw "BO_", num "100", num "50", sep ";"])
      engineDb (str "GenMsgCycleTime") (num "100") (num "50") [] rfl rfl (Or.inl rfl) rfl rfl
      (by decide)).1 (by decide),
   (parseAttrValSection_period
      (Tokenizer.ofList [kw "BA_", str "CycleTime", kw "BO_", num "7", num "50", sep ";"])
      engineDb (str "CycleTime") (num "7") (num "50") [] rfl rfl (Or.inr rfl) rfl rfl
      (by decide)).2 (by decide)⟩

/-! ### C8: the period directive of `addBADirective` -/

/-- C8: for a grammatically well-formed period directive
`"GenMsgCycleTime"|"CycleTime" BO_ <id> <period> ;` read by `addBADirective`
with current token `BA_`: if the period or the frame id is a negative number,
`addBADirective` returns normally with the database unchanged; otherwise the
id and the period are taken as 32-bit `unsigned int` values (modulo `2 ^ 32`),
`addBADirective` raises `CANDatabaseException` if and only if no frame with
the id so reduced exists, and when that frame exists its period is set to the
reduced period and nothing else changes. -/
theorem addBADirective_period (tk : Tokenizer) (db : CANDatabase)
    (attr id period : Token) (rest : List Token)
    (hcur : tk.getCurrentToken.image = "BA_")
    (h : tk.stream = attr :: kw "BO_" :: id :: period :: sep ";" :: rest)
    (hattr : attr.type = TokenType.StringLiteral)
    (hname : attr.image = "GenMsgCycleTime" ∨ attr.image = "CycleTime")
    (hid : id.isType TokenType.Number = true) (hperiod : period.isType TokenType.Number = true) :
    (period.type = TokenType.NegativeNumber ∨ id.type = TokenType.NegativeNumber →
      addBADirective tk db = Except.ok (⟨rest, none, sep ";"⟩, db)) ∧
    (period.type ≠ TokenType.NegativeNumber → id.type ≠ TokenType.NegativeNumber →
      (addBADirective tk db = Except.error Exn.CANDatabaseException ↔
        db.contains (toUnsignedInt id.toUInt) = false) ∧
      (db.contains (toUnsignedInt id.toUInt) = true →
        ∃ db2, addBADirective tk db = Except.ok (⟨rest, none, sep ";"⟩, db2) ∧
          UpdatesOnlyFrame db db2 (toUnsignedInt id.toUInt)
            (fun f => { f with period := some (toUnsignedInt period.toUInt) }))) := by
  have h3 := Token.matchesTarget_type hattr
  have h1 : id.matchesTarget (Target.type TokenType.Number) = true := hid
  have h2 : period.matchesTarget (Target.type TokenType.Number) = true := hperiod
  have hneg : ∀ t : Token, t.matchesTarget (Target.type TokenType.NegativeNumber) =
      decide (t.type = TokenType.NegativeNumber) := by
    rintro ⟨img, ty⟩
    cases ty <;> rfl
  have hcur2 : tk.getCurrentToken.matchesTarget (Target.image "BA_") = true := by
    simp [hcur]
  have hn : (attr.image == "GenMsgCycleTime" || attr.image == "CycleTime") = true := by
    rcases hname with hn | hn <;> simp [hn]
  generalize hi32 : toUnsignedInt id.toUInt = i32
  generalize hp32 : toUnsignedInt period.toUInt = p32
  have key : addBADirective tk db =
      if period.type = TokenType.NegativeNumber then Except.ok (⟨rest, none, sep ";"⟩, db)
      else if id.type = TokenType.NegativeNumber then Except.ok (⟨rest, none, sep ";"⟩, db)
      else if db.contains i32 then
        Except.ok (⟨rest, none, sep ";"⟩, db.modifyFrame i32 (fun f => f.setPeriod p32))
      else Except.error Exn.CANDatabaseException := by
    unfold addBADirective
    rw [assert_current_token, if_pos hcur2]
    by_cases hc : db.contains i32 = true
    · obtain ⟨f, hf, -⟩ := CANDatabase.at_of_contains hc
      simp [assert_token_cons _ h, h1, h2, h3, hn, hneg, hc, hf, hi32, hp32, bind, Except.bind]
    · have hf := CANDatabase.at_of_not_contains (by simpa using hc : db.contains i32 = false)
      simp [assert_token_cons _ h, h1, h2, h3, hn, hneg, hc, hf, hi32, hp32, bind, Except.bind]
  constructor
  · rintro (hp | hi)
    · simp [key, hp]
    · by_cases hp : period.type = TokenType.NegativeNumber <;> simp [key, hp, hi]
  · intro hp hi
    constructor
    · by_cases hc : db.contains i32 = true <;> simp [key, hp, hi, hc]
    · intro hc
      refine ⟨db.modifyFrame i32 (fun f => f.setPeriod p32), ?_, ?_⟩
      · simp [key, hp, hi, hc]
      · exact CANDatabase.modifyFrame_updatesOnly (fun f => f.setPeriod p32) hc

/-- Witness for C8: a negative period is dropped without an error; a period
for the unknown frame 7 raises `CANDatabaseException`. -/
theorem addBADirective_period_witness :
    addBADirective
        ⟨[str "GenMsgCycleTime", kw "BO_", num "100", ⟨"-5", TokenType.NegativeNumber⟩, sep ";"],
          none, kw "BA_"⟩ engineDb
      = Except.ok (⟨[], none, sep ";"⟩, engineDb) ∧
    addBADirective
        ⟨[str "CycleTime", kw "BO_", num "7", num "50", sep ";"], none, kw "BA_"⟩ engineDb
      = Except.error Exn.CANDatabaseException :=
  ⟨(addBADirective_period
      ⟨[str "GenMsgCycleTime", kw "BO_", num "100", ⟨"-5", TokenType.NegativeNumber⟩, sep ";"],
        none, kw "BA_"⟩ engineDb (str "GenMsgCycleTime") (num "100")
      ⟨"-5", TokenType.NegativeNumber⟩ [] rfl rfl rfl (Or.inl rfl) rfl rfl).1 (Or.inl rfl),
   ((addBADirective_period
      ⟨[str "CycleTime", kw "BO_", num "7", num "50", sep ";"], none, kw "BA_"⟩ engineDb
      (str "CycleTime") (num "7") (num "50") [] rfl rfl rfl (Or.inr rfl) rfl rfl).2
      (by decide) (by decide)).1.mpr (by decide)⟩

/-- C8 (counterexample): the directive `BA_ "CycleTime" BO_ 4294967396 50 ;`
names the id `4294967396 = 2 ^ 32 + 100`.  No frame of the database has that
id, yet `addBADirective` raises no error: it sets the period of frame 100. -/
theorem addBADirective_period_counterexample :
    engineDb.contains (num "4294967396").toUInt = false ∧
    (num "4294967396").toUInt = 4294967396 ∧
    addBADirective
        ⟨[str "CycleTime", kw "BO_", num "4294967396", num "50", sep ";"], none, kw "BA_"⟩
        engineDb
      = Except.ok (⟨[], none, sep ";"⟩,
          engineDb.modifyFrame 100 (fun f => f.setPeriod 50)) ∧
    (engineDb.modifyFrame 100 (fun f => f.setPeriod 50)).frames.map (fun f => f.period)
      = [some 50] :=
  ⟨by decide, by decide, rfl, rfl⟩

/-! ### C9: the drain loop -/

theorem Tokenizer.skipUntilLoop_stream (token : String) (fuel : Nat) (tk : Tokenizer) :
    (Tokenizer.skipUntilLoop token fuel tk).stream <:+ tk.stream ∧
      (0 < fuel → tk.stream ≠ [] →
        (Tokenizer.skipUntilLoop token fuel tk).stream.length < tk.stream.length) := by
  induction fuel generalizing tk with
  | zero => exact ⟨List.suffix_refl _, fun h => absurd h (Nat.lt_irrefl 0)⟩
  | succ fuel ih =>
    rcases hs : tk.stream with _ | ⟨t, r⟩
    · simp [Tokenizer.skipUntilLoop, Tokenizer.getNextToken_nil hs, Token.eof]
    · rw [Tokenizer.skipUntilLoop, Tokenizer.getNextToken_cons hs]
      by_cases hc : t.type = TokenType.Eof ∨ t.image = token
      · simp only [hc, if_true, Tokenizer.stream_mk_none]
        exact ⟨List.suffix_cons t r, fun _ _ => by simp⟩
      · simp only [hc, if_false]
        have h1 := (ih ⟨r, none, t⟩).1
        simp only [Tokenizer.stream_mk_none] at h1
        refine ⟨h1.trans (List.suffix_cons t r), fun _ _ => ?_⟩
        have := h1.length_le
        simp only [List.length_cons]
        omega

theorem Tokenizer.skipUntil_stream (tk : Tokenizer) (token : String) :
    (tk.skipUntil token).stream <:+ tk.stream ∧
      (tk.stream ≠ [] → (tk.skipUntil token).stream.length < tk.stream.length) :=
  ⟨(Tokenizer.skipUntilLoop_stream token _ tk).1,
    (Tokenizer.skipUntilLoop_stream token _ tk).2 (Nat.succ_pos _)⟩

theorem fromTokenizer_drainLoop_stream (fuel : Nat) (tk : Tokenizer)
    (hfuel : tk.stream.length < fuel) (hlex : ∀ t ∈ tk.stream, t.type ≠ TokenType.Eof) :
    (fromTokenizer_drainLoop fuel tk).stream = [] := by
  induction fuel generalizing tk with
  | zero => omega
  | succ fuel ih =>
    rcases hs : tk.stream with _ | ⟨t, r⟩
    · simp [fromTokenizer_drainLoop, is_token, Tokenizer.getNextToken_nil hs, Token.eof,
        Token.matchesTarget, Token.isType, Tokenizer.saveTokenIfNotEof]
    · have ht : t.type ≠ TokenType.Eof := hlex t (by simp [hs])
      have hm : t.matchesTarget (Target.type TokenType.Eof) = false := by
        obtain ⟨img, ty⟩ := t
        cases ty <;> first | rfl | exact absurd rfl ht
      simp only [fromTokenizer_drainLoop, is_token, Tokenizer.getNextToken_cons hs, hm,
        Tokenizer.saveTokenIfNotEof, if_neg ht, Bool.not_false, if_true]
      have hsk := Tokenizer.skipUntil_stream ⟨r, some t, t⟩ ";"
      simp only [Tokenizer.stream_mk_some] at hsk
      apply ih
      · have := hsk.2 (by simp)
        simp only [hs, List.length_cons] at hfuel this
        omega
      · intro x hx
        exact hlex x (hs ▸ hsk.1.subset hx)

/-- C9: for every sequence of tokens left in the stream after the
value-description section (tokens delivered before end-of-input are not
end-of-input tokens), the final drain loop of `fromTokenizer` terminates with
the token stream at end-of-input; it cannot raise an error and does not touch
the database, so `fromTokenizer` returns normally the database built by the
sections. -/
theorem fromTokenizer_drain_reaches_eof (tk1 : Tokenizer)
    (hlex : ∀ t ∈ tk1.stream, t.type ≠ TokenType.Eof) :
    (fromTokenizer_drain tk1).stream = [] ∧
    (is_token (fromTokenizer_drain tk1) (Target.type TokenType.Eof)).1 = true ∧
    ∀ (name : String) (tk0 : Tokenizer) (db : CANDatabase),
      fromTokenizer_sections name tk0 = Except.ok (tk1, db) →
      fromTokenizer name tk0 = Except.ok (db, fromTokenizer_drain tk1) := by
  have h1 : (fromTokenizer_drain tk1).stream = [] :=
    fromTokenizer_drainLoop_stream _ tk1 (Nat.lt_succ_self _) hlex
  refine ⟨h1, ?_, ?_⟩
  · simp [is_token, Tokenizer.getNextToken_nil h1, Token.eof, Token.matchesTarget, Token.isType]
  · intro name tk0 db hsec
    simp [fromTokenizer, hsec, bind, Except.bind]

/-- Witness for C9: the leftover tokens `junk x ; more` are drained. -/
theorem fromTokenizer_drain_reaches_eof_witness :
    (fromTokenizer_drain (Tokenizer.rejected [kw "junk", kw "x", sep ";", kw "more"])).stream
      = [] :=
  (fromTokenizer_drain_reaches_eof
    (Tokenizer.rejected [kw "junk", kw "x", sep ";", kw "more"]) (by decide)).1

/-! ### C3: sign and endianness flags -/

@[simp] theorem Tokenizer.getNextToken_mk_none (t : Token) (r : List Token) (c : Token) :
    Tokenizer.getNextToken ⟨t :: r, none, c⟩ = (t, ⟨r, none, t⟩) := rfl

theorem assert_token_eq_ok {tk : Tokenizer} {target : Target} {r : Token × Tokenizer} :
    assert_token tk target = Except.ok r ↔
      r = tk.getNextToken ∧ tk.getNextToken.1.matchesTarget target = true := by
  unfold assert_token
  by_cases hm : tk.getNextToken.1.matchesTarget target = true
  · simp [hm, eq_comm]
  · simp [hm]

/-- C3: for every signal-definition production accepted by
`parseSigDefInstruction` (the call returns normally), the signal passed to
`addSignal`, which is the signal appended to the frame when its name is new,
has byte order BigEndian if and only if the image of the endianness-flag
token is `0`, and LittleEndian otherwise; it has signedness Signed if and
only if the image of the sign-flag token is `-`, and Unsigned otherwise. -/
theorem parseSigDefInstruction_flags (tk : Tokenizer) (frame : CANFrame)
    (tk2 : Tokenizer) (frame2 : CANFrame)
    (name c1 startBit c2 length c3 endianess signedness : Token) (rest : List Token)
    (h : tk.stream =
      name :: c1 :: startBit :: c2 :: length :: c3 :: endianess :: signedness :: rest)
    (hok : parseSigDefInstruction tk frame = Except.ok (tk2, frame2)) :
    ∃ sig, frame2 = frame.addSignal sig ∧
      (frame.contains name.image = false → frame2.signals = frame.signals ++ [sig]) ∧
      sig.name = name.image ∧
      (sig.endianness = Endianness.BigEndian ↔ endianess.image = "0") ∧
      (sig.endianness = Endianness.LittleEndian ↔ endianess.image ≠ "0") ∧
      (sig.signedness = Signedness.Signed ↔ signedness.image = "-") ∧
      (sig.signedness = Signedness.Unsigned ↔ signedness.image ≠ "-") := by
  simp only [parseSigDefInstruction, bind_eq_ok, assert_token_eq_ok, Prod.exists] at hok
  obtain ⟨_, -, x1, s1, ⟨e1, -⟩, x2, s2, ⟨e2, -⟩, x3, s3, ⟨e3, -⟩, x4, s4, ⟨e4, -⟩,
    x5, s5, ⟨e5, -⟩, x6, s6, ⟨e6, -⟩, x7, s7, ⟨e7, -⟩, x8, s8, ⟨e8, -⟩, x9, s9, -,
    x10, s10, -, x11, s11, -, x12, s12, -, x13, s13, -, x14, s14, -, x15, s15, -,
    x16, s16, -, x17, s17, -, x18, s18, -, x19, s19, -, x20, s20, -, sfin, -, hfin⟩ := hok
  rw [Tokenizer.getNextToken_cons h] at e1
  obtain ⟨rfl, rfl⟩ := Prod.mk.inj e1
  simp only [Tokenizer.getNextToken_mk_none] at e2
  obtain ⟨rfl, rfl⟩ := Prod.mk.inj e2
  simp only [Tokenizer.getNextToken_mk_none] at e3
  obtain ⟨rfl, rfl⟩ := Prod.mk.inj e3
  simp only [Tokenizer.getNextToken_mk_none] at e4
  obtain ⟨rfl, rfl⟩ := Prod.mk.inj e4
  simp only [Tokenizer.getNextToken_mk_none] at e5
  obtain ⟨rfl, rfl⟩ := Prod.mk.inj e5
  simp only [Tokenizer.getNextToken_mk_none] at e6
  obtain ⟨rfl, rfl⟩ := Prod.mk.inj e6
  simp only [Tokenizer.getNextToken_mk_none] at e7
  obtain ⟨rfl, rfl⟩ := Prod.mk.inj e7
  simp only [Tokenizer.getNextToken_mk_none] at e8
  obtain ⟨rfl, rfl⟩ := Prod.mk.inj e8
  simp only [Except.ok.injEq, Prod.mk.injEq] at hfin
  obtain ⟨-, rfl⟩ := hfin
  refine ⟨_, rfl, ?_, rfl, ?_, ?_, ?_, ?_⟩
  · intro hc
    simp [CANFrame.addSignal, CANSignal.new, hc]
  · by_cases he : x7.image = "0" <;> simp [CANSignal.new, he]
  · by_cases he : x7.image = "0" <;> simp [CANSignal.new, he]
  · by_cases he : x8.image = "-" <;> simp [CANSignal.new, he]
  · by_cases he : x8.image = "-" <;> simp [CANSignal.new, he]

/-- Witness for C3: the production
`SG_ EngineSpeed : 0|16@1+ (0.25,0) [0|16383.75] "rpm" ECU` is accepted. -/
theorem parseSigDefInstruction_flags_witness :
    ∃ sig,
      (CANFrame.new "Engine" 100 8).addSignal
          (CANSignal.new "EngineSpeed" 0 16 ⟨"0.25"⟩ ⟨"0"⟩ Signedness.Unsigned
            Endianness.LittleEndian (Range.fromString "0" "16383.75"))
        = (CANFrame.new "Engine" 100 8).addSignal sig ∧
      ((CANFrame.new "Engine" 100 8).contains (kw "EngineSpeed").image = false →
        ((CANFrame.new "Engine" 100 8).addSignal
          (CANSignal.new "EngineSpeed" 0 16 ⟨"0.25"⟩ ⟨"0"⟩ Signedness.Unsigned
            Endianness.LittleEndian (Range.fromString "0" "16383.75"))).signals
          = (CANFrame.new "Engine" 100 8).signals ++ [sig]) ∧
      sig.name = (kw "EngineSpeed").image ∧
      (sig.endianness = Endianness.BigEndian ↔ (num "1").image = "0") ∧
      (sig.endianness = Endianness.LittleEndian ↔ (num "1").image ≠ "0") ∧
      (sig.signedness = Signedness.Signed ↔ (Token.mk "+" TokenType.ArithmeticSign).image = "-") ∧
      (sig.signedness = Signedness.Unsigned ↔
        (Token.mk "+" TokenType.ArithmeticSign).image ≠ "-") :=
  parseSigDefInstruction_flags ⟨engineSpeedTokens, none, kw "SG_"⟩ (CANFrame.new "Engine" 100 8)
    (Tokenizer.rejected []) _ (kw "EngineSpeed") (sep ":") (num "0") (sep "|") (num "16")
    (sep "@") (num "1") ⟨"+", TokenType.ArithmeticSign⟩ _ rfl rfl

/-! ### C6: value descriptions -/

theorem parseValDescSection_loop_exit (fuel : Nat) (tk : Tokenizer) (db : CANDatabase)
    (rest : List Token) (h : tk.stream = rest) (hn : NextIsNot rest ["VAL_"]) :
    parseValDescSection_loop (fuel + 1) tk db = Except.ok (Tokenizer.rejected rest, db) := by
  have hp := peek_token_image_reject "VAL_" h hn (by simp) (by decide)
  simp [parseValDescSection_loop, SIG_VAL_DEF_TOKEN, hp]

theorem PairsWellFormed.accepted {pairs : List (Token × Token)} (hw : PairsWellFormed pairs) :
    PairsAccepted pairs := by
  intro p hp
  obtain ⟨h1, h2, h3⟩ := hw p hp
  exact ⟨by simp [Token.isType, h1], h2, h3⟩

theorem Token.type_ne_eof_of_number {t : Token} (h : t.isType TokenType.Number = true) :
    t.type ≠ TokenType.Eof := by
  obtain ⟨img, ty⟩ := t
  cases ty <;> simp [Token.isType] at h ⊢

/-- The pair loop reads all the pairs and the closing `;`, inserting the
pairs in order. -/
theorem parseValDescSection_pairLoop_pairs (pairs : List (Token × Token)) (rest : List Token)
    (hw : PairsAccepted pairs) (fuel : Nat) (hfuel : pairs.length < fuel) (tk : Tokenizer)
    (acc : List (Nat × String)) (h : tk.stream = pairTokens pairs ++ sep ";" :: rest) :
    parseValDescSection_pairLoop fuel tk acc =
      Except.ok (⟨rest, none, sep ";"⟩,
        pairs.foldl (fun m p => choicesInsert m p.1.toUInt p.2.image) acc) := by
  induction pairs generalizing fuel tk acc with
  | nil =>
    obtain ⟨fuel, rfl⟩ : ∃ n, fuel = n + 1 := ⟨fuel - 1, by omega⟩
    simp only [pairTokens, List.nil_append] at h
    simp [parseValDescSection_pairLoop, peek_token_cons _ h]
  | cons p ps ih =>
    obtain ⟨fuel, rfl⟩ : ∃ n, fuel = n + 1 := ⟨fuel - 1, by omega⟩
    obtain ⟨h1, h2, h3⟩ := hw p (by simp)
    have hm1 : p.1.matchesTarget (Target.type TokenType.Number) = true := h1
    have hm2 := Token.matchesTarget_type h3
    have hne : p.1.type ≠ TokenType.Eof := Token.type_ne_eof_of_number h1
    simp only [pairTokens, List.cons_append] at h
    rw [parseValDescSection_pairLoop, peek_token_cons _ h]
    simp only [Token.matchesTarget_image, beq_iff_eq, h2, if_false, hne, Bool.not_false,
      if_true, bind, Except.bind, assert_token_mk_some, assert_token_mk_none, hm1, hm2]
    exact ih (fun q hq => hw q (by simp [hq])) fuel (by simpa using hfuel)
      ⟨pairTokens ps ++ sep ";" :: rest, none, p.2⟩ _ rfl

theorem choicesInsert_foldl_of_nodup (pairs : List (Token × Token)) (acc : List (Nat × String))
    (hnodup : (pairs.map (fun p => toUnsignedInt p.1.toUInt)).Nodup)
    (hacc : ∀ p ∈ pairs, ∀ q ∈ acc, q.1 ≠ toUnsignedInt p.1.toUInt) :
    pairs.foldl (fun m p => choicesInsert m p.1.toUInt p.2.image) acc =
      acc ++ pairTable pairs := by
  induction pairs generalizing acc with
  | nil => simp [pairTable]
  | cons p ps ih =>
    have hnot : acc.any (fun q => q.1 == toUnsignedInt p.1.toUInt) = false := by
      simp only [List.any_eq_false, beq_iff_eq]
      intro q hq
      exact hacc p (by simp) q hq
    simp only [List.map_cons, List.nodup_cons, List.mem_map, not_exists, not_and] at hnodup
    have hins : choicesInsert acc p.1.toUInt p.2.image =
        acc ++ [(toUnsignedInt p.1.toUInt, p.2.image)] := by
      simp [choicesInsert, hnot]
    rw [List.foldl_cons, hins, ih _ hnodup.2]
    · simp [pairTable]
    · intro q hq r hr
      rcases List.mem_append.mp hr with hr | hr
      · exact hacc q (by simp [hq]) r hr
      · simp only [List.mem_singleton] at hr
        subst hr
        exact fun he => hnodup.1 q hq he.symm

theorem parseValDescSection_loop_pairs (fuel : Nat) (tk : Tokenizer) (db : CANDatabase)
    (id sig : Token) (pairs : List (Token × Token)) (rest : List Token)
    (h : tk.stream = kw "VAL_" :: id :: sig :: (pairTokens pairs ++ sep ";" :: rest))
    (hid : id.type = TokenType.PositiveNumber) (hsig : sig.type = TokenType.Identifier)
    (hw : PairsAccepted pairs) :
    parseValDescSection_loop (fuel + 1) tk db =
      parseValDescSection_loop fuel ⟨rest, none, sep ";"⟩
        (match db.at_ id.toUInt with
          | Except.ok f =>
            if f.contains sig.image then
              db.modifyFrame id.toUInt (fun f =>
                f.modifySignal sig.image (fun s => s.setChoices
                  (pairs.foldl (fun m p => choicesInsert m p.1.toUInt p.2.image) [])))
            else db
          | Except.error _ => db) := by
  have h1 := Token.matchesTarget_type hid
  have h3 := Token.matchesTarget_type hsig
  have hl := parseValDescSection_pairLoop_pairs pairs rest hw
    (Tokenizer.remaining ⟨pairTokens pairs ++ sep ";" :: rest, none, sig⟩ + 1)
    (by
      have : ∀ ps : List (Token × Token), ps.length ≤ (pairTokens ps).length := by
        intro ps
        induction ps with
        | nil => simp
        | cons p ps ih => simp only [pairTokens, List.length_cons]; omega
      have := this pairs
      simp only [Tokenizer.remaining_mk_none, List.length_append, List.length_cons]
      omega)
    ⟨pairTokens pairs ++ sep ";" :: rest, none, sig⟩ [] rfl
  simp only [Tokenizer.remaining_mk_none, List.length_append, List.length_cons] at hl
  rw [parseValDescSection_loop, peek_token_cons _ h]
  by_cases hc : db.contains id.toUInt = true
  · obtain ⟨f, hf, -⟩ := CANDatabase.at_of_contains hc
    by_cases hs : f.contains sig.image = true <;>
    simp [SIG_VAL_DEF_TOKEN, h1, h3, hc, hf, hs, hl, bind, Except.bind]
  · have hf := CANDatabase.at_of_not_contains (by simpa using hc : db.contains id.toUInt = false)
    simp [SIG_VAL_DEF_TOKEN, h1, h3, hc, hf, hl, bind, Except.bind]

/-- C6: on a database that contains frame `id` with a signal named `sig`, the
value-description instruction `VAL_ <id> <sig> v1 "d1" ... vk "dk" ;` with
`k ≥ 0` pairs of non-negative values that are pairwise distinct as 32-bit
`unsigned int` keys (modulo `2 ^ 32`) makes `parseValDescSection` return
normally, and afterwards the value table of the signal is exactly
`v1 mod 2 ^ 32 -> d1, ..., vk mod 2 ^ 32 -> dk`, whatever table it had before
(empty for `k = 0`); nothing else in the database changes. -/
theorem parseValDescSection_replaces_table (tk : Tokenizer) (db : CANDatabase)
    (id sig : Token) (pairs : List (Token × Token)) (rest : List Token)
    (h : tk.stream = kw "VAL_" :: id :: sig :: (pairTokens pairs ++ sep ";" :: rest))
    (hid : id.type = TokenType.PositiveNumber) (hsig : sig.type = TokenType.Identifier)
    (hw : PairsWellFormed pairs)
    (hnodup : (pairs.map (fun p => toUnsignedInt p.1.toUInt)).Nodup)
    (hrest : NextIsNot rest ["VAL_"])
    (f : CANFrame) (hf : db.at_ id.toUInt = Except.ok f) (hs : f.contains sig.image = true) :
    ∃ db2 f2, parseValDescSection tk db = Except.ok (Tokenizer.rejected rest, db2) ∧
      UpdatesOnlyFrame db db2 id.toUInt (fun _ => f2) ∧
      UpdatesOnlySignal f f2 sig.image (fun s => { s with choices := pairTable pairs }) := by
  have htab : pairs.foldl (fun m p => choicesInsert m p.1.toUInt p.2.image) [] =
      pairTable pairs := by
    simpa using choicesInsert_foldl_of_nodup pairs [] hnodup (by simp)
  refine ⟨db.modifyFrame id.toUInt (fun f =>
      f.modifySignal sig.image (fun s => s.setChoices (pairTable pairs))),
    f.modifySignal sig.image (fun s => s.setChoices (pairTable pairs)), ?_, ?_, ?_⟩
  · simp only [parseValDescSection, Tokenizer.remaining, h, List.length_cons]
    rw [parseValDescSection_loop_pairs _ _ _ _ _ _ _ h hid hsig hw.accepted,
      parseValDescSection_loop_exit _ ⟨rest, none, sep ";"⟩ _ rest rfl hrest]
    simp [hf, hs, htab]
  · exact (CANDatabase.modifyFrame_modifySignal_updatesOnly _ hf hs).1
  · exact (CANDatabase.modifyFrame_modifySignal_updatesOnly _ hf hs).2

/-- Witness for C6: `VAL_ 100 EngineSpeed 0 "Off" 1 "On" ;` and the
instruction with an empty list, `VAL_ 100 EngineSpeed ;`. -/
theorem parseValDescSection_replaces_table_witness :
    (∃ db2 f2,
      parseValDescSection
        (Tokenizer.ofList [kw "VAL_", num "100", kw "EngineSpeed", num "0", str "Off",
          num "1", str "On", sep ";"]) engineDb = Except.ok (Tokenizer.rejected [], db2) ∧
      UpdatesOnlyFrame engineDb db2 (num "100").toUInt (fun _ => f2) ∧
      UpdatesOnlySignal
        { CANFrame.new "Engine" 100 8 with
          signals := [CANSignal.new "EngineSpeed" 0 16 ⟨"0.25"⟩ ⟨"0"⟩ Signedness.Unsigned
            Endianness.LittleEndian (Range.fromString "0" "16383.75")] }
        f2 (kw "EngineSpeed").image
        (fun s => { s with choices := pairTable [(num "0", str "Off"), (num "1", str "On")] })) ∧
    (∃ db2 f2,
      parseValDescSection
        (Tokenizer.ofList [kw "VAL_", num "100", kw "EngineSpeed", sep ";"]) engineDb
          = Except.ok (Tokenizer.rejected [], db2) ∧
      UpdatesOnlyFrame engineDb db2 (num "100").toUInt (fun _ => f2) ∧
      UpdatesOnlySignal
        { CANFrame.new "Engine" 100 8 with
          signals := [CANSignal.new "EngineSpeed" 0 16 ⟨"0.25"⟩ ⟨"0"⟩ Signedness.Unsigned
            Endianness.LittleEndian (Range.fromString "0" "16383.75")] }
        f2 (kw "EngineSpeed").image (fun s => { s with choices := pairTable [] })) :=
  ⟨parseValDescSection_replaces_table
      (Tokenizer.ofList [kw "VAL_", num "100", kw "EngineSpeed", num "0", str "Off",
        num "1", str "On", sep ";"]) engineDb (num "100") (kw "EngineSpeed")
      [(num "0", str "Off"), (num "1", str "On")] [] rfl rfl rfl
      (by unfold PairsWellFormed; decide) (by decide) (by decide) _ rfl (by decide),
   parseValDescSection_replaces_table
      (Tokenizer.ofList [kw "VAL_", num "100", kw "EngineSpeed", sep ";"]) engineDb
      (num "100") (kw "EngineSpeed") [] [] rfl rfl rfl
      (by unfold PairsWellFormed; decide) (by decide) (by decide) _ rfl (by decide)⟩

/-- C6 (counterexample): in `VAL_ 100 EngineSpeed 0 "a" 4294967296 "b" ;` the
values `0` and `4294967296 = 2 ^ 32` are distinct and non-negative, yet the
value table stored for the signal is `0 -> "a"` alone: the key of the second
pair is `0` as an `unsigned int`, and the pair is not inserted. -/
theorem parseValDescSection_replaces_table_counterexample :
    (num "0").toUInt = 0 ∧ (num "4294967296").toUInt = 4294967296 ∧
    parseValDescSection
        (Tokenizer.ofList [kw "VAL_", num "100", kw "EngineSpeed", num "0", str "a",
          num "4294967296", str "b", sep ";"]) engineDb
      = Except.ok (Tokenizer.rejected [],
          engineDb.modifyFrame 100 (fun f =>
            f.modifySignal "EngineSpeed" (fun s => s.setChoices [(0, "a")]))) ∧
    (engineDb.modifyFrame 100 (fun f =>
        f.modifySignal "EngineSpeed" (fun s => s.setChoices [(0, "a")]))).frames.map
      (fun f => f.signals.map (fun x => x.choices)) = [[[(0, "a")]]] :=
  ⟨by decide, by decide, rfl, rfl⟩

/-! ### C2: message-definition blocks -/

theorem ecuTokens_length (es : List Token) : es.length ≤ (ecuTokens es).length := by
  induction es with
  | nil => simp
  | cons e es ih => simp only [ecuTokens, List.length_cons]; omega

/-- The loop over the receiving nodes reads all `, ecu` pairs. -/
theorem parseSigDefInstruction_loop_ecus (es : List Token) (rest : List Token)
    (hes : ∀ e ∈ es, e.type = TokenType.Identifier) (hrest : NextIsNot rest [","])
    (fuel : Nat) (hfuel : es.length < fuel) (tk : Tokenizer)
    (h : tk.stream = ecuTokens es ++ rest) :
    parseSigDefInstruction_loop fuel tk = Except.ok (Tokenizer.rejected rest) := by
  induction es generalizing fuel tk with
  | nil =>
    obtain ⟨fuel, rfl⟩ : ∃ n, fuel = n + 1 := ⟨fuel - 1, by omega⟩
    simp only [ecuTokens, List.nil_append] at h
    have hp := peek_token_image_reject "," h hrest (by simp) (by decide)
    simp [parseSigDefInstruction_loop, hp]
  | cons e es ih =>
    obtain ⟨fuel, rfl⟩ : ∃ n, fuel = n + 1 := ⟨fuel - 1, by omega⟩
    have hm := Token.matchesTarget_type (hes e (by simp))
    simp only [ecuTokens, List.cons_append] at h
    rw [parseSigDefInstruction_loop, peek_token_cons _ h]
    simp only [Token.matchesTarget_image, sep_image, beq_self_eq_true, if_true, bind,
      Except.bind, assert_token_mk_none, hm]
    exact ih (fun q hq => hes q (by simp [hq])) fuel (by simpa using hfuel)
      ⟨ecuTokens es ++ rest, none, e⟩ rfl

/-- A well-formed signal production is accepted and adds the signal it
describes to the frame being built. -/
theorem parseSigDefInstruction_sigDef (s : SigDef) (rest : List Token) (hw : s.WellFormed)
    (hrest : NextIsNot rest [","]) (frame : CANFrame) :
    parseSigDefInstruction ⟨s.body ++ rest, none, kw "SG_"⟩ frame =
      Except.ok (Tokenizer.rejected rest, frame.addSignal s.signal) := by
  obtain ⟨h1, h2, h3, h4, h5, h6, h7, h8, h9, h10, h11, h12⟩ := hw
  have m1 := Token.matchesTarget_type h1
  have m2 := Token.matchesTarget_type h2
  have m3 := Token.matchesTarget_type h3
  have m4 := Token.matchesTarget_type h4
  have m5 := Token.matchesTarget_type h5
  have m6 : s.scale.matchesTarget (Target.type TokenType.Number) = true := h6
  have m7 : s.offset.matchesTarget (Target.type TokenType.Number) = true := h7
  have m8 : s.min.matchesTarget (Target.type TokenType.Number) = true := h8
  have m9 : s.max.matchesTarget (Target.type TokenType.Number) = true := h9
  have m10 := Token.matchesTarget_type h10
  have m11 := Token.matchesTarget_type h11
  have hl := parseSigDefInstruction_loop_ecus s.moreECUs rest h12 hrest
    (Tokenizer.remaining ⟨ecuTokens s.moreECUs ++ rest, none, s.targetECU⟩ + 1)
    (by
      have := ecuTokens_length s.moreECUs
      simp only [Tokenizer.remaining_mk_none, List.length_append]
      omega)
    ⟨ecuTokens s.moreECUs ++ rest, none, s.targetECU⟩ rfl
  have c1 : ∀ a : String, (sep a).matchesTarget (Target.image a) = true := by
    intro a
    simp
  unfold parseSigDefInstruction
  simp only [SigDef.body, List.cons_append]
  rw [show assert_current_token ⟨_, none, kw "SG_"⟩ (Target.image SIG_DEF_TOKEN)
    = Except.ok (kw "SG_") from rfl]
  simp only [bind, Except.bind]
  simp only [assert_token_mk_none, m1, m2, m3, m4, m5, m6, m7, m8, m9, m10, m11, c1, if_true]
  rw [hl]
  simp [SigDef.signal]

theorem sigsTokens_length (sigs : List SigDef) : sigs.length ≤ (sigsTokens sigs).length := by
  induction sigs with
  | nil => simp
  | cons s ss ih =>
    simp only [sigsTokens, SigDef.tokens, List.length_cons, List.length_append]
    omega

theorem nextIsNot_sigsTokens_append (sigs : List SigDef) (rest : List Token)
    (hrest : NextIsNot rest [","]) : NextIsNot (sigsTokens sigs ++ rest) [","] := by
  cases sigs with
  | nil => simpa [sigsTokens] using hrest
  | cons s ss => simp [sigsTokens, SigDef.tokens, NextIsNot]

/-- The signal loop reads all the productions of a block and adds their
signals, in order, to the frame being built. -/
theorem parseMsgDefSection_sigLoop_sigs (sigs : List SigDef) (rest : List Token)
    (hw : ∀ s ∈ sigs, s.WellFormed) (hr1 : NextIsNot rest [","]) (hr2 : NextIsNot rest ["SG_"])
    (fuel : Nat) (hfuel : sigs.length < fuel) (tk : Tokenizer) (frame : CANFrame)
    (h : tk.stream = sigsTokens sigs ++ rest) :
    parseMsgDefSection_sigLoop fuel tk frame =
      Except.ok (Tokenizer.rejected rest, sigs.foldl (fun f s => f.addSignal s.signal) frame) := by
  induction sigs generalizing fuel tk frame with
  | nil =>
    obtain ⟨fuel, rfl⟩ : ∃ n, fuel = n + 1 := ⟨fuel - 1, by omega⟩
    simp only [sigsTokens, List.nil_append] at h
    have hp := peek_token_image_reject "SG_" h hr2 (by simp) (by decide)
    simp [parseMsgDefSection_sigLoop, SIG_DEF_TOKEN, hp]
  | cons s ss ih =>
    obtain ⟨fuel, rfl⟩ : ∃ n, fuel = n + 1 := ⟨fuel - 1, by omega⟩
    simp only [sigsTokens, SigDef.tokens, List.cons_append, List.append_assoc] at h
    rw [parseMsgDefSection_sigLoop, peek_token_cons _ h]
    simp only [Token.matchesTarget_image, kw_image, SIG_DEF_TOKEN, beq_self_eq_true, if_true,
      bind, Except.bind]
    rw [parseSigDefInstruction_sigDef s _ (hw s (by simp))
      (nextIsNot_sigsTokens_append ss rest hr1)]
    exact ih (fun q hq => hw q (by simp [hq])) fuel (by simpa using hfuel) _ _
      (Tokenizer.stream_rejected _)

theorem addSignal_foldl_of_nodup (sigs : List SigDef) (frame : CANFrame)
    (hnodup : (sigs.map (fun s => s.name.image)).Nodup)
    (hframe : ∀ s ∈ sigs, ∀ x ∈ frame.signals, x.name ≠ s.name.image) :
    sigs.foldl (fun f s => f.addSignal s.signal) frame =
      { frame with signals := frame.signals ++ sigs.map SigDef.signal } := by
  induction sigs generalizing frame with
  | nil => simp
  | cons s ss ih =>
    have hnot : frame.contains s.signal.name = false := by
      simp only [CANFrame.contains, List.any_eq_false, beq_iff_eq]
      intro x hx
      exact hframe s (by simp) x hx
    simp only [List.map_cons, List.nodup_cons, List.mem_map, not_exists, not_and] at hnodup
    have hadd : frame.addSignal s.signal =
        { frame with signals := frame.signals ++ [s.signal] } := by
      simp [CANFrame.addSignal, hnot]
    rw [List.foldl_cons, hadd, ih _ hnodup.2]
    · simp
    · intro q hq x hx
      rcases List.mem_append.mp hx with hx | hx
      · exact hframe q (by simp [hq]) x hx
      · simp only [List.mem_singleton] at hx
        subst hx
        exact fun he => hnodup.1 q hq he.symm

theorem addSignal_foldl_can_id (sigs : List SigDef) (frame : CANFrame) :
    (sigs.foldl (fun f s => f.addSignal s.signal) frame).can_id = frame.can_id := by
  induction sigs generalizing frame with
  | nil => rfl
  | cons s ss ih =>
    rw [List.foldl_cons, ih]
    unfold CANFrame.addSignal
    split <;> rfl

theorem MsgDef.built_can_id (m : MsgDef) : m.built.can_id = m.id.toUInt := by
  simp [MsgDef.built, addSignal_foldl_can_id, CANFrame.new]

/-- When the signal names of a block are pairwise distinct, the frame built
from it has exactly the signals of its productions, in order. -/
theorem MsgDef.built_eq_frame (m : MsgDef) (h : (m.sigs.map (fun s => s.name.image)).Nodup) :
    m.built = m.frame := by
  unfold MsgDef.built
  rw [addSignal_foldl_of_nodup m.sigs _ h (by simp [CANFrame.new])]
  rfl

theorem msgsTokens_length (ms : List MsgDef) : ms.length ≤ (msgsTokens ms).length := by
  induction ms with
  | nil => simp
  | cons m ms ih =>
    simp only [msgsTokens, MsgDef.tokens, List.length_cons, List.length_append]
    omega

theorem nextIsNot_msgsTokens_append (ms : List MsgDef) (rest : List Token) (images : List String)
    (hrest : NextIsNot rest images) (hbo : "BO_" ∉ images) :
    NextIsNot (msgsTokens ms ++ rest) images := by
  cases ms with
  | nil => simpa [msgsTokens] using hrest
  | cons m ms => simpa [msgsTokens, MsgDef.tokens, NextIsNot] using hbo

theorem CANDatabase.contains_append (db : CANDatabase) (f : CANFrame) (id : Nat) :
    CANDatabase.contains { db with frames := db.frames ++ [f] } id =
      (db.contains id || f.can_id == id) := by
  simp [CANDatabase.contains]

/-- The message loop reads all the blocks and appends their frames, each
with exactly the signals of its own block. -/
theorem parseMsgDefSection_loop_msgs (ms : List MsgDef) (rest : List Token)
    (hw : ∀ m ∈ ms, m.WellFormed) (hrest : NextIsNot rest ["BO_", "SG_", ","])
    (fuel : Nat) (hfuel : ms.length < fuel) (tk : Tokenizer) (db : CANDatabase)
    (h : tk.stream = msgsTokens ms ++ rest)
    (hids : (ms.map (fun m => m.id.toUInt)).Nodup)
    (hdb : ∀ m ∈ ms, db.contains m.id.toUInt = false) :
    parseMsgDefSection_loop fuel tk db =
      Except.ok (Tokenizer.rejected rest,
        { db with frames := db.frames ++ ms.map MsgDef.built }) := by
  have hr1 : NextIsNot rest [","] := by
    cases rest with
    | nil => trivial
    | cons t r => exact ⟨hrest.1, fun hm => hrest.2 (by simp at hm; simp [hm])⟩
  have hr2 : NextIsNot rest ["SG_"] := by
    cases rest with
    | nil => trivial
    | cons t r => exact ⟨hrest.1, fun hm => hrest.2 (by simp at hm; simp [hm])⟩
  have hr3 : NextIsNot rest ["BO_"] := by
    cases rest with
    | nil => trivial
    | cons t r => exact ⟨hrest.1, fun hm => hrest.2 (by simp at hm; simp [hm])⟩
  induction ms generalizing fuel tk db with
  | nil =>
    obtain ⟨fuel, rfl⟩ : ∃ n, fuel = n + 1 := ⟨fuel - 1, by omega⟩
    simp only [msgsTokens, List.nil_append] at h
    have hp := peek_token_image_reject "BO_" h hr3 (by simp) (by decide)
    simp [parseMsgDefSection_loop, MESSAGE_DEF_TOKEN, hp]
  | cons m ms ih =>
    obtain ⟨fuel, rfl⟩ : ∃ n, fuel = n + 1 := ⟨fuel - 1, by omega⟩
    obtain ⟨w1, w2, w3, w4, w5⟩ := hw m (by simp)
    have m1 := Token.matchesTarget_type w1
    have m2 := Token.matchesTarget_type w2
    have m3 := Token.matchesTarget_type w3
    have m4 := Token.matchesTarget_type w4
    have c1 : ∀ a : String, (sep a).matchesTarget (Target.image a) = true := by
      intro a
      simp
    simp only [msgsTokens, MsgDef.tokens, List.cons_append, List.append_assoc] at h
    have hs := parseMsgDefSection_sigLoop_sigs m.sigs (msgsTokens ms ++ rest) w5
      (nextIsNot_msgsTokens_append ms rest _ hr1 (by decide))
      (nextIsNot_msgsTokens_append ms rest _ hr2 (by decide))
      (Tokenizer.remaining ⟨sigsTokens m.sigs ++ (msgsTokens ms ++ rest), none, m.ecu⟩ + 1)
      (by
        have := sigsTokens_length m.sigs
        simp only [Tokenizer.remaining_mk_none, List.length_append]
        omega)
      ⟨sigsTokens m.sigs ++ (msgsTokens ms ++ rest), none, m.ecu⟩
      (CANFrame.new m.name.image m.id.toUInt m.dlc.toUInt) rfl
    have hfold : m.sigs.foldl (fun f s => f.addSignal s.signal)
        (CANFrame.new m.name.image m.id.toUInt m.dlc.toUInt) = m.built := rfl
    rw [hfold] at hs
    have hadd : db.addFrame m.built =
        Except.ok ({ db with frames := db.frames ++ [m.built] } : CANDatabase) := by
      have := hdb m (by simp)
      simp [CANDatabase.addFrame, MsgDef.built_can_id, this]
    rw [parseMsgDefSection_loop, peek_token_cons _ h]
    simp only [Token.matchesTarget_image, kw_image, MESSAGE_DEF_TOKEN, beq_self_eq_true, if_true,
      bind, Except.bind]
    simp only [assert_token_mk_none, m1, m2, m3, m4, c1, if_true]
    rw [hs]
    simp only [hadd]
    simp only [List.map_cons, List.nodup_cons, List.mem_map, not_exists, not_and] at hids
    rw [ih (fun q hq => hw q (by simp [hq])) fuel (by simpa using hfuel) _ _
      (Tokenizer.stream_rejected _) hids.2]
    · simp
    · intro q hq
      rw [CANDatabase.contains_append, hdb q (by simp [hq])]
      simpa [MsgDef.built_can_id] using fun he => hids.1 q hq he.symm

/-- C2: for every well-formed sequence of message-definition blocks with
pairwise distinct frame ids (none of them in the database yet),
`parseMsgDefSection` returns normally and appends one frame per block, built
from the productions of that block alone: every signal is attached to the
frame being built when it was parsed and none leaks into another frame.  When
the signal names of a block are pairwise distinct, its frame contains exactly
the signals whose `SG_` productions stand between its `BO_` header and the
next `BO_` header (or the end of the section), in order. -/
theorem parseMsgDefSection_blocks (ms : List MsgDef) (rest : List Token) (tk : Tokenizer)
    (db : CANDatabase) (h : tk.stream = msgsTokens ms ++ rest)
    (hw : ∀ m ∈ ms, m.WellFormed) (hids : (ms.map (fun m => m.id.toUInt)).Nodup)
    (hdb : ∀ m ∈ ms, db.contains m.id.toUInt = false)
    (hrest : NextIsNot rest ["BO_", "SG_", ","]) :
    parseMsgDefSection tk db =
      Except.ok (Tokenizer.rejected rest,
        { db with frames := db.frames ++ ms.map MsgDef.built }) ∧
    ∀ m ∈ ms, (m.sigs.map (fun s => s.name.image)).Nodup →
      m.built = m.frame ∧ m.built.signals = m.sigs.map SigDef.signal := by
  constructor
  · apply parseMsgDefSection_loop_msgs ms rest hw hrest _ _ tk db h hids hdb
    have := msgsTokens_length ms
    simp only [Tokenizer.remaining, h, List.length_append]
    omega
  · intro m _ hn
    rw [MsgDef.built_eq_frame m hn]
    exact ⟨rfl, rfl⟩

/-- Witness for C2: the blocks 100 (one signal) and 200 (two signals),
followed by a `CM_` token. -/
theorem parseMsgDefSection_blocks_witness :
    parseMsgDefSection (Tokenizer.ofList (msgsTokens [engineMsg, brakeMsg] ++ [kw "CM_"]))
        (CANDatabase.new "") =
      Except.ok (Tokenizer.rejected [kw "CM_"],
        { name := "", frames := [engineMsg.frame, brakeMsg.frame] }) ∧
    ∀ m ∈ [engineMsg, brakeMsg], (m.sigs.map (fun s => s.name.image)).Nodup →
      m.built = m.frame ∧ m.built.signals = m.sigs.map SigDef.signal :=
  parseMsgDefSection_blocks [engineMsg, brakeMsg] [kw "CM_"]
    (Tokenizer.ofList (msgsTokens [engineMsg, brakeMsg] ++ [kw "CM_"])) (CANDatabase.new "")
    rfl (by decide) (by decide) (by decide) (by decide)

/-! ### C1: the minimal document, end to end -/

theorem parseUnsupportedCommandSection_exit (tk : Tokenizer) (command : String)
    (rest : List Token) (h : tk.stream = rest) (hn : NextIsNot rest [command])
    (hne : command ≠ "") :
    parseUnsupportedCommandSection tk command = Tokenizer.rejected rest := by
  have hp := peek_token_image_reject command h hn (by simp) hne
  simp [parseUnsupportedCommandSection, parseUnsupportedCommandSection_loop, hp]

theorem parseVersionSection_absent (tk : Tokenizer) (rest : List Token)
    (h : tk.stream = rest) (hn : NextIsNot rest ["VERSION"]) :
    parseVersionSection tk = Except.ok ("", Tokenizer.rejected rest) := by
  have hp := peek_token_image_reject "VERSION" h hn (by simp) (by decide)
  simp [parseVersionSection, VERSION_TOKEN, hp]

theorem parseNSSection_absent (tk : Tokenizer) (rest : List Token)
    (h : tk.stream = rest) (hn : NextIsNot rest ["NS_"]) :
    parseNSSection tk = Except.ok (Tokenizer.rejected rest) := by
  have hp := peek_token_image_reject "NS_" h hn (by simp) (by decide)
  simp [parseNSSection, NS_SECTION_TOKEN, hp]

/-- The bit-timing header `BS_ :` followed by a keyword: the header is
consumed and the keyword is pushed back. -/
theorem parseBitTimingSection_header (tk : Tokenizer) (a : String) (rest : List Token)
    (h : tk.stream = kw "BS_" :: sep ":" :: kw a :: rest) :
    parseBitTimingSection tk = Except.ok (Tokenizer.rejected (kw a :: rest)) := by
  simp [parseBitTimingSection, BIT_TIMING_TOKEN, assert_token_cons _ h, Tokenizer.rejected, bind,
    Except.bind]

/-- The node section `BU_ : node` followed by `BO_`: the header and the node
are consumed and the `BO_` token is pushed back. -/
theorem parseNodesSection_one_node (tk : Tokenizer) (db : CANDatabase) (node : Token)
    (rest : List Token) (hnode : node.type = TokenType.Identifier)
    (h : tk.stream = kw "BU_" :: sep ":" :: node :: kw "BO_" :: rest) :
    parseNodesSection tk db = Except.ok (Tokenizer.rejected (kw "BO_" :: rest), db) := by
  have hm := Token.matchesTarget_type hnode
  have hd : is_dbc_token (kw "BO_") = true := by decide
  simp [parseNodesSection, NODE_DEF_TOKEN, assert_token_cons _ h, Tokenizer.rejected, bind,
    Except.bind, hm, parseNodesSection_loop, hd, Tokenizer.saveTokenIfNotEof]

/-- The sections after the message definitions and the drain loop, at
end-of-input: nothing is consumed and the database is unchanged. -/
theorem fromTokenizer_tail_at_eof (db : CANDatabase) :
    (do
      let tk := parseUnsupportedCommandSection (Tokenizer.rejected []) "BO_TX_BU_"
      let tk := parseUnsupportedCommandSection tk "EV_"
      let tk := parseUnsupportedCommandSection tk "SGTYPE_"
      let (tk, result) ← parseCommentSection tk db
      let tk := parseUnsupportedCommandSection tk "BA_DEF_"
      let tk := parseUnsupportedCommandSection tk "SIG_VALTYPE_"
      let tk := parseUnsupportedCommandSection tk "BA_DEF_DEF_"
      let (tk, result) ← parseAttrValSection tk result
      parseValDescSection tk result)
      = Except.ok (Tokenizer.rejected [], db) := by
  have u : ∀ command : String, command ≠ "" →
      parseUnsupportedCommandSection (Tokenizer.rejected []) command = Tokenizer.rejected [] :=
    fun command hne =>
      parseUnsupportedCommandSection_exit _ command [] (Tokenizer.stream_rejected _) trivial hne
  have c : parseCommentSection (Tokenizer.rejected []) db
      = Except.ok (Tokenizer.rejected [], db) :=
    parseCommentSection_loop_exit _ _ _ [] (Tokenizer.stream_rejected _) trivial
  have a : parseAttrValSection (Tokenizer.rejected []) db
      = Except.ok (Tokenizer.rejected [], db) :=
    parseAttrValSection_loop_exit _ _ _ [] (Tokenizer.stream_rejected _) trivial
  have v : parseValDescSection (Tokenizer.rejected []) db
      = Except.ok (Tokenizer.rejected [], db) :=
    parseValDescSection_loop_exit _ _ _ [] (Tokenizer.stream_rejected _) trivial
  simp only [u "BO_TX_BU_" (by decide), u "EV_" (by decide), u "SGTYPE_" (by decide),
    u "BA_DEF_" (by decide), u "SIG_VALTYPE_" (by decide), u "BA_DEF_DEF_" (by decide),
    c, a, v, bind, Except.bind]

/-- C1: for the token stream of a minimal document, `BS_ :`, `BU_ : node`,
then one message block `BO_ id name : dlc ecu` holding one fully specified
signal production, whatever the id, the names and the numeric fields are,
`fromTokenizer` returns normally with the stream at end-of-input, and the
database contains exactly one frame, whose id is the id of the block, and
that frame contains exactly one signal, with the name, start bit, length,
scale, offset and range of the production. -/
theorem fromTokenizer_minimal_document (name : String) (node : Token) (m : MsgDef) (s : SigDef)
    (hnode : node.type = TokenType.Identifier) (hm : m.WellFormed) (hs : m.sigs = [s]) :
    ∃ f sig,
      fromTokenizer name
          (Tokenizer.ofList (kw "BS_" :: sep ":" :: kw "BU_" :: sep ":" :: node :: m.tokens))
        = Except.ok ({ name := name, frames := [f] }, Tokenizer.rejected []) ∧
      f.can_id = m.id.toUInt ∧ f.name = m.name.image ∧ f.dlc = m.dlc.toUInt ∧
      f.signals = [sig] ∧
      sig.name = s.name.image ∧ sig.start_bit = s.startBit.toUInt ∧
      sig.length = s.length.toUInt ∧ sig.scale = s.scale.toDouble ∧
      sig.offset = s.offset.toDouble ∧
      sig.range = Range.fromString s.min.image s.max.image := by
  refine ⟨m.frame, s.signal, ?_, rfl, rfl, rfl, by simp [MsgDef.frame, hs], rfl, rfl, rfl, rfl,
    rfl, rfl⟩
  have e1 := parseVersionSection_absent (Tokenizer.ofList
    (kw "BS_" :: sep ":" :: kw "BU_" :: sep ":" :: node :: m.tokens))
    (kw "BS_" :: sep ":" :: kw "BU_" :: sep ":" :: node :: m.tokens) rfl
    (by simp [NextIsNot])
  have e2 := parseNSSection_absent (Tokenizer.rejected
    (kw "BS_" :: sep ":" :: kw "BU_" :: sep ":" :: node :: m.tokens)) _
    (Tokenizer.stream_rejected _) (by simp [NextIsNot])
  have e3 := parseBitTimingSection_header (Tokenizer.rejected
    (kw "BS_" :: sep ":" :: kw "BU_" :: sep ":" :: node :: m.tokens)) "BU_"
    (sep ":" :: node :: m.tokens) (Tokenizer.stream_rejected _)
  have e4 := parseNodesSection_one_node (Tokenizer.rejected
    (kw "BU_" :: sep ":" :: node :: m.tokens)) (CANDatabase.new name) node
    (m.id :: m.name :: sep ":" :: m.dlc :: m.ecu :: sigsTokens m.sigs) hnode
    (Tokenizer.stream_rejected _)
  have e5 := parseUnsupportedCommandSection_exit (Tokenizer.rejected m.tokens) "VAL_TABLE_"
    m.tokens (Tokenizer.stream_rejected _) (by simp [NextIsNot, MsgDef.tokens]) (by decide)
  have hb : m.built = m.frame := MsgDef.built_eq_frame m (by simp [hs])
  have e6 : parseMsgDefSection (Tokenizer.rejected m.tokens) (CANDatabase.new name) =
      Except.ok (Tokenizer.rejected [], { name := name, frames := [m.frame] }) := by
    have := parseMsgDefSection_loop_msgs [m] [] (fun q hq => by simp at hq; rw [hq]; exact hm)
      trivial ((Tokenizer.rejected m.tokens).remaining + 1)
      (by simp [Tokenizer.remaining, MsgDef.tokens])
      (Tokenizer.rejected m.tokens) (CANDatabase.new name)
      (by simp [msgsTokens]) (by simp) (by simp [CANDatabase.new, CANDatabase.contains])
    simpa [parseMsgDefSection, CANDatabase.new, hb] using this
  have e7 := fromTokenizer_tail_at_eof { name := name, frames := [m.frame] }
  have hdrain : fromTokenizer_drain (Tokenizer.rejected []) = Tokenizer.rejected [] := by
    decide
  simp only [bind, Except.bind] at e7
  have e4b : parseNodesSection (Tokenizer.rejected
      (kw "BU_" :: sep ":" :: node :: m.tokens)) (CANDatabase.new name) =
      Except.ok (Tokenizer.rejected m.tokens, CANDatabase.new name) := e4
  simp only [fromTokenizer, fromTokenizer_sections, bind, Except.bind, e1, e2, e3, e4b, e5, e6,
    e7, hdrain]

/-- Witness for C1: the document
`BS_ : BU_ : ECU BO_ 100 Engine : 8 ECU SG_ EngineSpeed : 0|16@1+ (0.25,0)
[0|16383.75] "rpm" ECU`. -/
theorem fromTokenizer_minimal_document_witness :
    ∃ f sig,
      fromTokenizer ""
          (Tokenizer.ofList ([kw "BS_", sep ":", kw "BU_", sep ":", kw "ECU", kw "BO_", num "100",
            kw "Engine", sep ":", num "8", kw "ECU", kw "SG_"] ++ engineSpeedTokens))
        = Except.ok ({ name := "", frames := [f] }, Tokenizer.rejected []) ∧
      f.can_id = 100 ∧ f.name = "Engine" ∧ f.dlc = 8 ∧
      f.signals = [sig] ∧
      sig.name = "EngineSpeed" ∧ sig.start_bit = 0 ∧ sig.length = 16 ∧
      sig.scale = ⟨"0.25"⟩ ∧ sig.offset = ⟨"0"⟩ ∧
      sig.range = Range.fromString "0" "16383.75" :=
  fromTokenizer_minimal_document "" (kw "ECU") engineMsg engineSpeedDef rfl (by decide) rfl

/-! ### C11: the node section -/

/-- The loop of `parseNodesSection` reads node names up to the first DBC
keyword `K` and returns `K` as its current token. -/
theorem parseNodesSection_loop_nodes (ns : List Token) (K : Token) (rest : List Token)
    (hns : ∀ n ∈ ns, n.type = TokenType.Identifier ∧ is_dbc_token n = false)
    (hK : K.type = TokenType.Identifier) (hKd : is_dbc_token K = true)
    (fuel : Nat) (hfuel : ns.length + 1 < fuel) (n : Token) (nodes : List String) (c : Token)
    (hn : n.type = TokenType.Identifier ∧ is_dbc_token n = false) :
    parseNodesSection_loop fuel n nodes ⟨ns ++ K :: rest, none, c⟩ =
      Except.ok (K, ⟨rest, none, K⟩) := by
  have hKm := Token.matchesTarget_type hK
  have hne : ∀ t : Token, t.type = TokenType.Identifier →
      t.matchesTarget (Target.type TokenType.Eof) = false := by
    rintro ⟨img, ty⟩ ht
    simp only at ht
    subst ht
    rfl
  induction ns generalizing fuel n nodes c with
  | nil =>
    obtain ⟨fuel, rfl⟩ : ∃ k, fuel = k + 2 := ⟨fuel - 2, by simp at hfuel; omega⟩
    simp [parseNodesSection_loop, hne n hn.1, hn.2, hKm, hne K hK, hKd, bind, Except.bind]
  | cons a as ih =>
    obtain ⟨fuel, rfl⟩ : ∃ k, fuel = k + 1 := ⟨fuel - 1, by omega⟩
    have ha := hns a (by simp)
    have ham := Token.matchesTarget_type ha.1
    rw [parseNodesSection_loop]
    simp only [hne n hn.1, hn.2, Bool.not_false, Bool.and_self, if_true, List.cons_append,
      assert_token_mk_none, ham, bind, Except.bind]
    exact ih (fun q hq => hns q (by simp [hq])) fuel (by simpa using hfuel) a _ a ha

/-- With at least one node name the node section behaves as specified, except
that the first name is consumed by the lookahead and not recorded: the names
are consumed and the terminating keyword `K` is pushed back. -/
theorem parseNodesSection_nodes (tk : Tokenizer) (db : CANDatabase) (n1 : Token)
    (ns : List Token) (K : Token) (rest : List Token)
    (h : tk.stream = kw "BU_" :: sep ":" :: n1 :: (ns ++ K :: rest))
    (h1 : n1.type = TokenType.Identifier)
    (hns : ∀ n ∈ ns, n.type = TokenType.Identifier ∧ is_dbc_token n = false)
    (hK : K.type = TokenType.Identifier) (hKd : is_dbc_token K = true) :
    parseNodesSection tk db = Except.ok (Tokenizer.rejected (K :: rest), db) := by
  have hm1 := Token.matchesTarget_type h1
  have hKm := Token.matchesTarget_type hK
  have hKe : K.type ≠ TokenType.Eof := by simp [hK]
  cases ns with
  | nil =>
    have hKeof : K.matchesTarget (Target.type TokenType.Eof) = false := by
      obtain ⟨img, ty⟩ := K
      simp only at hK
      subst hK
      rfl
    simp [parseNodesSection, NODE_DEF_TOKEN, assert_token_cons _ h, hm1, hKm, bind, Except.bind,
      parseNodesSection_loop, hKd, hKeof, Tokenizer.saveTokenIfNotEof, hKe, Tokenizer.rejected]
  | cons a as =>
    have ha := hns a (by simp)
    have ham := Token.matchesTarget_type ha.1
    have hl := parseNodesSection_loop_nodes as K rest (fun q hq => hns q (by simp [hq])) hK hKd
      (Tokenizer.remaining ⟨as ++ K :: rest, none, a⟩ + 1)
      (by simp only [Tokenizer.remaining_mk_none, List.length_append, List.length_cons]; omega)
      a [] a ha
    simp only [Tokenizer.remaining_mk_none, List.length_append, List.length_cons] at hl
    simp [parseNodesSection, NODE_DEF_TOKEN, assert_token_cons _ h, hm1, ham, bind, Except.bind,
      hl, Tokenizer.saveTokenIfNotEof, hKe, Tokenizer.rejected]

/-- C11 (defect for an empty node list): on `BU_ :` directly followed by the
keyword `BO_`, `parseNodesSection` consumes `BO_` in its lookahead and then
demands a further identifier.  On `BU_ : BO_ 100 Engine : 8 ECU` it raises a
`SyntaxError`; on `BU_ : BO_ CM_ 1` it returns, but the next token read is
`CM_`, not `BO_`. -/
theorem parseNodesSection_empty_node_list :
    parseNodesSection
        (Tokenizer.ofList [kw "BU_", sep ":", kw "BO_", num "100", kw "Engine", sep ":", num "8",
          kw "ECU"]) (CANDatabase.new "")
      = Except.error Exn.SyntaxError ∧
    parseNodesSection (Tokenizer.ofList [kw "BU_", sep ":", kw "BO_", kw "CM_", num "1"])
        (CANDatabase.new "")
      = Except.ok (Tokenizer.rejected [kw "CM_", num "1"], CANDatabase.new "") :=
  ⟨rfl, rfl⟩

/-! ### C12: whole-database comments -/

theorem parseCommentSection_loop_global (fuel : Nat) (tk : Tokenizer) (db : CANDatabase)
    (text : Token) (rest : List Token)
    (h : tk.stream = kw "CM_" :: text :: sep ";" :: rest)
    (htext : text.type = TokenType.StringLiteral) :
    parseCommentSection_loop (fuel + 1) tk db =
      parseCommentSection_loop fuel ⟨rest, none, sep ";"⟩ db := by
  have h2 := Token.matchesTarget_type htext
  rw [parseCommentSection_loop, peek_token_cons _ h]
  simp [COMMENT_TOKEN, h2, bind, Except.bind]

/-- C12 (as amended): a comment instruction `CM_ "text" ;`, in which the
string literal is directly followed by `;`, is treated as unsupported:
`parseCommentSection` raises no error, leaves the database unchanged, discards
the three tokens and continues with the token after the `;`.  If the token
after the string literal is not `;`, a `SyntaxError` is raised. -/
theorem parseCommentSection_global_comment (tk : Tokenizer) (db : CANDatabase)
    (text : Token) (htext : text.type = TokenType.StringLiteral) :
    (∀ rest, tk.stream = kw "CM_" :: text :: sep ";" :: rest → NextIsNot rest ["CM_"] →
      parseCommentSection tk db = Except.ok (Tokenizer.rejected rest, db)) ∧
    (∀ t rest, tk.stream = kw "CM_" :: text :: t :: rest → t.image ≠ ";" →
      parseCommentSection tk db = Except.error Exn.SyntaxError) := by
  have h2 := Token.matchesTarget_type htext
  constructor
  · intro rest h hrest
    simp only [parseCommentSection, Tokenizer.remaining, h, List.length_cons]
    rw [parseCommentSection_loop_global _ _ _ _ _ h htext,
      parseCommentSection_loop_exit _ ⟨rest, none, sep ";"⟩ _ rest rfl hrest]
  · intro t rest h ht
    simp only [parseCommentSection, Tokenizer.remaining, h, List.length_cons]
    rw [parseCommentSection_loop, peek_token_cons _ h]
    simp [COMMENT_TOKEN, h2, ht, bind, Except.bind]

/-- Witness for C12 (as amended): `CM_ "note" ;` followed by `VAL_`. -/
theorem parseCommentSection_global_comment_witness :
    parseCommentSection (Tokenizer.ofList [kw "CM_", str "note", sep ";", kw "VAL_"]) engineDb
      = Except.ok (Tokenizer.rejected [kw "VAL_"], engineDb) :=
  (parseCommentSection_global_comment
    (Tokenizer.ofList [kw "CM_", str "note", sep ";", kw "VAL_"]) engineDb (str "note") rfl).1
    [kw "VAL_"] rfl (by decide)

/-- C12 (counterexample): in `CM_ "note" extra ; VAL_` a token stands between
the string literal and the `;`; `parseCommentSection` raises a `SyntaxError`
instead of discarding the instruction. -/
theorem parseCommentSection_global_comment_counterexample :
    parseCommentSection
        (Tokenizer.ofList [kw "CM_", str "note", kw "extra", sep ";", kw "VAL_"]) engineDb
      = Except.error Exn.SyntaxError :=
  rfl

/-! ### C14: the bit-timing section -/

@[simp] theorem assert_token_mk_nil (c : Token) (target : Target) :
    assert_token ⟨[], none, c⟩ target =
      if Token.eof.matchesTarget target then Except.ok (Token.eof, ⟨[], none, Token.eof⟩)
      else Except.error Exn.SyntaxError := rfl

theorem Token.eof_matchesTarget_image (s : String) (hs : s ≠ "") :
    Token.eof.matchesTarget (Target.image s) = false := by
  simp only [Token.matchesTarget, Token.eof, beq_eq_false_iff_ne]
  exact fun h => hs h.symm

/-- C14: `parseBitTimingSection` fails with a `SyntaxError` whenever the next
two tokens are not `BS_` followed by `:`; on `BS_ :` followed by a token that
is not a positive number it returns normally and leaves that token as the
next token read; on `BS_ :` followed by a positive number it returns normally,
having consumed everything, when the following tokens are `:` PositiveNumber
`,` PositiveNumber, and raises a `SyntaxError` otherwise. -/
theorem parseBitTimingSection_cases (tk : Tokenizer) :
    ((¬ ∃ t1 t2 r, tk.stream = t1 :: t2 :: r ∧ t1.image = "BS_" ∧ t2.image = ":") →
      parseBitTimingSection tk = Except.error Exn.SyntaxError) ∧
    (∀ t1 t2 t r, tk.stream = t1 :: t2 :: t :: r → t1.image = "BS_" → t2.image = ":" →
      t.type ≠ TokenType.PositiveNumber → t.type ≠ TokenType.Eof →
      parseBitTimingSection tk = Except.ok (Tokenizer.rejected (t :: r))) ∧
    (∀ t1 t2 n rest, tk.stream = t1 :: t2 :: n :: rest → t1.image = "BS_" → t2.image = ":" →
      n.type = TokenType.PositiveNumber →
      (∀ c1 b1 c2 b2 r, rest = c1 :: b1 :: c2 :: b2 :: r → c1.image = ":" →
        b1.type = TokenType.PositiveNumber → c2.image = "," →
        b2.type = TokenType.PositiveNumber →
        parseBitTimingSection tk = Except.ok ⟨r, none, b2⟩) ∧
      ((¬ ∃ c1 b1 c2 b2 r, rest = c1 :: b1 :: c2 :: b2 :: r ∧ c1.image = ":" ∧
        b1.type = TokenType.PositiveNumber ∧ c2.image = "," ∧
        b2.type = TokenType.PositiveNumber) →
        parseBitTimingSection tk = Except.error Exn.SyntaxError)) := by
  have hpos : ∀ t : Token, t.matchesTarget (Target.type TokenType.PositiveNumber) =
      decide (t.type = TokenType.PositiveNumber) := by
    rintro ⟨img, ty⟩
    cases ty <;> rfl
  have heofpos : Token.eof.type = TokenType.Eof := rfl
  have heofm : Token.eof.matchesTarget (Target.type TokenType.PositiveNumber) = false := rfl
  have he1 := Token.eof_matchesTarget_image ":" (by decide)
  have he2 := Token.eof_matchesTarget_image "," (by decide)
  have he3 := Token.eof_matchesTarget_image "BS_" (by decide)
  refine ⟨?_, ?_, ?_⟩
  · intro hno
    rcases hs : tk.stream with _ | ⟨t1, _ | ⟨t2, r⟩⟩
    · simp [parseBitTimingSection, assert_token, Tokenizer.getNextToken_nil hs, Token.eof,
        BIT_TIMING_TOKEN, bind, Except.bind]
    · by_cases h1 : t1.image = "BS_"
      · simp [parseBitTimingSection, assert_token_cons _ hs, BIT_TIMING_TOKEN, h1, he1, bind,
          Except.bind]
      · simp [parseBitTimingSection, assert_token_cons _ hs, BIT_TIMING_TOKEN, h1, bind,
          Except.bind]
    · by_cases h1 : t1.image = "BS_"
      · have h2 : t2.image ≠ ":" := fun h2 => hno ⟨t1, t2, r, hs, h1, h2⟩
        simp [parseBitTimingSection, assert_token_cons _ hs, BIT_TIMING_TOKEN, h1, h2, bind,
          Except.bind]
      · simp [parseBitTimingSection, assert_token_cons _ hs, BIT_TIMING_TOKEN, h1, bind,
          Except.bind]
  · intro t1 t2 t r hs h1 h2 ht hte
    simp [parseBitTimingSection, assert_token_cons _ hs, BIT_TIMING_TOKEN, h1, h2, hpos, ht, hte,
      Tokenizer.rejected, bind, Except.bind]
  · intro t1 t2 n rest hs h1 h2 hn
    constructor
    · intro c1 b1 c2 b2 r hr hc1 hb1 hc2 hb2
      subst hr
      simp [parseBitTimingSection, assert_token_cons _ hs, BIT_TIMING_TOKEN, h1, h2, hpos, hn,
        hc1, hb1, hc2, hb2, assert_current_token, Tokenizer.getCurrentToken, bind, Except.bind]
    · intro hno
      have hstart : parseBitTimingSection tk =
          (do
            let (_, tk) ← assert_token ⟨rest, none, n⟩ (Target.image ":")
            let (_, tk) ← assert_token tk (Target.type TokenType.PositiveNumber)
            let (_, tk) ← assert_token tk (Target.image ",")
            let (_, tk) ← assert_token tk (Target.type TokenType.PositiveNumber)
            Except.ok tk) := by
        simp [parseBitTimingSection, assert_token_cons _ hs, BIT_TIMING_TOKEN, h1, h2, hpos, hn,
          assert_current_token, Tokenizer.getCurrentToken, bind, Except.bind]
      rw [hstart]
      rcases rest with _ | ⟨c1, _ | ⟨b1, _ | ⟨c2, _ | ⟨b2, r⟩⟩⟩⟩
      · simp [he1, bind, Except.bind]
      · by_cases hc1 : c1.image = ":" <;>
          simp [hc1, heofm, bind, Except.bind]
      · by_cases hc1 : c1.image = ":" <;> by_cases hb1 : b1.type = TokenType.PositiveNumber <;>
          simp [hc1, hb1, hpos, he2, bind, Except.bind]
      · by_cases hc1 : c1.image = ":" <;> by_cases hb1 : b1.type = TokenType.PositiveNumber <;>
          by_cases hc2 : c2.image = "," <;>
          simp [hc1, hb1, hc2, hpos, heofpos, bind, Except.bind]
      · have hb2 : ¬ (c1.image = ":" ∧ b1.type = TokenType.PositiveNumber ∧ c2.image = "," ∧
            b2.type = TokenType.PositiveNumber) :=
          fun hh => hno ⟨c1, b1, c2, b2, r, rfl, hh⟩
        by_cases hc1 : c1.image = ":" <;> by_cases hb1 : b1.type = TokenType.PositiveNumber <;>
          by_cases hc2 : c2.image = "," <;> by_cases hb : b2.type = TokenType.PositiveNumber <;>
          simp_all [bind, Except.bind]

/-- Witness for C14: `BS_ : 500 : 1 , 2` is consumed completely. -/
theorem parseBitTimingSection_cases_witness :
    parseBitTimingSection
        (Tokenizer.ofList [kw "BS_", sep ":", num "500", sep ":", num "1", sep ",", num "2",
          kw "BU_"])
      = Except.ok ⟨[kw "BU_"], none, num "2"⟩ :=
  ((parseBitTimingSection_cases
    (Tokenizer.ofList [kw "BS_", sep ":", num "500", sep ":", num "1", sep ",", num "2",
      kw "BU_"])).2.2 (kw "BS_") (sep ":") (num "500") _ rfl rfl rfl rfl).1
    (sep ":") (num "1") (sep ",") (num "2") [kw "BU_"] rfl rfl rfl rfl rfl

/-! ### C15: the unit string -/

/-- C15 (as amended): for every well-formed signal-definition production the
unit string literal is required and consumed, but it is not passed to the
`CANSignal` constructor: the signal added to the frame does not depend on it,
so two productions that differ only in the unit string literal yield the same
signal. -/
theorem parseSigDefInstruction_unit_not_retained (s : SigDef) (u : Token) (rest : List Token)
    (hw : s.WellFormed) (hu : u.type = TokenType.StringLiteral) (hrest : NextIsNot rest [","])
    (frame : CANFrame) :
    parseSigDefInstruction ⟨({ s with unit := u } : SigDef).body ++ rest, none, kw "SG_"⟩ frame =
        Except.ok (Tokenizer.rejected rest, frame.addSignal s.signal) ∧
    parseSigDefInstruction ⟨s.body ++ rest, none, kw "SG_"⟩ frame =
        Except.ok (Tokenizer.rejected rest, frame.addSignal s.signal) := by
  obtain ⟨h1, h2, h3, h4, h5, h6, h7, h8, h9, h10, h11, h12⟩ := hw
  constructor
  · exact parseSigDefInstruction_sigDef { s with unit := u } rest
      ⟨h1, h2, h3, h4, h5, h6, h7, h8, h9, hu, h11, h12⟩ hrest frame
  · exact parseSigDefInstruction_sigDef s rest
      ⟨h1, h2, h3, h4, h5, h6, h7, h8, h9, h10, h11, h12⟩ hrest frame

/-- Witness for C15 (as amended): the `EngineSpeed` production with the unit
`"1/min"` in place of `"rpm"`. -/
theorem parseSigDefInstruction_unit_not_retained_witness :
    parseSigDefInstruction
        ⟨({ engineSpeedDef with unit := str "1/min" } : SigDef).body ++ [], none, kw "SG_"⟩
        (CANFrame.new "Engine" 100 8) =
      Except.ok (Tokenizer.rejected [],
        (CANFrame.new "Engine" 100 8).addSignal engineSpeedDef.signal) ∧
    parseSigDefInstruction ⟨engineSpeedDef.body ++ [], none, kw "SG_"⟩
        (CANFrame.new "Engine" 100 8) =
      Except.ok (Tokenizer.rejected [],
        (CANFrame.new "Engine" 100 8).addSignal engineSpeedDef.signal) :=
  parseSigDefInstruction_unit_not_retained engineSpeedDef (str "1/min") [] (by decide) rfl
    (by decide) (CANFrame.new "Engine" 100 8)

/-- C15 (counterexample): the productions
`SG_ EngineSpeed : 0|16@1+ (0.25,0) [0|16383.75] "rpm" ECU` and the same with
the unit `"1/min"` differ only in the unit string literal, are both accepted,
and yield the same frame, hence signals with the same unit attribute. -/
theorem parseSigDefInstruction_unit_counterexample :
    (str "rpm" ≠ str "1/min") ∧
    ∃ tk f,
      parseSigDefInstruction ⟨engineSpeedDef.body, none, kw "SG_"⟩ (CANFrame.new "Engine" 100 8)
        = Except.ok (tk, f) ∧
      parseSigDefInstruction
          ⟨({ engineSpeedDef with unit := str "1/min" } : SigDef).body, none, kw "SG_"⟩
          (CANFrame.new "Engine" 100 8)
        = Except.ok (tk, f) ∧
      f.signals.map (fun x => x.name) = ["EngineSpeed"] :=
  ⟨by decide, _, _, rfl, rfl, rfl⟩

/-! ### C16: the namespace section -/

theorem parseNSSection_loop_tokens (ts : List Token) (u : Token) (rest : List Token)
    (hts : ∀ t ∈ ts, t.image ∈ NS_TOKENS) (hu : u.image ∉ NS_TOKENS)
    (fuel : Nat) (hfuel : ts.length < fuel) (t : Token) (c : Token)
    (ht : t.image ∈ NS_TOKENS) :
    parseNSSection_loop fuel t ⟨ts ++ u :: rest, none, c⟩ = (u, ⟨rest, none, u⟩) := by
  induction ts generalizing fuel t c with
  | nil =>
    obtain ⟨fuel, rfl⟩ : ∃ k, fuel = k + 1 := ⟨fuel - 1, by omega⟩
    cases fuel with
    | zero => simp [parseNSSection_loop, ht]
    | succ k => simp [parseNSSection_loop, ht, hu]
  | cons a as ih =>
    obtain ⟨fuel, rfl⟩ : ∃ k, fuel = k + 1 := ⟨fuel - 1, by omega⟩
    have ht2 : NS_TOKENS.contains t.image = true := by simpa using ht
    rw [parseNSSection_loop]
    simp only [ht2, if_true, List.cons_append, Tokenizer.getNextToken_mk_none]
    exact ih (fun q hq => hts q (by simp [hq])) fuel (by simpa using hfuel) a a
      (hts a (by simp))

/-- C16: on `NS_ : t1 ... tk u rest`, where the images of `t1 ... tk` are
namespace sub-tokens and `u` is a token (not end-of-input) whose image is not,
`parseNSSection` returns normally having discarded `NS_`, `:` and `t1 ... tk`,
and the next token read is `u`; if the next token is not `NS_` the stream is
left unchanged; if `NS_` is not followed by `:` a `SyntaxError` is raised. -/
theorem parseNSSection_cases (tk : Tokenizer) :
    (∀ ts u rest, tk.stream = kw "NS_" :: sep ":" :: (ts ++ u :: rest) →
      (∀ t ∈ ts, t.image ∈ NS_TOKENS) → u.image ∉ NS_TOKENS → u.type ≠ TokenType.Eof →
      parseNSSection tk = Except.ok (Tokenizer.rejected (u :: rest))) ∧
    (NextIsNot tk.stream ["NS_"] →
      parseNSSection tk = Except.ok (Tokenizer.rejected tk.stream)) ∧
    (∀ t r, tk.stream = kw "NS_" :: t :: r → t.image ≠ ":" →
      parseNSSection tk = Except.error Exn.SyntaxError) ∧
    (tk.stream = [kw "NS_"] → parseNSSection tk = Except.error Exn.SyntaxError) := by
  refine ⟨?_, ?_, ?_, ?_⟩
  · intro ts u rest h hts hu hue
    cases ts with
    | nil =>
      simp [parseNSSection, NS_SECTION_TOKEN, peek_token_cons _ h, bind, Except.bind,
        parseNSSection_loop, hu, Tokenizer.saveTokenIfNotEof, hue, Tokenizer.rejected]
    | cons a as =>
      have hl := parseNSSection_loop_tokens as u rest (fun q hq => hts q (by simp [hq])) hu
        (Tokenizer.remaining ⟨as ++ u :: rest, none, a⟩ + 1)
        (by simp only [Tokenizer.remaining_mk_none, List.length_append, List.length_cons]; omega)
        a a (hts a (by simp))
      simp only [Tokenizer.remaining_mk_none, List.length_append, List.length_cons] at hl
      simp [parseNSSection, NS_SECTION_TOKEN, peek_token_cons _ h, bind, Except.bind, hl,
        Tokenizer.saveTokenIfNotEof, hue, Tokenizer.rejected]
  · intro hn
    exact parseNSSection_absent tk tk.stream rfl hn
  · intro t r h ht
    simp [parseNSSection, NS_SECTION_TOKEN, peek_token_cons _ h, ht, bind, Except.bind]
  · intro h
    have he : Token.eof.image = "" := rfl
    simp [parseNSSection, NS_SECTION_TOKEN, peek_token_cons _ h, bind, Except.bind, he]

/-- Witness for C16: `NS_ : CM_ BA_ BS_ :`; the section stops at `BS_`. -/
theorem parseNSSection_cases_witness :
    parseNSSection (Tokenizer.ofList [kw "NS_", sep ":", kw "CM_", kw "BA_", kw "BS_", sep ":"])
      = Except.ok (Tokenizer.rejected [kw "BS_", sep ":"]) :=
  (parseNSSection_cases
    (Tokenizer.ofList [kw "NS_", sep ":", kw "CM_", kw "BA_", kw "BS_", sep ":"])).1
    [kw "CM_", kw "BA_"] (kw "BS_") [sep ":"] rfl (by decide) (by decide) (by decide)

/-! ### C20: repeated values in a value description -/

/-- The skip-forward loop consumes a `;`-free run of tokens and the `;` that
follows it. -/
theorem Tokenizer.skipUntilLoop_run (a : List Token) (rest : List Token)
    (ha : ∀ t ∈ a, t.type ≠ TokenType.Eof ∧ t.image ≠ ";")
    (fuel : Nat) (hfuel : a.length < fuel) (c : Token) :
    Tokenizer.skipUntilLoop ";" fuel ⟨a ++ sep ";" :: rest, none, c⟩ =
      ⟨rest, none, sep ";"⟩ := by
  induction a generalizing fuel c with
  | nil =>
    obtain ⟨fuel, rfl⟩ : ∃ k, fuel = k + 1 := ⟨fuel - 1, by omega⟩
    simp [Tokenizer.skipUntilLoop]
  | cons t ts ih =>
    obtain ⟨fuel, rfl⟩ : ∃ k, fuel = k + 1 := ⟨fuel - 1, by omega⟩
    obtain ⟨h1, h2⟩ := ha t (by simp)
    simp only [Tokenizer.skipUntilLoop, List.cons_append, Tokenizer.getNextToken_mk_none, h1, h2,
      or_self, if_false]
    exact ih (fun q hq => ha q (by simp [hq])) fuel (by simpa using hfuel) t

theorem stmtsTokens_length (K : String) (stmts : List (List Token)) :
    stmts.length ≤ (stmtsTokens K stmts).length := by
  induction stmts with
  | nil => simp
  | cons a as ih =>
    simp only [stmtsTokens, List.length_cons, List.length_append]
    omega

theorem mem_stmtsTokens (K : String) (stmts : List (List Token)) (a : List Token)
    (ha : a ∈ stmts) (t : Token) (hta : t ∈ a) : t ∈ stmtsTokens K stmts := by
  induction stmts with
  | nil => simp at ha
  | cons b bs ih =>
    rcases List.mem_cons.mp ha with rfl | ha
    · simp [stmtsTokens, hta]
    · simp [stmtsTokens, ih ha]

/-- The loop of `parseUnsupportedCommandSection` discards the statements
`K a ;` one by one. -/
theorem parseUnsupportedCommandSection_loop_stmts (K : String) (hK : K ≠ "")
    (stmts : List (List Token)) (rest : List Token)
    (hs : ∀ a ∈ stmts, ∀ t ∈ a, t.type ≠ TokenType.Eof ∧ t.image ≠ ";")
    (hrest : NextIsNot rest [K]) (fuel : Nat) (hfuel : stmts.length < fuel) (tk : Tokenizer)
    (h : tk.stream = stmtsTokens K stmts ++ rest) :
    parseUnsupportedCommandSection_loop K fuel tk = Tokenizer.rejected rest := by
  induction stmts generalizing fuel tk with
  | nil =>
    obtain ⟨fuel, rfl⟩ : ∃ k, fuel = k + 1 := ⟨fuel - 1, by omega⟩
    simp only [stmtsTokens, List.nil_append] at h
    have hp := peek_token_image_reject K h hrest (by simp) hK
    simp [parseUnsupportedCommandSection_loop, hp]
  | cons a as ih =>
    obtain ⟨fuel, rfl⟩ : ∃ k, fuel = k + 1 := ⟨fuel - 1, by omega⟩
    simp only [stmtsTokens, List.cons_append, List.append_assoc] at h
    have hsk : Tokenizer.skipUntil ⟨a ++ sep ";" :: (stmtsTokens K as ++ rest), none, kw K⟩ ";"
        = ⟨stmtsTokens K as ++ rest, none, sep ";"⟩ :=
      Tokenizer.skipUntilLoop_run a _ (hs a (by simp)) _
        (by simp only [Tokenizer.remaining_mk_none, List.length_append]; omega) _
    rw [parseUnsupportedCommandSection_loop, peek_token_cons _ h]
    simp only [Token.matchesTarget_image, kw_image, beq_self_eq_true, if_true, hsk]
    exact ih (fun b hb => hs b (by simp [hb])) fuel (by simpa using hfuel) _ rfl

/-- The loop of `parseUnsupportedCommandSection` leaves through its exit test
when it has more fuel than there are tokens: afterwards the next token is not
the keyword, and what is left of the stream is a suffix of the stream
before. -/
theorem parseUnsupportedCommandSection_loop_exits (K : String) (hK : K ≠ "") (fuel : Nat)
    (tk : Tokenizer) (hfuel : tk.stream.length < fuel)
    (hlex : ∀ t ∈ tk.stream, t.type ≠ TokenType.Eof) :
    (peek_token (parseUnsupportedCommandSection_loop K fuel tk) (Target.image K)).1 = false ∧
      (parseUnsupportedCommandSection_loop K fuel tk).stream <:+ tk.stream := by
  have heof := Token.eof_matchesTarget_image K hK
  induction fuel generalizing tk with
  | zero => omega
  | succ fuel ih =>
    rcases hs : tk.stream with _ | ⟨t, r⟩
    · have hp := @peek_token_nil ⟨[], none, Token.eof⟩ (Target.image K) rfl
      simp [parseUnsupportedCommandSection_loop, peek_token_nil _ hs, heof, hp]
    · have ht : t.type ≠ TokenType.Eof := hlex t (by simp [hs])
      rw [parseUnsupportedCommandSection_loop, peek_token_cons _ hs]
      by_cases hm : t.matchesTarget (Target.image K) = true
      · simp only [hm, if_true]
        have hsk := Tokenizer.skipUntil_stream ⟨r, none, t⟩ ";"
        simp only [Tokenizer.stream_mk_none] at hsk
        have := ih (Tokenizer.skipUntil ⟨r, none, t⟩ ";")
          (by
            have := hsk.1.length_le
            simp only [hs, List.length_cons] at hfuel
            omega)
          (fun x hx => hlex x (hs ▸ List.mem_cons_of_mem _ (hsk.1.subset hx)))
        exact ⟨this.1, this.2.trans (hsk.1.trans (List.suffix_cons t r))⟩
      · have hm2 : t.matchesTarget (Target.image K) = false := by simpa using hm
        simp [hm2, ht, List.suffix_refl]

/-- C13: for every keyword `K` (a non-empty lexeme) and every finite token
stream, `parseUnsupportedCommandSection` terminates, that is, its loop leaves
through the exit test with the next token different from `K`, and it cannot
raise an error; on a stream `K a1 ; ... K am ; rest` with `m ≥ 0`, each `ai`
free of `;` and `rest` not starting with `K`, exactly those `m` statements are
discarded and the stream left is `rest` (for `m = 0` the stream is
unchanged). -/
theorem parseUnsupportedCommandSection_skips (K : String) (hK : K ≠ "") (tk : Tokenizer)
    (hlex : ∀ t ∈ tk.stream, t.type ≠ TokenType.Eof) :
    (peek_token (parseUnsupportedCommandSection tk K) (Target.image K)).1 = false ∧
    (parseUnsupportedCommandSection tk K).stream <:+ tk.stream ∧
    (∀ stmts rest, tk.stream = stmtsTokens K stmts ++ rest →
      (∀ a ∈ stmts, ∀ t ∈ a, t.image ≠ ";") → NextIsNot rest [K] →
      parseUnsupportedCommandSection tk K = Tokenizer.rejected rest ∧
      (parseUnsupportedCommandSection tk K).stream = rest) := by
  have h1 := parseUnsupportedCommandSection_loop_exits K hK (tk.remaining + 1) tk
    (Nat.lt_succ_self _) hlex
  refine ⟨h1.1, h1.2, ?_⟩
  intro stmts rest h hs hrest
  have hfuel : stmts.length < tk.remaining + 1 := by
    have := stmtsTokens_length K stmts
    simp only [Tokenizer.remaining, h, List.length_append]
    omega
  have hruns : ∀ a ∈ stmts, ∀ t ∈ a, t.type ≠ TokenType.Eof ∧ t.image ≠ ";" := by
    intro a ha t hta
    exact ⟨hlex t (by rw [h]; exact List.mem_append_left _ (mem_stmtsTokens K stmts a ha t hta)),
      hs a ha t hta⟩
  have key : parseUnsupportedCommandSection tk K = Tokenizer.rejected rest :=
    parseUnsupportedCommandSection_loop_stmts K hK stmts rest hruns hrest _ hfuel tk h
  exact ⟨key, by rw [key, Tokenizer.stream_rejected]⟩

/-- Witness for C13: `EV_ a ; EV_ ; CM_` with the keyword `EV_`. -/
theorem parseUnsupportedCommandSection_skips_witness :
    parseUnsupportedCommandSection
        (Tokenizer.ofList [kw "EV_", kw "a", sep ";", kw "EV_", sep ";", kw "CM_"]) "EV_"
      = Tokenizer.rejected [kw "CM_"] ∧
    (parseUnsupportedCommandSection
        (Tokenizer.ofList [kw "EV_", kw "a", sep ";", kw "EV_", sep ";", kw "CM_"]) "EV_").stream
      = [kw "CM_"] :=
  (parseUnsupportedCommandSection_skips "EV_" (by decide)
    (Tokenizer.ofList [kw "EV_", kw "a", sep ";", kw "EV_", sep ";", kw "CM_"])
    (by decide)).2.2 [[kw "a"], []] [kw "CM_"] rfl (by decide) (by decide)

/-! ### C17: a frame is added only when its block is complete -/

/-- The by-reference loop and the loop that returns the database agree. -/
theorem parseMsgDefSection_loopRef_outcome (fuel : Nat) (tk : Tokenizer) (db : CANDatabase) :
    outcomeOfRef (parseMsgDefSection_loopRef fuel tk db) = parseMsgDefSection_loop fuel tk db := by
  induction fuel generalizing tk db with
  | zero => rfl
  | succ fuel ih =>
    simp only [parseMsgDefSection_loopRef, parseMsgDefSection_loop, parseMsgDefSection_block,
      bind, Except.bind]
    split
    · repeat' split
      all_goals simp_all [outcomeOfRef]
    · rfl

/-- A well-formed block is read completely and gives the frame built from
it. -/
theorem parseMsgDefSection_block_msg (m : MsgDef) (rest : List Token) (hw : m.WellFormed)
    (hr1 : NextIsNot rest [","]) (hr2 : NextIsNot rest ["SG_"]) (c : Token) :
    parseMsgDefSection_block
        ⟨m.id :: m.name :: sep ":" :: m.dlc :: m.ecu :: (sigsTokens m.sigs ++ rest), none, c⟩
      = Except.ok (Tokenizer.rejected rest, m.built) := by
  obtain ⟨w1, w2, w3, w4, w5⟩ := hw
  have m1 := Token.matchesTarget_type w1
  have m2 := Token.matchesTarget_type w2
  have m3 := Token.matchesTarget_type w3
  have m4 := Token.matchesTarget_type w4
  have c1 : ∀ a : String, (sep a).matchesTarget (Target.image a) = true := by
    intro a
    simp
  have hs := parseMsgDefSection_sigLoop_sigs m.sigs rest w5 hr1 hr2
    (Tokenizer.remaining ⟨sigsTokens m.sigs ++ rest, none, m.ecu⟩ + 1)
    (by
      have := sigsTokens_length m.sigs
      simp only [Tokenizer.remaining_mk_none, List.length_append]
      omega)
    ⟨sigsTokens m.sigs ++ rest, none, m.ecu⟩
    (CANFrame.new m.name.image m.id.toUInt m.dlc.toUInt) rfl
  simp only [parseMsgDefSection_block, bind, Except.bind]
  simp only [assert_token_mk_none, m1, m2, m3, m4, c1, if_true]
  rw [hs]
  rfl

/-- The by-reference loop on complete blocks followed by a block that fails:
the database at the failure holds the frames of the complete blocks only. -/
theorem parseMsgDefSection_loopRef_fails (ms : List MsgDef) (tail : List Token) (e : Exn)
    (hw : ∀ m ∈ ms, m.WellFormed)
    (hfail : parseMsgDefSection_block ⟨tail, none, kw "BO_"⟩ = Except.error e)
    (fuel : Nat) (hfuel : ms.length < fuel) (tk : Tokenizer) (db : CANDatabase)
    (h : tk.stream = msgsTokens ms ++ kw "BO_" :: tail)
    (hids : (ms.map (fun m => m.id.toUInt)).Nodup)
    (hdb : ∀ m ∈ ms, db.contains m.id.toUInt = false) :
    parseMsgDefSection_loopRef fuel tk db =
      ({ db with frames := db.frames ++ ms.map MsgDef.built }, Except.error e) := by
  induction ms generalizing fuel tk db with
  | nil =>
    obtain ⟨fuel, rfl⟩ : ∃ n, fuel = n + 1 := ⟨fuel - 1, by omega⟩
    simp only [msgsTokens, List.nil_append] at h
    rw [parseMsgDefSection_loopRef, peek_token_cons _ h]
    simp [MESSAGE_DEF_TOKEN, hfail]
  | cons m ms ih =>
    obtain ⟨fuel, rfl⟩ : ∃ n, fuel = n + 1 := ⟨fuel - 1, by omega⟩
    simp only [msgsTokens, MsgDef.tokens, List.cons_append, List.append_assoc] at h
    have hnext : ∀ images : List String, "BO_" ∉ images →
        NextIsNot (msgsTokens ms ++ kw "BO_" :: tail) images := by
      intro images hbo
      cases ms with
      | nil => simpa [msgsTokens, NextIsNot] using hbo
      | cons m2 ms2 => simpa [msgsTokens, MsgDef.tokens, NextIsNot] using hbo
    have hb := parseMsgDefSection_block_msg m (msgsTokens ms ++ kw "BO_" :: tail)
      (hw m (by simp)) (hnext _ (by decide)) (hnext _ (by decide)) (kw "BO_")
    have hadd : db.addFrame m.built =
        Except.ok ({ db with frames := db.frames ++ [m.built] } : CANDatabase) := by
      have := hdb m (by simp)
      simp [CANDatabase.addFrame, MsgDef.built_can_id, this]
    simp only [List.map_cons, List.nodup_cons, List.mem_map, not_exists, not_and] at hids
    rw [parseMsgDefSection_loopRef, peek_token_cons _ h]
    simp only [Token.matchesTarget_image, kw_image, MESSAGE_DEF_TOKEN, beq_self_eq_true, if_true,
      hb, hadd]
    rw [ih (fun q hq => hw q (by simp [hq])) fuel (by simpa using hfuel) _ _
      (Tokenizer.stream_rejected _) hids.2]
    · simp
    · intro q hq
      rw [CANDatabase.contains_append, hdb q (by simp [hq])]
      simpa [MsgDef.built_can_id] using fun he => hids.1 q hq he.symm

/-- C17: a frame is added to the database only after all of its signals are
parsed.  When the stream holds well-formed message blocks (pairwise distinct
ids, not in the database yet) followed by a block `BO_ ...` whose header or
signal productions raise a `SyntaxError`, `parseMsgDefSection` raises that
error, and the database at the point of failure consists of the database
before and the frames of the blocks completed before the failing block, each
built from all the productions of its block; it holds no frame for the
failing block. -/
theorem parseMsgDefSection_failure_keeps_completed_frames (ms : List MsgDef)
    (tail : List Token) (tk : Tokenizer) (db : CANDatabase)
    (h : tk.stream = msgsTokens ms ++ kw "BO_" :: tail)
    (hw : ∀ m ∈ ms, m.WellFormed) (hids : (ms.map (fun m => m.id.toUInt)).Nodup)
    (hdb : ∀ m ∈ ms, db.contains m.id.toUInt = false)
    (hfail : parseMsgDefSection_block ⟨tail, none, kw "BO_"⟩ = Except.error Exn.SyntaxError) :
    parseMsgDefSection tk db = Except.error Exn.SyntaxError ∧
    parseMsgDefSection_ref tk db =
      ({ db with frames := db.frames ++ ms.map MsgDef.built }, Except.error Exn.SyntaxError) ∧
    ∀ m ∈ ms, (m.sigs.map (fun s => s.name.image)).Nodup →
      m.built.signals = m.sigs.map SigDef.signal := by
  have hfuel : ms.length < tk.remaining + 1 := by
    have := msgsTokens_length ms
    simp only [Tokenizer.remaining, h, List.length_append]
    omega
  have key := parseMsgDefSection_loopRef_fails ms tail Exn.SyntaxError hw hfail _ hfuel tk db h
    hids hdb
  refine ⟨?_, key, ?_⟩
  · have := parseMsgDefSection_loopRef_outcome (tk.remaining + 1) tk db
    rw [key] at this
    exact this.symm
  · intro m _ hn
    rw [MsgDef.built_eq_frame m hn]
    rfl

/-- Witness for C17: the complete block 100 followed by a block 200 that
breaks off inside its first signal production. -/
theorem parseMsgDefSection_failure_keeps_completed_frames_witness :
    parseMsgDefSection (Tokenizer.ofList (msgsTokens [engineMsg] ++ kw "BO_" :: brokenBlockTokens))
        (CANDatabase.new "") = Except.error Exn.SyntaxError ∧
    parseMsgDefSection_ref
        (Tokenizer.ofList (msgsTokens [engineMsg] ++ kw "BO_" :: brokenBlockTokens))
        (CANDatabase.new "") =
      ({ name := "", frames := [engineMsg.frame] }, Except.error Exn.SyntaxError) ∧
    ∀ m ∈ [engineMsg], (m.sigs.map (fun s => s.name.image)).Nodup →
      m.built.signals = m.sigs.map SigDef.signal :=
  parseMsgDefSection_failure_keeps_completed_frames [engineMsg] brokenBlockTokens
    (Tokenizer.ofList (msgsTokens [engineMsg] ++ kw "BO_" :: brokenBlockTokens))
    (CANDatabase.new "") rfl (by decide) (by decide) (by decide) rfl

/-! ### C18, C19: the sections after the message definitions -/

theorem outcomeOfRef_error (db : CANDatabase) (e : Exn) :
    outcomeOfRef (db, Except.error e) = Except.error e := rfl

theorem parseCommentSection_loopRef_outcome (fuel : Nat) (tk : Tokenizer) (db : CANDatabase) :
    outcomeOfRef (parseCommentSection_loopRef fuel tk db) =
      parseCommentSection_loop fuel tk db := by
  induction fuel generalizing tk db with
  | zero => rfl
  | succ fuel ih =>
    simp only [parseCommentSection_loopRef, parseCommentSection_loop, bind, Except.bind]
    rcases hp : peek_token tk (Target.image COMMENT_TOKEN) with ⟨_ | _, tk1⟩
    · rfl
    simp only [if_true]
    rcases hq : peek_token tk1 (Target.type TokenType.StringLiteral) with ⟨_ | _, tk2⟩
    · simp only [Bool.false_eq_true, if_false]
      rcases hx : assert_token tk2 (Target.type TokenType.Identifier) with e | ⟨ty, tk3⟩
      · rfl
      simp only []
      by_cases h1 : ty.matchesTarget (Target.image MESSAGE_DEF_TOKEN) = true
      · simp only [h1, if_true]
        rcases hy : parseMsgCommentInstruction tk3 db with e | ⟨tk4, db4⟩
        · rfl
        · exact ih tk4 db4
      · simp only [h1, if_false]
        by_cases h2 : ty.matchesTarget (Target.image SIG_DEF_TOKEN) = true
        · simp only [h2, if_true]
          rcases hy : parseSigCommentInstruction tk3 db with e | ⟨tk4, db4⟩
          · rfl
          · exact ih tk4 db4
        · simp only [h2, if_false]
          exact ih _ db
    · simp only [if_true]
      rcases hx : assert_token tk2 (Target.image ";") with e | ⟨ty, tk3⟩
      · rfl
      · exact ih tk3 db

theorem parseAttrValSection_loopRef_outcome (fuel : Nat) (tk : Tokenizer) (db : CANDatabase) :
    outcomeOfRef (parseAttrValSection_loopRef fuel tk db) =
      parseAttrValSection_loop fuel tk db := by
  induction fuel generalizing tk db with
  | zero => rfl
  | succ fuel ih =>
    simp only [parseAttrValSection_loopRef, parseAttrValSection_loop, bind, Except.bind]
    rcases hp : peek_token tk (Target.image ATTR_VAL_TOKEN) with ⟨_ | _, tk1⟩
    · rfl
    simp only [if_true]
    rcases hx : assert_token tk1 (Target.type TokenType.StringLiteral) with e | ⟨ty, tk2⟩
    · rfl
    simp only []
    split
    · exact ih _ db
    rcases hx1 : assert_token tk2 (Target.image "BO_") with e | ⟨t3, tk3⟩
    · rfl
    simp only []
    rcases hx2 : assert_token tk3 (Target.type TokenType.PositiveNumber) with e | ⟨t4, tk4⟩
    · rfl
    simp only []
    rcases hx3 : assert_token tk4 (Target.type TokenType.PositiveNumber) with e | ⟨t5, tk5⟩
    · rfl
    simp only []
    rcases hx4 : assert_token tk5 (Target.image ";") with e | ⟨t6, tk6⟩
    · rfl
    simp only []
    rcases hy : db.at_ t4.toUInt with e | f
    · cases e
      · rfl
      · rfl
      · exact ih tk6 db
      · rfl
    · exact ih tk6 _

theorem parseValDescSection_loopRef_outcome (fuel : Nat) (tk : Tokenizer) (db : CANDatabase) :
    outcomeOfRef (parseValDescSection_loopRef fuel tk db) =
      parseValDescSection_loop fuel tk db := by
  induction fuel generalizing tk db with
  | zero => rfl
  | succ fuel ih =>
    simp only [parseValDescSection_loopRef, parseValDescSection_loop, bind, Except.bind]
    rcases hp : peek_token tk (Target.image SIG_VAL_DEF_TOKEN) with ⟨_ | _, tk1⟩
    · rfl
    simp only [if_true]
    rcases hx : assert_token tk1 (Target.type TokenType.PositiveNumber) with e | ⟨t2, tk2⟩
    · rfl
    simp only []
    rcases hx1 : assert_token tk2 (Target.type TokenType.Identifier) with e | ⟨t3, tk3⟩
    · rfl
    simp only []
    rcases hx2 : parseValDescSection_pairLoop (tk3.remaining + 1) tk3 [] with e | ⟨tk4, ch⟩
    · rfl
    simp only []
    split
    · exact ih tk4 db
    rcases hy : db.at_ t2.toUInt with e | f
    · rfl
    simp only []
    split
    · exact ih tk4 db
    · exact ih tk4 _

theorem Tokenizer.getNextToken_remaining (tk : Tokenizer) :
    tk.getNextToken.2.remaining ≤ tk.remaining := by
  rcases hs : tk.stream with _ | ⟨t, r⟩
  · simp [Tokenizer.getNextToken_nil hs, Tokenizer.remaining]
  · simp [Tokenizer.getNextToken_cons hs, Tokenizer.remaining, hs]

theorem assert_token_error {tk : Tokenizer} {target : Target} {e : Exn}
    (h : assert_token tk target = Except.error e) : e = Exn.SyntaxError := by
  unfold assert_token at h
  by_cases hm : tk.getNextToken.1.matchesTarget target = true
  · simp [hm] at h
  · simp only [hm, if_false] at h
    cases h
    rfl

theorem assert_token_remaining {tk : Tokenizer} {target : Target} {r : Token × Tokenizer}
    (h : assert_token tk target = Except.ok r) : r.2.remaining ≤ tk.remaining := by
  rw [assert_token_eq_ok] at h
  rw [h.1]
  exact Tokenizer.getNextToken_remaining tk

/-- A successful `assert_token` for a kind other than end-of-input consumes a
token of the stream. -/
theorem assert_token_type_lt {tk : Tokenizer} {ty : TokenType} {r : Token × Tokenizer}
    (h : assert_token tk (Target.type ty) = Except.ok r) (hty : ty ≠ TokenType.Eof) :
    r.2.remaining < tk.remaining := by
  rw [assert_token_eq_ok] at h
  obtain ⟨h1, h2⟩ := h
  rcases hs : tk.stream with _ | ⟨t, rest⟩
  · rw [Tokenizer.getNextToken_nil hs] at h2
    exfalso
    cases ty <;> first | exact hty rfl | cases h2
  · rw [h1, Tokenizer.getNextToken_cons hs]
    simp [Tokenizer.remaining, hs]

theorem peek_token_remaining (tk : Tokenizer) (target : Target) :
    (peek_token tk target).2.remaining ≤ tk.remaining := by
  rcases hs : tk.stream with _ | ⟨t, r⟩
  · rw [peek_token_nil _ hs]
    split <;> simp [Tokenizer.remaining]
  · rw [peek_token_cons _ hs]
    split
    · simp [Tokenizer.remaining, hs]
    · split <;> simp [Tokenizer.remaining, hs]

/-- A lookahead for a non-empty lexeme that succeeds consumes a token of the
stream. -/
theorem peek_token_image_true_lt {tk : Tokenizer} {s : String} (hs : s ≠ "")
    (h : (peek_token tk (Target.image s)).1 = true) :
    (peek_token tk (Target.image s)).2.remaining < tk.remaining := by
  rcases hst : tk.stream with _ | ⟨t, r⟩
  · rw [peek_token_nil _ hst, Token.eof_matchesTarget_image s hs] at h
    simp at h
  · rw [peek_token_cons _ hst] at h ⊢
    split
    · simp [Tokenizer.remaining, hst]
    · rename_i hm
      simp [hm] at h

theorem Tokenizer.skipUntil_remaining (tk : Tokenizer) (token : String) :
    (tk.skipUntil token).remaining ≤ tk.remaining :=
  (Tokenizer.skipUntil_stream tk token).1.length_le

theorem modifyFirst_map_eq {α β : Type} (p : α → Bool) (g : α → α) (h : α → β)
    (hg : ∀ x, h (g x) = h x) (l : List α) : (modifyFirst p g l).map h = l.map h := by
  induction l with
  | nil => rfl
  | cons a l ih =>
    unfold modifyFirst
    split
    · simp [hg]
    · simp [ih]

theorem CANFrame.modifySignal_skeleton (f : CANFrame) (name : String)
    (g : CANSignal → CANSignal) (hg : ∀ s, (g s).skeleton = s.skeleton) :
    (f.modifySignal name g).skeleton = f.skeleton := by
  simp [CANFrame.modifySignal, CANFrame.skeleton, modifyFirst_map_eq _ g _ hg]

theorem CANDatabase.modifyFrame_skeleton (db : CANDatabase) (id : Nat)
    (g : CANFrame → CANFrame) (hg : ∀ f, (g f).skeleton = f.skeleton) :
    (db.modifyFrame id g).skeleton = db.skeleton := by
  simp [CANDatabase.modifyFrame, CANDatabase.skeleton, modifyFirst_map_eq _ g _ hg]

theorem parseMsgCommentInstruction_spec (tk : Tokenizer) :
    InstructionSpec parseMsgCommentInstruction tk := by
  unfold InstructionSpec
  rcases h1 : assert_token tk (Target.type TokenType.PositiveNumber) with e | ⟨t1, tk1⟩
  · left
    intro db
    simp [parseMsgCommentInstruction, h1, assert_token_error h1, bind, Except.bind]
  rcases h2 : assert_token tk1 (Target.type TokenType.StringLiteral) with e | ⟨t2, tk2⟩
  · left
    intro db
    simp [parseMsgCommentInstruction, h1, h2, assert_token_error h2, bind, Except.bind]
  rcases h3 : assert_token tk2 (Target.image ";") with e | ⟨t3, tk3⟩
  · left
    intro db
    simp [parseMsgCommentInstruction, h1, h2, h3, assert_token_error h3, bind, Except.bind]
  right
  refine ⟨tk3, ?_, ?_⟩
  · have := assert_token_remaining h1
    have := assert_token_remaining h2
    have := assert_token_remaining h3
    simp only at *
    omega
  · intro db
    by_cases hc : db.contains t1.toUInt = true
    · obtain ⟨f, hf, -⟩ := CANDatabase.at_of_contains hc
      refine ⟨db.modifyFrame t1.toUInt (fun f => f.setComment t2.image),
        by simp [parseMsgCommentInstruction, h1, h2, h3, hc, hf, bind, Except.bind], ?_⟩
      exact CANDatabase.modifyFrame_skeleton _ _ _ (fun _ => rfl)
    · exact ⟨db, by simp [parseMsgCommentInstruction, h1, h2, h3, hc, bind, Except.bind], rfl⟩

theorem parseSigCommentInstruction_spec (tk : Tokenizer) :
    InstructionSpec parseSigCommentInstruction tk := by
  unfold InstructionSpec
  rcases h1 : assert_token tk (Target.type TokenType.PositiveNumber) with e | ⟨t1, tk1⟩
  · left
    intro db
    simp [parseSigCommentInstruction, h1, assert_token_error h1, bind, Except.bind]
  rcases h2 : assert_token tk1 (Target.type TokenType.Identifier) with e | ⟨t2, tk2⟩
  · left
    intro db
    simp [parseSigCommentInstruction, h1, h2, assert_token_error h2, bind, Except.bind]
  rcases h3 : assert_token tk2 (Target.type TokenType.StringLiteral) with e | ⟨t3, tk3⟩
  · left
    intro db
    simp [parseSigCommentInstruction, h1, h2, h3, assert_token_error h3, bind, Except.bind]
  rcases h4 : assert_token tk3 (Target.image ";") with e | ⟨t4, tk4⟩
  · left
    intro db
    simp [parseSigCommentInstruction, h1, h2, h3, h4, assert_token_error h4, bind, Except.bind]
  right
  refine ⟨tk4, ?_, ?_⟩
  · have := assert_token_remaining h1
    have := assert_token_remaining h2
    have := assert_token_remaining h3
    have := assert_token_remaining h4
    simp only at *
    omega
  · intro db
    by_cases hc : db.contains t1.toUInt = true
    · obtain ⟨f, hf, -⟩ := CANDatabase.at_of_contains hc
      by_cases hs : f.contains t2.image = true
      · refine ⟨db.modifyFrame t1.toUInt (fun f =>
            f.modifySignal t2.image (fun s => s.setComment t3.image)),
          by simp [parseSigCommentInstruction, h1, h2, h3, h4, hc, hf, hs, bind, Except.bind],
          ?_⟩
        exact CANDatabase.modifyFrame_skeleton _ _ _
          (fun f => CANFrame.modifySignal_skeleton f _ _ (fun _ => rfl))
      · exact ⟨db, by simp [parseSigCommentInstruction, h1, h2, h3, h4, hc, hf, hs, bind,
          Except.bind], rfl⟩
    · exact ⟨db, by simp [parseSigCommentInstruction, h1, h2, h3, h4, hc, bind, Except.bind],
        rfl⟩

theorem parseCommentSection_loopRef_spec (fuel : Nat) (tk : Tokenizer)
    (h : tk.remaining < fuel) : SectionSpec (parseCommentSection_loopRef fuel) tk := by
  induction fuel generalizing tk with
  | zero => omega
  | succ fuel ih =>
    unfold SectionSpec
    have hsyn : ∀ e, (Except.error Exn.SyntaxError : Except Exn Tokenizer) = Except.error e →
        e = Exn.SyntaxError := fun e he => by cases he; rfl
    rcases hp : peek_token tk (Target.image COMMENT_TOKEN) with ⟨_ | _, tk1⟩
    · exact ⟨Except.ok tk1, (fun e he => by cases he),
        fun db => by simp [parseCommentSection_loopRef, hp]⟩
    have hlt : tk1.remaining < tk.remaining := by
      have := @peek_token_image_true_lt tk COMMENT_TOKEN (by decide)
        (by rw [hp])
      rwa [hp] at this
    rcases hq : peek_token tk1 (Target.type TokenType.StringLiteral) with ⟨_ | _, tk2⟩
    all_goals
      have hle : tk2.remaining ≤ tk1.remaining := by
        have := peek_token_remaining tk1 (Target.type TokenType.StringLiteral)
        rwa [hq] at this
    · rcases hx : assert_token tk2 (Target.type TokenType.Identifier) with e | ⟨ty, tk3⟩
      · exact ⟨Except.error Exn.SyntaxError, hsyn,
          fun db => by simp [parseCommentSection_loopRef, hp, hq, hx, assert_token_error hx]⟩
      have hle3 : tk3.remaining ≤ tk2.remaining := assert_token_remaining hx
      by_cases h1 : ty.matchesTarget (Target.image MESSAGE_DEF_TOKEN) = true
      · rcases parseMsgCommentInstruction_spec tk3 with hi | ⟨tk4, hle4, hi⟩
        · exact ⟨Except.error Exn.SyntaxError, hsyn,
            fun db => by simp [parseCommentSection_loopRef, hp, hq, hx, h1, hi db]⟩
        · obtain ⟨out, ho, hall⟩ := ih tk4 (by omega)
          refine ⟨out, ho, fun db => ?_⟩
          obtain ⟨db2, hdb2, hsk⟩ := hi db
          have := hall db2
          simp only [parseCommentSection_loopRef, hp, hq, hx, h1, hdb2, if_true,
            Bool.false_eq_true, if_false]
          exact ⟨this.1, this.2.trans hsk⟩
      · by_cases h2 : ty.matchesTarget (Target.image SIG_DEF_TOKEN) = true
        · rcases parseSigCommentInstruction_spec tk3 with hi | ⟨tk4, hle4, hi⟩
          · exact ⟨Except.error Exn.SyntaxError, hsyn,
              fun db => by simp [parseCommentSection_loopRef, hp, hq, hx, h1, h2, hi db]⟩
          · obtain ⟨out, ho, hall⟩ := ih tk4 (by omega)
            refine ⟨out, ho, fun db => ?_⟩
            obtain ⟨db2, hdb2, hsk⟩ := hi db
            have := hall db2
            simp only [parseCommentSection_loopRef, hp, hq, hx, h1, h2, hdb2, if_true,
              Bool.false_eq_true, if_false]
            exact ⟨this.1, this.2.trans hsk⟩
        · have hsk := Tokenizer.skipUntil_remaining tk3 ";"
          obtain ⟨out, ho, hall⟩ := ih (tk3.skipUntil ";") (by omega)
          refine ⟨out, ho, fun db => ?_⟩
          simp only [parseCommentSection_loopRef, hp, hq, hx, h1, h2, if_true,
            Bool.false_eq_true, if_false]
          exact hall db
    · rcases hx : assert_token tk2 (Target.image ";") with e | ⟨ty, tk3⟩
      · exact ⟨Except.error Exn.SyntaxError, hsyn,
          fun db => by simp [parseCommentSection_loopRef, hp, hq, hx, assert_token_error hx]⟩
      have hle3 : tk3.remaining ≤ tk2.remaining := assert_token_remaining hx
      obtain ⟨out, ho, hall⟩ := ih tk3 (by omega)
      refine ⟨out, ho, fun db => ?_⟩
      simp only [parseCommentSection_loopRef, hp, hq, hx, if_true]
      exact hall db

theorem parseAttrValSection_loopRef_spec (fuel : Nat) (tk : Tokenizer)
    (h : tk.remaining < fuel) : SectionSpec (parseAttrValSection_loopRef fuel) tk := by
  induction fuel generalizing tk with
  | zero => omega
  | succ fuel ih =>
    unfold SectionSpec
    have hsyn : ∀ e, (Except.error Exn.SyntaxError : Except Exn Tokenizer) = Except.error e →
        e = Exn.SyntaxError := fun e he => by cases he; rfl
    rcases hp : peek_token tk (Target.image ATTR_VAL_TOKEN) with ⟨_ | _, tk1⟩
    · exact ⟨Except.ok tk1, (fun e he => by cases he),
        fun db => by simp [parseAttrValSection_loopRef, hp]⟩
    have hlt : tk1.remaining < tk.remaining := by
      have := @peek_token_image_true_lt tk ATTR_VAL_TOKEN (by decide)
        (by rw [hp])
      rwa [hp] at this
    rcases hx : assert_token tk1 (Target.type TokenType.StringLiteral) with e | ⟨ty, tk2⟩
    · exact ⟨Except.error Exn.SyntaxError, hsyn,
        fun db => by simp [parseAttrValSection_loopRef, hp, hx, assert_token_error hx]⟩
    have hle2 : tk2.remaining ≤ tk1.remaining := assert_token_remaining hx
    by_cases hu : (!ty.matchesTarget (Target.image "GenMsgCycleTime") &&
        !ty.matchesTarget (Target.image "CycleTime")) = true
    · have hsk := Tokenizer.skipUntil_remaining tk2 ";"
      obtain ⟨out, ho, hall⟩ := ih (tk2.skipUntil ";") (by omega)
      refine ⟨out, ho, fun db => ?_⟩
      simp only [parseAttrValSection_loopRef, hp, hx, hu, if_true]
      exact hall db
    rcases hx1 : assert_token tk2 (Target.image "BO_") with e | ⟨t3, tk3⟩
    · obtain rfl := assert_token_error hx1
      refine ⟨Except.error Exn.SyntaxError, hsyn, fun db => ?_⟩
      simp only [parseAttrValSection_loopRef, hp, hx, hu, hx1, if_true, if_false]
      exact ⟨rfl, rfl⟩
    rcases hx2 : assert_token tk3 (Target.type TokenType.PositiveNumber) with e | ⟨t4, tk4⟩
    · obtain rfl := assert_token_error hx2
      refine ⟨Except.error Exn.SyntaxError, hsyn, fun db => ?_⟩
      simp only [parseAttrValSection_loopRef, hp, hx, hu, hx1, hx2, if_true, if_false]
      exact ⟨rfl, rfl⟩
    rcases hx3 : assert_token tk4 (Target.type TokenType.PositiveNumber) with e | ⟨t5, tk5⟩
    · obtain rfl := assert_token_error hx3
      refine ⟨Except.error Exn.SyntaxError, hsyn, fun db => ?_⟩
      simp only [parseAttrValSection_loopRef, hp, hx, hu, hx1, hx2, hx3, if_true, if_false]
      exact ⟨rfl, rfl⟩
    rcases hx4 : assert_token tk5 (Target.image ";") with e | ⟨t6, tk6⟩
    · obtain rfl := assert_token_error hx4
      refine ⟨Except.error Exn.SyntaxError, hsyn, fun db => ?_⟩
      simp only [parseAttrValSection_loopRef, hp, hx, hu, hx1, hx2, hx3, hx4, if_true, if_false]
      exact ⟨rfl, rfl⟩
    have hle3 : tk3.remaining ≤ tk2.remaining := assert_token_remaining hx1
    have hle4 : tk4.remaining ≤ tk3.remaining := assert_token_remaining hx2
    have hle5 : tk5.remaining ≤ tk4.remaining := assert_token_remaining hx3
    have hle6 : tk6.remaining ≤ tk5.remaining := assert_token_remaining hx4
    obtain ⟨out, ho, hall⟩ := ih tk6 (by omega)
    refine ⟨out, ho, fun db => ?_⟩
    by_cases hc : db.contains t4.toUInt = true
    · obtain ⟨f, hf, -⟩ := CANDatabase.at_of_contains hc
      have := hall (db.modifyFrame t4.toUInt (fun f => f.setPeriod t5.toUInt))
      simp only [parseAttrValSection_loopRef, hp, hx, hu, hx1, hx2, hx3, hx4, hf, if_true,
        Bool.false_eq_true, if_false]
      exact ⟨this.1, this.2.trans (CANDatabase.modifyFrame_skeleton _ _ _ (fun _ => rfl))⟩
    · have hf := CANDatabase.at_of_not_contains (by simpa using hc : db.contains t4.toUInt = false)
      simp only [parseAttrValSection_loopRef, hp, hx, hu, hx1, hx2, hx3, hx4, hf, if_true,
        Bool.false_eq_true, if_false]
      exact hall db

/-- With more fuel than tokens the pair loop raises a `SyntaxError` or
returns, and it never gives tokens back. -/
theorem parseValDescSection_pairLoop_spec (fuel : Nat) (tk : Tokenizer)
    (h : tk.remaining < fuel) (acc : List (Nat × String)) :
    parseValDescSection_pairLoop fuel tk acc = Except.error Exn.SyntaxError ∨
    ∃ tk2 ch, parseValDescSection_pairLoop fuel tk acc = Except.ok (tk2, ch) ∧
      tk2.remaining ≤ tk.remaining := by
  induction fuel generalizing tk acc with
  | zero => omega
  | succ fuel ih =>
    rcases hp : peek_token tk (Target.image ";") with ⟨_ | _, tk1⟩
    all_goals
      have hle : tk1.remaining ≤ tk.remaining := by
        have := peek_token_remaining tk (Target.image ";")
        rwa [hp] at this
    · rcases hx : assert_token tk1 (Target.type TokenType.Number) with e | ⟨v, tk2⟩
      · left
        simp [parseValDescSection_pairLoop, hp, hx, assert_token_error hx, bind, Except.bind]
      have hlt : tk2.remaining < tk1.remaining := assert_token_type_lt hx (by decide)
      rcases hx1 : assert_token tk2 (Target.type TokenType.StringLiteral) with e | ⟨d, tk3⟩
      · left
        simp [parseValDescSection_pairLoop, hp, hx, hx1, assert_token_error hx1, bind,
          Except.bind]
      have hle3 : tk3.remaining ≤ tk2.remaining := assert_token_remaining hx1
      rcases ih tk3 (by omega) (choicesInsert acc v.toUInt d.image) with hr | ⟨tk4, ch, hr, hle4⟩
      · left
        simp [parseValDescSection_pairLoop, hp, hx, hx1, hr, bind, Except.bind]
      · right
        exact ⟨tk4, ch, by simp [parseValDescSection_pairLoop, hp, hx, hx1, hr, bind,
          Except.bind], by omega⟩
    · right
      exact ⟨tk1, acc, by simp [parseValDescSection_pairLoop, hp], hle⟩

theorem parseValDescSection_loopRef_spec (fuel : Nat) (tk : Tokenizer)
    (h : tk.remaining < fuel) : SectionSpec (parseValDescSection_loopRef fuel) tk := by
  induction fuel generalizing tk with
  | zero => omega
  | succ fuel ih =>
    unfold SectionSpec
    have hsyn : ∀ e, (Except.error Exn.SyntaxError : Except Exn Tokenizer) = Except.error e →
        e = Exn.SyntaxError := fun e he => by cases he; rfl
    rcases hp : peek_token tk (Target.image SIG_VAL_DEF_TOKEN) with ⟨_ | _, tk1⟩
    · exact ⟨Except.ok tk1, (fun e he => by cases he),
        fun db => by simp [parseValDescSection_loopRef, hp]⟩
    have hlt : tk1.remaining < tk.remaining := by
      have := @peek_token_image_true_lt tk SIG_VAL_DEF_TOKEN (by decide)
        (by rw [hp])
      rwa [hp] at this
    rcases hx : assert_token tk1 (Target.type TokenType.PositiveNumber) with e | ⟨t2, tk2⟩
    · exact ⟨Except.error Exn.SyntaxError, hsyn,
        fun db => by simp [parseValDescSection_loopRef, hp, hx, assert_token_error hx]⟩
    rcases hx1 : assert_token tk2 (Target.type TokenType.Identifier) with e | ⟨t3, tk3⟩
    · exact ⟨Except.error Exn.SyntaxError, hsyn,
        fun db => by simp [parseValDescSection_loopRef, hp, hx, hx1, assert_token_error hx1]⟩
    have hle2 : tk2.remaining ≤ tk1.remaining := assert_token_remaining hx
    have hle3 : tk3.remaining ≤ tk2.remaining := assert_token_remaining hx1
    rcases parseValDescSection_pairLoop_spec (tk3.remaining + 1) tk3 (Nat.lt_succ_self _) []
      with hr | ⟨tk4, ch, hr, hle4⟩
    · exact ⟨Except.error Exn.SyntaxError, hsyn,
        fun db => by simp [parseValDescSection_loopRef, hp, hx, hx1, hr]⟩
    obtain ⟨out, ho, hall⟩ := ih tk4 (by omega)
    refine ⟨out, ho, fun db => ?_⟩
    by_cases hc : db.contains t2.toUInt = true
    · obtain ⟨f, hf, -⟩ := CANDatabase.at_of_contains hc
      by_cases hs : f.contains t3.image = true
      · have := hall (db.modifyFrame t2.toUInt (fun f =>
          f.modifySignal t3.image (fun s => s.setChoices ch)))
        simp only [parseValDescSection_loopRef, hp, hx, hx1, hr, hc, hf, hs, if_true,
          Bool.not_true, Bool.false_eq_true, if_false]
        exact ⟨this.1, this.2.trans (CANDatabase.modifyFrame_skeleton _ _ _
          (fun f => CANFrame.modifySignal_skeleton f _ _ (fun _ => rfl)))⟩
      · simp only [parseValDescSection_loopRef, hp, hx, hx1, hr, hc, hf, hs, if_true,
          Bool.not_true, Bool.false_eq_true, if_false, Bool.not_false]
        exact hall db
    · simp only [parseValDescSection_loopRef, hp, hx, hx1, hr, hc, if_true, Bool.not_false]
      exact hall db

theorem outcomeOfRef_eq_ok {r : CANDatabase × Except Exn Tokenizer} {tk : Tokenizer}
    {db : CANDatabase} (h : outcomeOfRef r = Except.ok (tk, db)) :
    r.2 = Except.ok tk ∧ r.1 = db := by
  obtain ⟨d, o⟩ := r
  cases o with
  | error e => cases h
  | ok t =>
    simp only [outcomeOfRef, Except.ok.injEq, Prod.mk.injEq] at h
    exact ⟨by rw [h.1], h.2⟩

/-- A section that meets `SectionSpec` behaves the same on any two databases
as far as tokens and failure are concerned. -/
theorem SectionSpec.independent
    {run : Tokenizer → CANDatabase → CANDatabase × Except Exn Tokenizer}
    {f : Tokenizer → CANDatabase → Except Exn (Tokenizer × CANDatabase)} {tk : Tokenizer}
    (hspec : SectionSpec run tk) (hag : ∀ db, outcomeOfRef (run tk db) = f tk db)
    (d1 d2 : CANDatabase) :
    (f tk d1 = Except.error Exn.SyntaxError ∧ f tk d2 = Except.error Exn.SyntaxError) ∨
    ∃ tk2 e1 e2, f tk d1 = Except.ok (tk2, e1) ∧ f tk d2 = Except.ok (tk2, e2) := by
  obtain ⟨out, ho, hall⟩ := hspec
  have h1 := hag d1
  have h2 := hag d2
  cases out with
  | error e =>
    obtain rfl := ho e rfl
    left
    rw [← h1, ← h2]
    simp [outcomeOfRef, (hall d1).1, (hall d2).1]
  | ok t =>
    right
    refine ⟨t, (run tk d1).1, (run tk d2).1, ?_, ?_⟩
    · rw [← h1]
      simp [outcomeOfRef, (hall d1).1]
    · rw [← h2]
      simp [outcomeOfRef, (hall d2).1]

/-- A section that meets `SectionSpec` returns a database with the skeleton
of the database it was given. -/
theorem SectionSpec.skeleton_of_ok
    {run : Tokenizer → CANDatabase → CANDatabase × Except Exn Tokenizer}
    {f : Tokenizer → CANDatabase → Except Exn (Tokenizer × CANDatabase)} {tk : Tokenizer}
    (hspec : SectionSpec run tk) (hag : ∀ db, outcomeOfRef (run tk db) = f tk db)
    {db db2 : CANDatabase} {tk2 : Tokenizer} (h : f tk db = Except.ok (tk2, db2)) :
    db2.skeleton = db.skeleton := by
  obtain ⟨out, -, hall⟩ := hspec
  rw [← hag db] at h
  rw [← (outcomeOfRef_eq_ok h).2]
  exact (hall db).2

theorem parseCommentSection_spec (tk : Tokenizer) :
    SectionSpec parseCommentSection_ref tk :=
  parseCommentSection_loopRef_spec _ tk (Nat.lt_succ_self _)

theorem parseAttrValSection_spec (tk : Tokenizer) :
    SectionSpec parseAttrValSection_ref tk :=
  parseAttrValSection_loopRef_spec _ tk (Nat.lt_succ_self _)

theorem parseValDescSection_spec (tk : Tokenizer) :
    SectionSpec parseValDescSection_ref tk :=
  parseValDescSection_loopRef_spec _ tk (Nat.lt_succ_self _)

/-- C19: token consumption does not depend on the database.  For every
tokenizer state and any two databases, `parseCommentSection` either raises a
`SyntaxError` on both or returns on both with the same tokenizer state, and
the same holds for `parseAttrValSection` and for `parseValDescSection`. -/
theorem sections_consume_tokens_independently_of_database (tk : Tokenizer)
    (d1 d2 : CANDatabase) :
    ((parseCommentSection tk d1 = Except.error Exn.SyntaxError ∧
        parseCommentSection tk d2 = Except.error Exn.SyntaxError) ∨
      ∃ tk2 e1 e2, parseCommentSection tk d1 = Except.ok (tk2, e1) ∧
        parseCommentSection tk d2 = Except.ok (tk2, e2)) ∧
    ((parseAttrValSection tk d1 = Except.error Exn.SyntaxError ∧
        parseAttrValSection tk d2 = Except.error Exn.SyntaxError) ∨
      ∃ tk2 e1 e2, parseAttrValSection tk d1 = Except.ok (tk2, e1) ∧
        parseAttrValSection tk d2 = Except.ok (tk2, e2)) ∧
    ((parseValDescSection tk d1 = Except.error Exn.SyntaxError ∧
        parseValDescSection tk d2 = Except.error Exn.SyntaxError) ∨
      ∃ tk2 e1 e2, parseValDescSection tk d1 = Except.ok (tk2, e1) ∧
        parseValDescSection tk d2 = Except.ok (tk2, e2)) := by
  refine ⟨?_, ?_, ?_⟩
  · exact (parseCommentSection_spec tk).independent
      (fun db => parseCommentSection_loopRef_outcome _ tk db) d1 d2
  · exact (parseAttrValSection_spec tk).independent
      (fun db => parseAttrValSection_loopRef_outcome _ tk db) d1 d2
  · exact (parseValDescSection_spec tk).independent
      (fun db => parseValDescSection_loopRef_outcome _ tk db) d1 d2

theorem CANDatabase.ids_of_skeleton {db1 db2 : CANDatabase} (h : db1.skeleton = db2.skeleton) :
    db1.frames.map (fun f => f.can_id) = db2.frames.map (fun f => f.can_id) := by
  have key : ∀ db : CANDatabase,
      db.skeleton.frames.map (fun f => f.can_id) = db.frames.map (fun f => f.can_id) := by
    intro db
    simp [CANDatabase.skeleton, CANFrame.skeleton, Function.comp_def]
  rw [← key db1, ← key db2, h]

theorem parseNodesSection_database {tk tk2 : Tokenizer} {db db2 : CANDatabase}
    (h : parseNodesSection tk db = Except.ok (tk2, db2)) : db2 = db := by
  simp only [parseNodesSection, bind_eq_ok, Prod.exists] at h
  obtain ⟨t1, s1, -, t2, s2, -, h⟩ := h
  split at h
  · simp only [Except.ok.injEq, Prod.mk.injEq] at h
    exact h.2.symm
  · simp only [bind_eq_ok, Prod.exists] at h
    obtain ⟨t3, s3, -, t4, s4, -, h⟩ := h
    simp only [Except.ok.injEq, Prod.mk.injEq] at h
    exact h.2.symm

/-- A successful run of `fromTokenizer` decomposes into its section calls: the
database handed to `parseMsgDefSection` is the empty database, and the
database returned differs from the one `parseMsgDefSection` built by the
effect of the three post-message sections only. -/
theorem fromTokenizer_skeleton {name : String} {tk tkf : Tokenizer} {dbf : CANDatabase}
    (h : fromTokenizer name tk = Except.ok (dbf, tkf)) :
    ∃ v tk1 tk2 tk3 tk4 tk5 db1,
      parseVersionSection tk = Except.ok (v, tk1) ∧
      parseNSSection tk1 = Except.ok tk2 ∧
      parseBitTimingSection tk2 = Except.ok tk3 ∧
      parseNodesSection tk3 (CANDatabase.new name) = Except.ok (tk4, CANDatabase.new name) ∧
      parseMsgDefSection (parseUnsupportedCommandSection tk4 "VAL_TABLE_")
        (CANDatabase.new name) = Except.ok (tk5, db1) ∧
      dbf.skeleton = db1.skeleton := by
  simp only [fromTokenizer, bind_eq_ok, Prod.exists] at h
  obtain ⟨tkS, dbS, hsec, h⟩ := h
  simp only [Except.ok.injEq, Prod.mk.injEq] at h
  obtain ⟨rfl, -⟩ := h
  simp only [fromTokenizer_sections, bind_eq_ok, Prod.exists] at hsec
  obtain ⟨v, tk1, h1, tk2, h2, tk3, h3, tk4, r4, h4, tk5, r5, h5, tk6, r6, h6, tk7, r7, h7, h8⟩ :=
    hsec
  obtain rfl := parseNodesSection_database h4
  refine ⟨v, tk1, tk2, tk3, tk4, tk5, r5, h1, h2, h3, h4, h5, ?_⟩
  have s6 := (parseCommentSection_spec _).skeleton_of_ok
    (fun db => parseCommentSection_loopRef_outcome _ _ db) h6
  have s7 := (parseAttrValSection_spec _).skeleton_of_ok
    (fun db => parseAttrValSection_loopRef_outcome _ _ db) h7
  have s8 := (parseValDescSection_spec _).skeleton_of_ok
    (fun db => parseValDescSection_loopRef_outcome _ _ db) h8
  rw [s8, s7, s6]

/-- C18: structural invariant of the post-message sections.  For every
tokenizer state and every database, the database at the moment
`parseCommentSection`, `parseAttrValSection` or `parseValDescSection` returns
or raises has the skeleton of the database before: the same frames in the same
order with the same id, name and data-length code, and in each frame the same
signals with the same name, start bit, length, scale, offset, signedness, byte
order and range; only frame comments, frame periods, signal comments and
signal value tables can differ.  The by-reference run of each section agrees
with the section itself.  `parseUnsupportedCommandSection` and the drain loop
take no database.  Hence, if `fromTokenizer` returns, the database it returns
has the skeleton, and so the frame ids, of the database built by
`parseMsgDefSection`. -/
theorem post_message_sections_preserve_skeleton (name : String) (tk : Tokenizer)
    (db : CANDatabase) :
    ((parseCommentSection_ref tk db).1.skeleton = db.skeleton ∧
      outcomeOfRef (parseCommentSection_ref tk db) = parseCommentSection tk db) ∧
    ((parseAttrValSection_ref tk db).1.skeleton = db.skeleton ∧
      outcomeOfRef (parseAttrValSection_ref tk db) = parseAttrValSection tk db) ∧
    ((parseValDescSection_ref tk db).1.skeleton = db.skeleton ∧
      outcomeOfRef (parseValDescSection_ref tk db) = parseValDescSection tk db) ∧
    (∀ dbf tkf, fromTokenizer name tk = Except.ok (dbf, tkf) →
      ∃ v tk1 tk2 tk3 tk4 tk5 db1,
        parseVersionSection tk = Except.ok (v, tk1) ∧
        parseNSSection tk1 = Except.ok tk2 ∧
        parseBitTimingSection tk2 = Except.ok tk3 ∧
        parseNodesSection tk3 (CANDatabase.new name) = Except.ok (tk4, CANDatabase.new name) ∧
        parseMsgDefSection (parseUnsupportedCommandSection tk4 "VAL_TABLE_")
          (CANDatabase.new name) = Except.ok (tk5, db1) ∧
        dbf.skeleton = db1.skeleton ∧
        dbf.frames.map (fun f => f.can_id) = db1.frames.map (fun f => f.can_id)) := by
  refine ⟨⟨?_, ?_⟩, ⟨?_, ?_⟩, ⟨?_, ?_⟩, ?_⟩
  · obtain ⟨out, -, hall⟩ := parseCommentSection_spec tk
    exact (hall db).2
  · exact parseCommentSection_loopRef_outcome _ tk db
  · obtain ⟨out, -, hall⟩ := parseAttrValSection_spec tk
    exact (hall db).2
  · exact parseAttrValSection_loopRef_outcome _ tk db
  · obtain ⟨out, -, hall⟩ := parseValDescSection_spec tk
    exact (hall db).2
  · exact parseValDescSection_loopRef_outcome _ tk db
  · intro dbf tkf h
    obtain ⟨v, tk1, tk2, tk3, tk4, tk5, db1, h1, h2, h3, h4, h5, hs⟩ := fromTokenizer_skeleton h
    exact ⟨v, tk1, tk2, tk3, tk4, tk5, db1, h1, h2, h3, h4, h5, hs,
      CANDatabase.ids_of_skeleton hs⟩

theorem post_message_sections_preserve_skeleton_witness :
    fromTokenizer "" (Tokenizer.ofList engineDocument) =
        Except.ok (engineDocumentDb, Tokenizer.rejected []) ∧
    ∃ v tk1 tk2 tk3 tk4 tk5 db1,
      parseVersionSection (Tokenizer.ofList engineDocument) = Except.ok (v, tk1) ∧
      parseNSSection tk1 = Except.ok tk2 ∧
      parseBitTimingSection tk2 = Except.ok tk3 ∧
      parseNodesSection tk3 (CANDatabase.new "") = Except.ok (tk4, CANDatabase.new "") ∧
      parseMsgDefSection (parseUnsupportedCommandSection tk4 "VAL_TABLE_")
        (CANDatabase.new "") = Except.ok (tk5, db1) ∧
      engineDocumentDb.skeleton = db1.skeleton ∧
      engineDocumentDb.frames.map (fun f => f.can_id) = db1.frames.map (fun f => f.can_id) :=
  ⟨rfl, (post_message_sections_preserve_skeleton "" (Tokenizer.ofList engineDocument)
    (CANDatabase.new "")).2.2.2 engineDocumentDb (Tokenizer.rejected []) rfl⟩

end DBCParser
